import Mathlib

/-!
PSFC casino suite: ledger and game engines of `script.js`.

A shallow embedding of the outcome-resolution and payout logic of `src/script.js`.

Modelling conventions
* In the engines, JavaScript numbers that carry money (`balance`, `betAmount`, winnings)
  are exact rationals `ℚ`. The ledger is also given on JavaScript numbers proper, with
  `NaN`, the infinities and the rounding of binary64 (section "The ledger on JavaScript
  numbers").
* Card totals, roulette numbers and counters are natural numbers.
* `Math.random()` is an explicit sequence `Rand = ℕ → ℚ` of draws, consumed from index `0`.
* DOM rendering (`updateDisplay`, animations) is dropped; of `showMessage` only the
  severity tag (`win`, `lose`, `info`) is kept. The `disabled` property that
  `updateButtons` writes is kept for Blackjack and Mines, as a layer over the two engines
  (section "The buttons of Blackjack and Mines").
* Every engine object holds `this.gameState`; the field of the same name mirrors it.
-/

namespace PSFC

/-! ## Ledger (`class GameState`) -/

/-- The shared wallet: `balance` and the three reward timestamps of `setupRewardsSystem`. -/
structure GameState where
  balance : ℚ
  lastRewardTime : ℤ := 0
  lastDailyRewardTime : ℤ := 0
  lastWeeklyRewardTime : ℤ := 0
deriving DecidableEq

/-- Method `addMoney(amount)`: `this.balance += amount`, for a finite amount and without
rounding (`Binary64.GameState.addMoney` has both). -/
def GameState.addMoney (gs : GameState) (amount : ℚ) : GameState :=
  { gs with balance := gs.balance + amount }

/-- Method `removeMoney(amount)`: subtracts and returns `true` when `this.balance >= amount`,
otherwise returns `false` and changes nothing; for a finite amount and without rounding
(`Binary64.GameState.removeMoney` has `NaN` and the rounding). -/
def GameState.removeMoney (gs : GameState) (amount : ℚ) : GameState × Bool :=
  if gs.balance ≥ amount then
    ({ gs with balance := gs.balance - amount }, true)
  else
    (gs, false)

/-- One ledger call, for sequences of credit and debit operations. -/
inductive LedgerOp where
  | credit (amount : ℚ)
  | debit (amount : ℚ)
deriving DecidableEq

/-- The amount carried by a ledger call. -/
def LedgerOp.amount : LedgerOp → ℚ
  | .credit x => x
  | .debit x => x

/-- Runs one ledger call (`addMoney` or `removeMoney`, the boolean result dropped). -/
def GameState.applyOp (gs : GameState) : LedgerOp → GameState
  | .credit x => gs.addMoney x
  | .debit x => (gs.removeMoney x).1

/-- Runs a finite sequence of ledger calls, left to right. -/
def GameState.applyOps (gs : GameState) (ops : List LedgerOp) : GameState :=
  ops.foldl GameState.applyOp gs

/-! ## Randomness, cards and the deck (`createDeck`, `shuffleDeck`, `dealCard`) -/

/-- The results of successive `Math.random()` calls; each is meant to lie in `[0, 1)`. -/
abbrev Rand := ℕ → ℚ

/-- The sequence that remains after one `Math.random()` call. -/
def Rand.next (rnd : Rand) : Rand := fun n => rnd (n + 1)

/-- Every draw of the sequence lies in `[0, 1)`, as `Math.random()` promises. -/
def Rand.Valid (rnd : Rand) : Prop := ∀ n, 0 ≤ rnd n ∧ rnd n < 1

/-- The severity tag passed to `showMessage(message, type)`. -/
inductive MessageType where
  | win | lose | info
deriving DecidableEq

/-- The four entries of `suits`. -/
inductive Suit where
  | spades | hearts | diamonds | clubs
deriving DecidableEq

/-- The thirteen entries of `values`: `'A'`, `'2'` .. `'10'`, `'J'`, `'Q'`, `'K'`. -/
inductive Rank where
  | A | n2 | n3 | n4 | n5 | n6 | n7 | n8 | n9 | n10 | J | Q | K
deriving DecidableEq

/-- A card object `{ suit, value }`. -/
structure Card where
  suit : Suit
  value : Rank
deriving DecidableEq

/-- The array `suits` of `createDeck`. -/
def suits : List Suit := [.spades, .hearts, .diamonds, .clubs]

/-- The array `values` of `createDeck`. -/
def values : List Rank :=
  [.A, .n2, .n3, .n4, .n5, .n6, .n7, .n8, .n9, .n10, .J, .Q, .K]

/-- Method `parseInt(card.value)`. Both scoring functions call it on `'2'` .. `'10'` only; on the
other four strings JavaScript yields `NaN`, which is given as `0` here and never reached. -/
def Rank.parseInt : Rank → ℕ
  | .n2 => 2 | .n3 => 3 | .n4 => 4 | .n5 => 5 | .n6 => 6
  | .n7 => 7 | .n8 => 8 | .n9 => 9 | .n10 => 10
  | .A => 0 | .J => 0 | .Q => 0 | .K => 0

/-- The destructuring swap `[deck[i], deck[j]] = [deck[j], deck[i]]` for indices inside the
array (outside it the list is returned as it is; `shuffleDeck` never gets there when the
draws lie in `[0, 1)`). -/
def swap (deck : List Card) (i j : ℕ) : List Card :=
  match deck[i]?, deck[j]? with
  | some a, some b => (deck.set i b).set j a
  | _, _ => deck

/-- The loop of `shuffleDeck`, from index `i` down to `1`:
`j = Math.floor(Math.random() * (i + 1))`, then swap positions `i` and `j`. -/
def shuffleLoop : ℕ → List Card → Rand → List Card × Rand
  | 0, deck, rnd => (deck, rnd)
  | i + 1, deck, rnd =>
    let j := ⌊rnd 0 * (((i + 1 : ℕ) : ℚ) + 1)⌋₊
    shuffleLoop i (swap deck (i + 1) j) rnd.next

/-- Method `shuffleDeck()`: the loop started at `this.deck.length - 1`. -/
def shuffleDeck (deck : List Card) (rnd : Rand) : List Card × Rand :=
  shuffleLoop (deck.length - 1) deck rnd

/-- The 52 cards pushed by the nested loops of `createDeck`, suit by suit. -/
def orderedDeck : List Card :=
  suits.flatMap fun suit => values.map fun value => { suit := suit, value := value }

/-- Method `createDeck()`: the ordered deck, shuffled. -/
def createDeck (rnd : Rand) : List Card × Rand :=
  shuffleDeck orderedDeck rnd

/-- Method `dealCard()`: rebuild the deck when it is empty, then `this.deck.pop()` (the last
element). The result is the card, the remaining deck and the remaining random draws.
`pop()` on an empty array (`undefined`) cannot happen after `createDeck`, see
`dealCard_pops`; that branch returns the deck untouched with a placeholder card. -/
def dealCard (deck : List Card) (rnd : Rand) : Card × List Card × Rand :=
  let fresh := if deck.length = 0 then createDeck rnd else (deck, rnd)
  match fresh.1.getLast? with
  | some card => (card, fresh.1.dropLast, fresh.2)
  | none => ({ suit := .spades, value := .A }, fresh.1, fresh.2)

/-! ## Blackjack (`class BlackjackGame`) -/

/-- The first loop of `calculateHandValue`: the running `(value, aces)` after one card. -/
def BlackjackGame.scoreCard (acc : ℕ × ℕ) (card : Card) : ℕ × ℕ :=
  if card.value = Rank.A then (acc.1, acc.2 + 1)
  else if card.value ∈ [Rank.K, Rank.Q, Rank.J] then (acc.1 + 10, acc.2)
  else (acc.1 + card.value.parseInt, acc.2)

/-- The second loop of `calculateHandValue`: each of the `aces` adds 11 when
`value + 11 <= 21` and 1 otherwise. -/
def BlackjackGame.addAces : ℕ → ℕ → ℕ
  | 0, value => value
  | aces + 1, value =>
    BlackjackGame.addAces aces (if value + 11 ≤ 21 then value + 11 else value + 1)

/-- Method `BlackjackGame.calculateHandValue(hand)`. -/
def BlackjackGame.calculateHandValue (hand : List Card) : ℕ :=
  let acc := hand.foldl BlackjackGame.scoreCard (0, 0)
  BlackjackGame.addAces acc.2 acc.1

/-- The argument of `endGame(result)`. -/
inductive BlackjackResult where
  | win | lose | bust | dealer_bust | push
deriving DecidableEq

/-- The fields of a `BlackjackGame` object, the tag of the last `showMessage` and the
random draws still to come. -/
structure BlackjackGame where
  gameState : GameState
  deck : List Card
  playerHand : List Card
  dealerHand : List Card
  currentBet : ℚ
  gameInProgress : Bool
  message : Option MessageType
  random : Rand

namespace BlackjackGame

/-- Statement `this.playerHand.push(this.dealCard())`. -/
def dealToPlayer (g : BlackjackGame) : BlackjackGame :=
  let r := dealCard g.deck g.random
  { g with playerHand := g.playerHand ++ [r.1], deck := r.2.1, random := r.2.2 }

/-- Statement `this.dealerHand.push(this.dealCard())`. -/
def dealToDealer (g : BlackjackGame) : BlackjackGame :=
  let r := dealCard g.deck g.random
  { g with dealerHand := g.dealerHand ++ [r.1], deck := r.2.1, random := r.2.2 }

/-- Method `endGame(result)`: clears the flag, credits by the `switch`, then zeroes `currentBet`. -/
def endGame (g : BlackjackGame) (result : BlackjackResult) : BlackjackGame :=
  let g1 := { g with gameInProgress := false }
  let g2 : BlackjackGame :=
    match result with
    | .win =>
      { g1 with gameState := g1.gameState.addMoney (g1.currentBet * 2), message := some .win }
    | .lose => { g1 with message := some .lose }
    | .bust => { g1 with message := some .lose }
    | .dealer_bust =>
      { g1 with gameState := g1.gameState.addMoney (g1.currentBet * 2), message := some .win }
    | .push =>
      { g1 with gameState := g1.gameState.addMoney g1.currentBet, message := some .info }
  { g2 with currentBet := 0 }

/-- The `if` chain of `determineWinner` on the two totals. -/
def decideResult (playerValue dealerValue : ℕ) : BlackjackResult :=
  if playerValue > 21 then .bust
  else if dealerValue > 21 then .dealer_bust
  else if playerValue > dealerValue then .win
  else if dealerValue > playerValue then .lose
  else .push

/-- Method `determineWinner()`. -/
def determineWinner (g : BlackjackGame) : BlackjackGame :=
  g.endGame (decideResult (calculateHandValue g.playerHand) (calculateHandValue g.dealerHand))

/-- The `while` loop of `stand`, run for at most `fuel` draws: the dealer draws while the
hand scores below 17. `none` means the fuel ran out with the loop still running. -/
def dealerLoop : ℕ → BlackjackGame → Option BlackjackGame
  | 0, g => if calculateHandValue g.dealerHand < 17 then none else some g
  | fuel + 1, g =>
    if calculateHandValue g.dealerHand < 17 then dealerLoop fuel g.dealToDealer else some g

/-- Method `stand()`: nothing when no round is in progress; else the dealer plays and the round
is settled. -/
def stand (fuel : ℕ) (g : BlackjackGame) : Option BlackjackGame :=
  if !g.gameInProgress then some g
  else (dealerLoop fuel g).map determineWinner

/-- Method `hit()`. -/
def hit (fuel : ℕ) (g : BlackjackGame) : Option BlackjackGame :=
  if !g.gameInProgress then some g
  else
    let g1 := g.dealToPlayer
    let playerValue := calculateHandValue g1.playerHand
    if playerValue > 21 then some (g1.endGame .bust)
    else if playerValue = 21 then stand fuel g1
    else some g1

/-- Method `deal()` with `betAmount` read from the input field. -/
def deal (fuel : ℕ) (g : BlackjackGame) (betAmount : ℚ) : Option BlackjackGame :=
  if betAmount ≤ 0 ∨ betAmount > g.gameState.balance then
    some { g with message := some .lose }
  else
    let r := g.gameState.removeMoney betAmount
    if !r.2 then some { g with gameState := r.1, message := some .lose }
    else
      let g1 : BlackjackGame :=
        { g with gameState := r.1, currentBet := betAmount, gameInProgress := true,
                 playerHand := [], dealerHand := [] }
      let g2 := g1.dealToPlayer.dealToDealer.dealToPlayer.dealToDealer
      if calculateHandValue g2.playerHand = 21 then stand fuel g2 else some g2

end BlackjackGame

/-- The least total of a card: an Ace as 1, `'K'`, `'Q'`, `'J'` as 10, numerals at face
value. -/
def cardMin (card : Card) : ℕ :=
  if card.value = Rank.A then 1
  else if card.value ∈ [Rank.K, Rank.Q, Rank.J] then 10
  else card.value.parseInt

/-- Specification side of the scoring claim: every total of a hand obtainable by valuing
each Ace as 1 or as 11 (face cards 10, numerals at face value). -/
def aceTotals : List Card → List ℕ
  | [] => [0]
  | card :: rest =>
    if card.value = Rank.A then (aceTotals rest).flatMap fun t => [t + 1, t + 11]
    else (aceTotals rest).map fun t => t + cardMin card

/-- A player action during a Blackjack round. -/
inductive BlackjackAction where
  | hit | stand
deriving DecidableEq

namespace BlackjackGame

/-- Runs one player action. -/
def act (fuel : ℕ) (g : BlackjackGame) : BlackjackAction → Option BlackjackGame
  | .hit => hit fuel g
  | .stand => stand fuel g

/-- Runs a list of player actions, left to right. -/
def acts (fuel : ℕ) : BlackjackGame → List BlackjackAction → Option BlackjackGame
  | g, [] => some g
  | g, a :: rest => (act fuel g a).bind fun g1 => acts fuel g1 rest

/-- A round: `deal()` with the given bet, then the player's actions. -/
def playRound (fuel : ℕ) (g : BlackjackGame) (betAmount : ℚ)
    (actions : List BlackjackAction) : Option BlackjackGame :=
  (deal fuel g betAmount).bind fun g1 => acts fuel g1 actions

/-- What a round looks like after an accepted `deal()` of `a` from balance `b`: either
still in progress with the stake debited, or over with the credit that belongs to the
tag shown. -/
def RoundInv (b a : ℚ) (g : BlackjackGame) : Prop :=
  (g.gameInProgress = true ∧ g.currentBet = a ∧ g.gameState.balance = b - a) ∨
  (g.gameInProgress = false ∧
    ((g.message = some .lose ∧ g.gameState.balance = b - a) ∨
     (g.message = some .win ∧ g.gameState.balance = b - a + a * 2) ∨
     (g.message = some .info ∧ g.gameState.balance = b - a + a)))

end BlackjackGame

/-- The hand `[A, A, K]`. -/
def handAAK : List Card :=
  [{ suit := .spades, value := .A }, { suit := .hearts, value := .A },
   { suit := .spades, value := .K }]

/-- A forced deck for two rounds (the last element is drawn first): round one deals the
player 10, 6 and the dealer K, 9; round two deals the player K, Q and the dealer 9, 8. -/
def traceDeck : List Card :=
  [{ suit := .spades, value := .n8 }, { suit := .spades, value := .Q },
   { suit := .hearts, value := .n9 }, { suit := .hearts, value := .K },
   { suit := .spades, value := .n9 }, { suit := .spades, value := .n6 },
   { suit := .spades, value := .K }, { suit := .spades, value := .n10 }]

/-- An idle Blackjack engine with balance 5000 and the forced deck. -/
def traceStart : BlackjackGame :=
  { gameState := { balance := 5000 }, deck := traceDeck, playerHand := [], dealerHand := [],
    currentBet := 0, gameInProgress := false, message := none, random := fun _ => 0 }

/-- A round in progress: the dealer holds K, 6 and the next card is a 5. -/
def dealerSixteen : BlackjackGame :=
  { gameState := { balance := 4900 },
    deck := [{ suit := .spades, value := .n5 }],
    playerHand := [{ suit := .hearts, value := .n10 }, { suit := .hearts, value := .n8 }],
    dealerHand := [{ suit := .spades, value := .K }, { suit := .spades, value := .n6 }],
    currentBet := 100, gameInProgress := true, message := none, random := fun _ => 0 }

/-! ## Roulette (`class RouletteGame`) -/

/-- The array `redNumbers` of `checkOutsideBet`. -/
def redNumbers : List ℕ :=
  [1, 3, 5, 7, 9, 12, 14, 16, 18, 19, 21, 23, 25, 27, 30, 32, 34, 36]

/-- Method `checkOutsideBet(bet, number)`. -/
def checkOutsideBet (bet : String) (number : ℕ) : Bool :=
  if bet = "red" then decide (number ∈ redNumbers)
  else if bet = "black" then decide (number ≠ 0) && !decide (number ∈ redNumbers)
  else if bet = "even" then decide (number ≠ 0) && decide (number % 2 = 0)
  else if bet = "odd" then decide (number ≠ 0) && decide (number % 2 = 1)
  else if bet = "1-18" then decide (number ≥ 1) && decide (number ≤ 18)
  else if bet = "19-36" then decide (number ≥ 19) && decide (number ≤ 36)
  else if bet = "1st12" then decide (number ≥ 1) && decide (number ≤ 12)
  else if bet = "2nd12" then decide (number ≥ 13) && decide (number ≤ 24)
  else if bet = "3rd12" then decide (number ≥ 25) && decide (number ≤ 36)
  else false

/-- Method `getBetPayout(bet)`: the table `payouts`, and `0` for a key it lacks. -/
def getBetPayout (bet : String) : ℚ :=
  if bet = "red" then 1
  else if bet = "black" then 1
  else if bet = "even" then 1
  else if bet = "odd" then 1
  else if bet = "1-18" then 1
  else if bet = "19-36" then 1
  else if bet = "1st12" then 2
  else if bet = "2nd12" then 2
  else if bet = "3rd12" then 2
  else 0

/-- The fields of a `RouletteGame` object. The two JavaScript `Set`s are finite sets (the
number strings are identified with the numbers they spell); `pending` holds the arguments
`(winningNumber, betAmount, totalBets)` of the `endSpin` call scheduled by `setTimeout`. -/
structure RouletteGame where
  gameState : GameState
  selectedNumbers : Finset ℕ
  selectedBets : Finset String
  isSpinning : Bool
  message : Option MessageType
  pending : Option (ℕ × ℚ × ℕ)

namespace RouletteGame

/-- Statement `Math.floor(Math.random() * 37)`. -/
def drawNumber (random : ℚ) : ℕ := ⌊random * 37⌋₊

/-- Method `clearBets()`. -/
def clearBets (g : RouletteGame) : RouletteGame :=
  { g with selectedNumbers := ∅, selectedBets := ∅ }

/-- The sum `totalWinnings` built by `endSpin`: `betAmount * 35` when the winning number
is selected, plus `betAmount * getBetPayout(bet)` for every selected outside bet that
`checkOutsideBet` accepts. -/
def totalWinnings (g : RouletteGame) (winningNumber : ℕ) (betAmount : ℚ) : ℚ :=
  (if winningNumber ∈ g.selectedNumbers then betAmount * 35 else 0) +
    ∑ bet in g.selectedBets,
      if checkOutsideBet bet winningNumber = true then betAmount * getBetPayout bet else 0

/-- Method `endSpin(winningNumber, betAmount, totalBets)`. -/
def endSpin (g : RouletteGame) (winningNumber : ℕ) (betAmount : ℚ) (_totalBets : ℕ) :
    RouletteGame :=
  let g1 := { g with isSpinning := false, pending := none }
  let g2 : RouletteGame :=
    if g1.totalWinnings winningNumber betAmount > 0 then
      { g1 with gameState := g1.gameState.addMoney (g1.totalWinnings winningNumber betAmount),
                message := some .win }
    else
      { g1 with message := some .lose }
  g2.clearBets

/-- Method `spin()` with `betAmount` read from the input field and `random` the result of the
one `Math.random()` call. -/
def spin (g : RouletteGame) (betAmount : ℚ) (random : ℚ) : RouletteGame :=
  if g.isSpinning then g
  else
    let totalBets := g.selectedNumbers.card + g.selectedBets.card
    if totalBets = 0 then { g with message := some .lose }
    else
      let totalBetAmount := betAmount * (totalBets : ℚ)
      if totalBetAmount > g.gameState.balance then { g with message := some .lose }
      else
        let r := g.gameState.removeMoney totalBetAmount
        if !r.2 then { g with gameState := r.1, message := some .lose }
        else
          { g with gameState := r.1, isSpinning := true,
                   pending := some (drawNumber random, betAmount, totalBets) }

/-- The timer set by `spin()` fires: the scheduled `endSpin` call runs. -/
def timerFires (g : RouletteGame) : RouletteGame :=
  match g.pending with
  | some (winningNumber, betAmount, totalBets) => g.endSpin winningNumber betAmount totalBets
  | none => g

/-- A whole round: `spin()`, then the timer. -/
def spinRound (g : RouletteGame) (betAmount : ℚ) (random : ℚ) : RouletteGame :=
  (g.spin betAmount random).timerFires

end RouletteGame

/-- An idle roulette engine with balance 5000 and the given selections. -/
def rouletteStart (numbers : Finset ℕ) (bets : Finset String) : RouletteGame :=
  { gameState := { balance := 5000 }, selectedNumbers := numbers, selectedBets := bets,
    isSpinning := false, message := none, pending := none }

/-! ## Bet placement of the other engines

Of `SlotsGame`, `PlinkoGame`, `DiceGame` and `LimboGame` the synchronous part of the
bet-placing method is embedded: the checks, the ledger debit, the flag, and in `pending` the
values captured by the callback that settles the round later. -/

/-- The fields of a `SlotsGame` object used by `spin()`; `pending` holds the argument of
the `evaluateWin(betAmount)` call that runs once `animateReels()` resolves. -/
structure SlotsGame where
  gameState : GameState
  isSpinning : Bool
  message : Option MessageType
  pending : Option ℚ

/-- Method `SlotsGame.spin()` with `betAmount` read from the input field. -/
def SlotsGame.spin (g : SlotsGame) (betAmount : ℚ) : SlotsGame :=
  if g.isSpinning then g
  else if betAmount > g.gameState.balance then { g with message := some .lose }
  else
    let r := g.gameState.removeMoney betAmount
    if !r.2 then { g with gameState := r.1, message := some .lose }
    else { g with gameState := r.1, isSpinning := true, pending := some betAmount }

/-- The array `multipliers` of `createBuckets`. -/
def multipliers : List ℚ :=
  [16, 9, 2, 1.4, 1.4, 1.2, 1.1, 1, 0.5, 1, 1.1, 1.2, 1.4, 1.4, 2, 9, 16]

/-- One row of `simulateBallPath`: left when `random < 0.5` and `position > 0`, right when
`random >= 0.5` and `position < 16`. -/
def plinkoRow (position : ℕ) (random : ℚ) : ℕ :=
  if random < 0.5 ∧ position > 0 then position - 1
  else if random ≥ 0.5 ∧ position < 16 then position + 1
  else position

/-- The `for` loop of `simulateBallPath` over the remaining rows. -/
def plinkoRows : ℕ → ℕ → Rand → ℕ × Rand
  | 0, position, rnd => (position, rnd)
  | rows + 1, position, rnd => plinkoRows rows (plinkoRow position (rnd 0)) rnd.next

/-- Method `simulateBallPath()`: 16 rows from position 8, then
`Math.max(0, Math.min(16, position))`. -/
def simulateBallPath (rnd : Rand) : ℕ × Rand :=
  let r := plinkoRows 16 8 rnd
  (max 0 (min 16 r.1), r.2)

/-- The fields of a `PlinkoGame` object used by `dropBall()`; `pending` holds
`(betAmount, finalBucket, multiplier)` for the callback of `animateBallDrop`. -/
structure PlinkoGame where
  gameState : GameState
  isDropping : Bool
  message : Option MessageType
  random : Rand
  pending : Option (ℚ × ℕ × ℚ)

/-- Method `PlinkoGame.dropBall()` up to the start of the animation. The bucket's
`dataset.multiplier` is the entry of `multipliers` at `finalBucket`. -/
def PlinkoGame.dropBall (g : PlinkoGame) (betAmount : ℚ) : PlinkoGame :=
  if g.isDropping then g
  else if betAmount > g.gameState.balance then { g with message := some .lose }
  else
    let r := g.gameState.removeMoney betAmount
    if !r.2 then { g with gameState := r.1, message := some .lose }
    else
      let path := simulateBallPath g.random
      { g with gameState := r.1, isDropping := true, random := path.2,
               pending := some (betAmount, path.1, multipliers.getD path.1 0) }

/-- The fields of a `DiceGame` object; `pending` holds `(betAmount, target, roll)` for the
callback that settles the roll. -/
structure DiceGame where
  gameState : GameState
  betType : String
  message : Option MessageType
  pending : Option (ℚ × ℤ × ℕ)

/-- Method `DiceGame.rollDice()` up to `setTimeout`; the roll is
`Math.floor(Math.random() * 100) + 1`. -/
def DiceGame.rollDice (g : DiceGame) (betAmount : ℚ) (target : ℤ) (random : ℚ) : DiceGame :=
  if betAmount > g.gameState.balance then { g with message := some .lose }
  else
    let r := g.gameState.removeMoney betAmount
    if !r.2 then { g with gameState := r.1, message := some .lose }
    else { g with gameState := r.1, pending := some (betAmount, target, ⌊random * 100⌋₊ + 1) }

/-- The fields of a `LimboGame` object; `pending` holds `(betAmount, target, crashPoint)`
for the two timers of the round. -/
structure LimboGame where
  gameState : GameState
  isPlaying : Bool
  message : Option MessageType
  pending : Option (ℚ × ℚ × ℕ)

/-- Method `generateCrashPoint()`: `Math.max(1, Math.floor(Math.random() * 1000))`. -/
def LimboGame.generateCrashPoint (random : ℚ) : ℕ := max 1 ⌊random * 1000⌋₊

/-- Method `LimboGame.play()` up to the start of the two timers. -/
def LimboGame.play (g : LimboGame) (betAmount target : ℚ) (random : ℚ) : LimboGame :=
  if g.isPlaying then g
  else if betAmount > g.gameState.balance then { g with message := some .lose }
  else
    let r := g.gameState.removeMoney betAmount
    if !r.2 then { g with gameState := r.1, message := some .lose }
    else
      { g with gameState := r.1, isPlaying := true,
               pending := some (betAmount, target, LimboGame.generateCrashPoint random) }

/-! ## Speed Baccarat (`class BaccaratGame`) -/

/-- The fields of a `BaccaratGame` object, the tag of the last `showMessage` and the
random draws still to come. `createDeck`, `shuffleDeck` and `dealCard` of this class
repeat those of `BlackjackGame`. -/
structure BaccaratGame where
  gameState : GameState
  deck : List Card
  playerHand : List Card
  bankerHand : List Card
  currentBet : ℚ
  selectedBet : Option String
  gameInProgress : Bool
  message : Option MessageType
  random : Rand

namespace BaccaratGame

/-- The loop body of `BaccaratGame.calculateHandValue`. -/
def scoreCard (value : ℕ) (card : Card) : ℕ :=
  if card.value ∈ [Rank.K, Rank.Q, Rank.J, Rank.n10] then value + 0
  else if card.value = Rank.A then value + 1
  else value + card.value.parseInt

/-- Method `BaccaratGame.calculateHandValue(hand)`: the sum, `% 10`. -/
def calculateHandValue (hand : List Card) : ℕ :=
  hand.foldl scoreCard 0 % 10

/-- Statement `this.playerHand.push(this.dealCard())`. -/
def dealToPlayer (g : BaccaratGame) : BaccaratGame :=
  let r := dealCard g.deck g.random
  { g with playerHand := g.playerHand ++ [r.1], deck := r.2.1, random := r.2.2 }

/-- Statement `this.bankerHand.push(this.dealCard())`. -/
def dealToBanker (g : BaccaratGame) : BaccaratGame :=
  let r := dealCard g.deck g.random
  { g with bankerHand := g.bankerHand ++ [r.1], deck := r.2.1, random := r.2.2 }

/-- Method `endGame(winner)`. -/
def endGame (g : BaccaratGame) (winner : String) : BaccaratGame :=
  let g1 := { g with gameInProgress := false }
  let g2 : BaccaratGame :=
    if g1.selectedBet = some winner then
      let winnings := if winner = "tie" then g1.currentBet * 8 else g1.currentBet * 2
      { g1 with gameState := g1.gameState.addMoney winnings, message := some .win }
    else
      { g1 with message := some .lose }
  { g2 with currentBet := 0, selectedBet := none }

/-- Method `determineWinner()`. -/
def determineWinner (g : BaccaratGame) : BaccaratGame :=
  let playerValue := calculateHandValue g.playerHand
  let bankerValue := calculateHandValue g.bankerHand
  let winner :=
    if playerValue > bankerValue then "player"
    else if bankerValue > playerValue then "banker"
    else "tie"
  g.endGame winner

/-- Method `deal()` with `betAmount` read from the input field; `!this.selectedBet` holds for
`null` and for the empty string. -/
def deal (g : BaccaratGame) (betAmount : ℚ) : BaccaratGame :=
  if g.selectedBet = none ∨ g.selectedBet = some "" then { g with message := some .lose }
  else if betAmount > g.gameState.balance then { g with message := some .lose }
  else
    let r := g.gameState.removeMoney betAmount
    if !r.2 then { g with gameState := r.1, message := some .lose }
    else
      let g1 : BaccaratGame :=
        { g with gameState := r.1, currentBet := betAmount, gameInProgress := true,
                 playerHand := [], bankerHand := [] }
      g1.dealToPlayer.dealToBanker.dealToPlayer.dealToBanker.determineWinner

end BaccaratGame

/-- An idle Slots engine with balance 5000. -/
def slotsStart : SlotsGame :=
  { gameState := { balance := 5000 }, isSpinning := false, message := none, pending := none }

/-- An idle Plinko engine with balance 5000; every draw is `1 / 2`. -/
def plinkoStart : PlinkoGame :=
  { gameState := { balance := 5000 }, isDropping := false, message := none,
    random := fun _ => 1 / 2, pending := none }

/-- A Dice engine with balance 5000 and bet type `over`. -/
def diceStart : DiceGame :=
  { gameState := { balance := 5000 }, betType := "over", message := none, pending := none }

/-- An idle Limbo engine with balance 5000. -/
def limboStart : LimboGame :=
  { gameState := { balance := 5000 }, isPlaying := false, message := none, pending := none }

/-- An idle Baccarat engine with balance 5000, `player` selected and the forced deck: the
player is dealt 10, 6 (value 6) and the banker K, 9 (value 9). -/
def baccaratStart : BaccaratGame :=
  { gameState := { balance := 5000 }, deck := traceDeck, playerHand := [], bankerHand := [],
    currentBet := 0, selectedBet := some "player", gameInProgress := false, message := none,
    random := fun _ => 0 }

/-! ## Mines (`class MinesGame`) -/

/-- The fields of a `MinesGame` object, the tag of the last `showMessage` and the random
draws still to come. An entry of `mines` is `none` where JavaScript stores `undefined`
(`availablePositions[randomIndex]` past the end of the array). -/
structure MinesGame where
  gameState : GameState
  board : List ℕ
  mines : List (Option ℕ)
  revealed : List ℕ
  gameInProgress : Bool
  currentBet : ℚ
  gemsFound : ℕ
  currentMultiplier : ℚ
  message : Option MessageType
  random : Rand

namespace MinesGame

/-- The board built by `createBoard()`: the indices 0 .. 24. -/
def createBoard (g : MinesGame) : MinesGame :=
  { g with board := List.range 25 }

/-- The constructor `new MinesGame(gameState)`. -/
def new (gameState : GameState) (random : Rand) : MinesGame :=
  createBoard
    { gameState := gameState, board := [], mines := [], revealed := [],
      gameInProgress := false, currentBet := 0, gemsFound := 0, currentMultiplier := 1,
      message := none, random := random }

/-- The mine-placing loop of `startGame`, for the iterations still to run:
`randomIndex = Math.floor(Math.random() * availablePositions.length)`, push
`availablePositions[randomIndex]`, then `availablePositions.splice(randomIndex, 1)`. -/
def placeMines : ℕ → List ℕ → List (Option ℕ) → Rand → List (Option ℕ) × Rand
  | 0, _, mines, rnd => (mines, rnd)
  | n + 1, availablePositions, mines, rnd =>
    let randomIndex := ⌊rnd 0 * (availablePositions.length : ℚ)⌋₊
    placeMines n (availablePositions.eraseIdx randomIndex)
      (mines ++ [availablePositions[randomIndex]?]) rnd.next

/-- Method `startGame()` with `betAmount` and `minesCount` read from the input fields (a
negative `minesCount` runs the loop as often as `0` does). -/
def startGame (g : MinesGame) (betAmount : ℚ) (minesCount : ℕ) : MinesGame :=
  if betAmount ≤ 0 ∨ betAmount > g.gameState.balance then
    { g with message := some .lose }
  else
    let r := g.gameState.removeMoney betAmount
    if !r.2 then { g with gameState := r.1, message := some .lose }
    else
      let placed := placeMines minesCount g.board [] g.random
      { g with gameState := r.1, currentBet := betAmount, gameInProgress := true,
               gemsFound := 0, currentMultiplier := 1, revealed := [],
               mines := placed.1, random := placed.2, message := some .info }

/-- The `for` loop of `calculateMultiplier`: `probability` after the iterations
`i = 0 .. n - 1`, each multiplying by `(safeTiles - i) / (totalTiles - i)`. -/
def probabilityLoop (safeTiles totalTiles : ℤ) : ℕ → ℚ
  | 0 => 1
  | i + 1 =>
    probabilityLoop safeTiles totalTiles i *
      (((safeTiles - (i : ℤ) : ℤ) : ℚ) / ((totalTiles - (i : ℤ) : ℤ) : ℚ))

/-- Method `calculateMultiplier()`. -/
def calculateMultiplier (g : MinesGame) : ℚ :=
  let minesCount : ℤ := g.mines.length
  let gemsFound : ℕ := g.gemsFound
  let totalTiles : ℤ := 25
  let safeTiles : ℤ := totalTiles - minesCount
  let remainingTiles : ℤ := totalTiles - gemsFound
  if remainingTiles = 0 then 1
  else
    let probability := probabilityLoop safeTiles totalTiles gemsFound
    let houseEdge : ℚ := 0.95
    let multiplier := houseEdge / probability
    max 1 multiplier

/-- Method `revealTile(index)`. -/
def revealTile (g : MinesGame) (index : ℕ) : MinesGame :=
  if !g.gameInProgress ∨ index ∈ g.revealed then g
  else
    let g1 := { g with revealed := g.revealed ++ [index] }
    if some index ∈ g1.mines then
      { g1 with gameInProgress := false, message := some .lose }
    else
      let g2 := { g1 with gemsFound := g1.gemsFound + 1 }
      { g2 with currentMultiplier := g2.calculateMultiplier, message := some .win }

/-- Method `cashout()`. -/
def cashout (g : MinesGame) : MinesGame :=
  if !g.gameInProgress ∨ g.gemsFound = 0 then g
  else
    let winnings := g.currentBet * g.currentMultiplier
    { g with gameState := g.gameState.addMoney winnings, gameInProgress := false,
             message := some .win }

/-- Method `resetGame()`. -/
def resetGame (g : MinesGame) : MinesGame :=
  createBoard
    { g with gameInProgress := false, currentBet := 0, gemsFound := 0,
             currentMultiplier := 1, revealed := [], mines := [], message := some .info }

end MinesGame

/-- A user action on the Mines engine. -/
inductive MinesAction where
  | startGame (betAmount : ℚ) (minesCount : ℕ)
  | revealTile (index : ℕ)
  | cashout
  | resetGame

namespace MinesGame

/-- Runs one user action. -/
def act (g : MinesGame) : MinesAction → MinesGame
  | .startGame betAmount minesCount => g.startGame betAmount minesCount
  | .revealTile index => g.revealTile index
  | .cashout => g.cashout
  | .resetGame => g.resetGame

/-- Runs a list of user actions, left to right. -/
def run (g : MinesGame) (actions : List MinesAction) : MinesGame :=
  actions.foldl act g

/-- The board invariant of the data model: `gemsFound` counts the revealed indices that
are not mines, `revealed` has no duplicates, and while the round is in progress no
revealed index is a mine. -/
def BoardInv (g : MinesGame) : Prop :=
  g.gemsFound = (g.revealed.filter fun i => decide (some i ∉ g.mines)).length ∧
  g.revealed.Nodup ∧
  (g.gameInProgress = true → ∀ i ∈ g.revealed, some i ∉ g.mines)

end MinesGame

/-- Specification side of the multiplier claim: the probability
`P = Π_{k=0}^{g-1} (25 - m - k) / (25 - k)` of the formula. -/
def minesProbability (m g : ℕ) : ℚ :=
  ∏ k in Finset.range g, ((25 : ℚ) - m - k) / ((25 : ℚ) - k)

/-- A Mines state with `m` mines (the indices `0 .. m - 1`) and `g` gems found. -/
def minesState (m g : ℕ) : MinesGame :=
  { gameState := { balance := 4900 }, board := List.range 25,
    mines := (List.range m).map some, revealed := List.range' m g,
    gameInProgress := true, currentBet := 100, gemsFound := g, currentMultiplier := 1,
    message := none, random := fun _ => 0 }

/-- A new Mines engine with balance 5000; every draw is `1 / 2`. -/
def minesStart : MinesGame :=
  MinesGame.new { balance := 5000 } fun _ => 1 / 2

/-! ## Settlement of Slots and Dice -/

/-- The array `this.symbols` of `SlotsGame`. -/
def SlotsGame.symbols : List String := ["7", "bar", "wild", "double"]

/-- The lookup `this.payouts[symbol]`: `none` where the table has no such key. -/
def SlotsGame.payouts (symbol : String) : Option ℚ :=
  if symbol = "7" then some 777
  else if symbol = "bar" then some 100
  else if symbol = "wild" then some 200
  else if symbol = "double" then some 150
  else none

/-- Method `evaluateWin(betAmount)`; `centerSymbols` are the `data-symbol` attributes that
the method reads from the third symbol of each of the three reels. The callback captured
in `pending` is used up. -/
def SlotsGame.evaluateWin (g : SlotsGame) (betAmount : ℚ)
    (centerSymbols : String × String × String) : SlotsGame :=
  let totalWin : ℚ :=
    if centerSymbols.1 = centerSymbols.2.1 ∧ centerSymbols.2.1 = centerSymbols.2.2 then
      let symbol := centerSymbols.1
      let payout := (SlotsGame.payouts symbol).getD 0
      betAmount * (payout / 100)
    else 0
  let g1 : SlotsGame :=
    if totalWin > 0 then
      { g with gameState := g.gameState.addMoney totalWin, message := some .win }
    else
      { g with message := some .lose }
  { g1 with isSpinning := false, pending := none }

/-- The `chance` computed by `calculatePayout(target)` for a bet type (and, times 100, shown
by `updateChance`). -/
def DiceGame.chance (betType : String) (target : ℤ) : ℚ :=
  if betType = "over" then (((100 - target : ℤ) : ℚ)) / 100
  else (target : ℚ) / 100

/-- Method `calculatePayout(target)`: `0.99 / chance`. Division by a zero `chance` gives
`0` here and `Infinity` in JavaScript; `rollDice` calls the method after a win only. -/
def DiceGame.calculatePayout (g : DiceGame) (target : ℤ) : ℚ :=
  0.99 / DiceGame.chance g.betType target

/-- The win test of the `rollDice` callback: `won` after the two `if`s. -/
def DiceGame.isWin (betType : String) (roll : ℕ) (target : ℤ) : Bool :=
  if betType = "over" ∧ (roll : ℤ) > target then true
  else if betType = "under" ∧ (roll : ℤ) < target then true
  else false

/-- The callback that `rollDice` passes to `setTimeout`, with the captured `betAmount`,
`target` and `roll`. -/
def DiceGame.settle (g : DiceGame) (betAmount : ℚ) (target : ℤ) (roll : ℕ) : DiceGame :=
  if DiceGame.isWin g.betType roll target = true then
    let payout := g.calculatePayout target
    let winnings := betAmount * payout
    { g with gameState := g.gameState.addMoney winnings, message := some .win,
             pending := none }
  else
    { g with message := some .lose, pending := none }

/-- The timer set by `rollDice()` fires: the captured callback runs. -/
def DiceGame.timerFires (g : DiceGame) : DiceGame :=
  match g.pending with
  | some (betAmount, target, roll) => g.settle betAmount target roll
  | none => g

/-- Specification side of the win-chance claim: the number of rolls in `{1, ..., 100}` that
the win test accepts. -/
def DiceGame.winningRolls (betType : String) (target : ℤ) : ℕ :=
  ((List.range' 1 100).filter fun roll => DiceGame.isWin betType roll target).length

/-- A Dice engine with balance 4900 (a stake of 100 debited) and the given bet type. -/
def diceAfterBet (betType : String) : DiceGame :=
  { gameState := { balance := 4900 }, betType := betType, message := none, pending := none }

/-! ## Reward scheduler (`setupRewardsSystem`, `claimReward` and its two siblings) -/

/-- The field `rewardInterval`: 10 minutes in milliseconds. -/
def GameState.rewardInterval : ℤ := 10 * 60 * 1000

/-- The field `dailyRewardInterval`: 24 hours in milliseconds. -/
def GameState.dailyRewardInterval : ℤ := 24 * 60 * 60 * 1000

/-- The field `weeklyRewardInterval`: 7 days in milliseconds. -/
def GameState.weeklyRewardInterval : ℤ := 7 * 24 * 60 * 60 * 1000

/-- Method `claimReward()` with `now` the result of `Date.now()`. -/
def GameState.claimReward (gs : GameState) (now : ℤ) : GameState :=
  let timeSinceLastReward := now - gs.lastRewardTime
  if timeSinceLastReward ≥ GameState.rewardInterval then
    { gs.addMoney 100 with lastRewardTime := now }
  else gs

/-- Method `claimDailyReward()` with `now` the result of `Date.now()`. -/
def GameState.claimDailyReward (gs : GameState) (now : ℤ) : GameState :=
  let timeSinceLastDailyReward := now - gs.lastDailyRewardTime
  if timeSinceLastDailyReward ≥ GameState.dailyRewardInterval then
    { gs.addMoney 1000 with lastDailyRewardTime := now }
  else gs

/-- Method `claimWeeklyReward()` with `now` the result of `Date.now()`. -/
def GameState.claimWeeklyReward (gs : GameState) (now : ℤ) : GameState :=
  let timeSinceLastWeeklyReward := now - gs.lastWeeklyRewardTime
  if timeSinceLastWeeklyReward ≥ GameState.weeklyRewardInterval then
    { gs.addMoney 10000 with lastWeeklyRewardTime := now }
  else gs

/-! ## Specification-side functions for the card claims -/

/-- Consecutive `dealCard()` calls: the cards returned in order, the deck left and the
random draws left. -/
def dealCards : ℕ → List Card → Rand → List Card × List Card × Rand
  | 0, deck, rnd => ([], deck, rnd)
  | n + 1, deck, rnd =>
    let r := dealCard deck rnd
    let rest := dealCards n r.2.1 r.2.2
    (r.1 :: rest.1, rest.2.1, rest.2.2)

/-- The Baccarat value of a card in the words of the specification: K, Q, J and 10 count
0, an Ace counts 1, the cards 2 .. 9 their face value. -/
def baccaratCardValue (card : Card) : ℕ :=
  match card.value with
  | .K => 0 | .Q => 0 | .J => 0 | .n10 => 0
  | .A => 1
  | .n2 => 2 | .n3 => 3 | .n4 => 4 | .n5 => 5 | .n6 => 6 | .n7 => 7 | .n8 => 8 | .n9 => 9

/-- The sum `S` of the cards of a hand that are not Aces (face cards 10, numerals at face
value). -/
def nonAceSum (hand : List Card) : ℕ :=
  ((hand.filter fun card => decide (card.value ≠ Rank.A)).map cardMin).sum

/-- The number `a` of Aces of a hand. -/
def aceCount (hand : List Card) : ℕ :=
  (hand.filter fun card => decide (card.value = Rank.A)).length

/-- The number of Aces that the Ace loop of `calculateHandValue` counts as 11, started
with `aces` Aces at the running total `value`. -/
def elevenCount : ℕ → ℕ → ℕ
  | 0, _ => 0
  | aces + 1, value =>
    if value + 11 ≤ 21 then 1 + elevenCount aces (value + 11) else elevenCount aces (value + 1)

/-- A card of spades with the given value. -/
def spade (value : Rank) : Card := { suit := .spades, value := value }

/-- A Baccarat round about to be settled: the player holds 9, 9 and the banker 5, K, with
stake 100 (debited from 5000) on the given selection. -/
def baccaratNines (selection : String) : BaccaratGame :=
  { gameState := { balance := 4900 }, deck := [],
    playerHand := [spade .n9, { suit := .hearts, value := .n9 }],
    bankerHand := [spade .n5, spade .K],
    currentBet := 100, selectedBet := some selection, gameInProgress := true,
    message := none, random := fun _ => 0 }

/-- The stake invariant of the Mines engine: the current multiplier is at least 1 and the
stake is not negative. -/
def MinesGame.StakeInv (s : MinesGame) : Prop := 1 ≤ s.currentMultiplier ∧ 0 ≤ s.currentBet

/-! ## The ledger on JavaScript numbers

`balance` and every amount are JavaScript numbers, that is IEEE 754 binary64 values. The
definitions of this section keep what the exact rationals of the first section leave out:
`NaN` (the value of `parseFloat` on an empty bet field), the two infinities, and the rounding
of `+=` and `-=` to the nearest double. The sign of zero is not kept (`-0` and `0` compare
equal and the ledger never divides). -/

/-- The power `2 ^ e` for an integer exponent. -/
def pow2 (e : ℤ) : ℚ :=
  if 0 ≤ e then ((2 ^ e.toNat : ℕ) : ℚ) else 1 / ((2 ^ (-e).toNat : ℕ) : ℚ)

/-- The integer nearest to `q`, the even one of the two on a tie. -/
def roundHalfEven (q : ℚ) : ℤ :=
  let f : ℤ := ⌊q⌋
  if q - f < 1 / 2 then f
  else if q - f > 1 / 2 then f + 1
  else if f % 2 = 0 then f
  else f + 1

/-- The number of halvings that bring `n` below 2 (at most `fuel` of them): the position
of the leading bit of `n` when `fuel` is at least that position. -/
def bitLength : ℕ → ℕ → ℕ
  | 0, _ => 0
  | fuel + 1, n => if n < 2 then 0 else 1 + bitLength fuel (n / 2)

/-- The binary exponent of a non-zero `x`: the `e` with `2 ^ e ≤ |x| < 2 ^ (e + 1)`. The
difference of the leading-bit positions of numerator and denominator is `e` or `e + 1`. -/
def binadeExponent (x : ℚ) : ℤ :=
  let k : ℤ := (bitLength x.num.natAbs x.num.natAbs : ℤ) - (bitLength x.den x.den : ℤ)
  if pow2 k ≤ |x| then k else k - 1

/-- Rounding of the exact result `x` of an operation to binary64 with an unbounded exponent
above: 53 significant bits, to nearest, ties to even, the spacing never below `2 ^ (-1074)`
(the subnormal range). -/
def roundDouble (x : ℚ) : ℚ :=
  if x = 0 then 0
  else
    let e := max (binadeExponent x - 52) (-1074)
    (roundHalfEven (x / pow2 e) : ℚ) * pow2 e

/-- A JavaScript number: `NaN`, an infinity, or a finite value. -/
inductive JSNumber where
  | nan
  | posInf
  | negInf
  | finite (x : ℚ)
deriving DecidableEq

namespace JSNumber

/-- The double that an operation with exact result `x` returns: `x` rounded, and an
infinity when the rounded magnitude reaches `2 ^ 1024`. -/
def ofExact (x : ℚ) : JSNumber :=
  let r := roundDouble x
  if pow2 1024 ≤ r then posInf
  else if r ≤ -pow2 1024 then negInf
  else finite r

/-- The comparison `a >= b`: false as soon as one side is `NaN`. -/
def ge : JSNumber → JSNumber → Bool
  | nan, _ => false
  | _, nan => false
  | posInf, _ => true
  | _, negInf => true
  | negInf, _ => false
  | _, posInf => false
  | finite x, finite y => decide (x ≥ y)

/-- The comparison `a > b`: false as soon as one side is `NaN`. -/
def gt : JSNumber → JSNumber → Bool
  | nan, _ => false
  | _, nan => false
  | posInf, posInf => false
  | posInf, _ => true
  | negInf, _ => false
  | _, negInf => true
  | _, posInf => false
  | finite x, finite y => decide (x > y)

/-- The sum `a + b` of two doubles. -/
def add : JSNumber → JSNumber → JSNumber
  | nan, _ => nan
  | _, nan => nan
  | posInf, negInf => nan
  | negInf, posInf => nan
  | posInf, _ => posInf
  | _, posInf => posInf
  | negInf, _ => negInf
  | _, negInf => negInf
  | finite x, finite y => ofExact (x + y)

/-- The difference `a - b` of two doubles. -/
def sub : JSNumber → JSNumber → JSNumber
  | nan, _ => nan
  | _, nan => nan
  | posInf, posInf => nan
  | negInf, negInf => nan
  | posInf, _ => posInf
  | _, negInf => posInf
  | negInf, _ => negInf
  | _, posInf => negInf
  | finite x, finite y => ofExact (x - y)

end JSNumber

namespace Binary64

/-- The `balance` field of the wallet as a JavaScript number (`addMoney` and `removeMoney`
touch no other field). -/
structure GameState where
  balance : JSNumber
deriving DecidableEq

/-- Method `addMoney(amount)`: `this.balance += amount`. -/
def GameState.addMoney (gs : GameState) (amount : JSNumber) : GameState :=
  { gs with balance := gs.balance.add amount }

/-- Method `removeMoney(amount)`: `if (this.balance >= amount) { this.balance -= amount;
return true; } return false;`. -/
def GameState.removeMoney (gs : GameState) (amount : JSNumber) : GameState × Bool :=
  if gs.balance.ge amount then
    ({ gs with balance := gs.balance.sub amount }, true)
  else
    (gs, false)

end Binary64

/-- The double written `3567.9`. -/
def double3567_9 : ℚ := 7845895073483981 / 2199023255552

/-- The double written `1234.78`. -/
def double1234_78 : ℚ := 5430619870980997 / 4398046511104

/-- The double written `1432.1`. -/
def double1432_1 : ℚ := 3149221204276019 / 2199023255552

/-! ## The buttons of Blackjack and Mines (`updateButtons`)

`BlackjackGame.deal()` and `MinesGame.startGame()` are called from one place each, the
`click` listener of `deal-btn` (line 338) and of `start-mines-btn` (line 776), and both
engines write the `disabled` property of these buttons in `updateButtons()`. This section
adds that property to the engine state and runs every method with its `updateButtons()`
calls in the order of the source. The markup of the page is not part of `script.js`: the
elements are taken to be buttons, as their ids and the use of `disabled` say, and a
disabled button receives no `click` event, so its listener does not run. A bet field
that does not parse (`NaN`) ends in the `Insufficient funds` branch, which like the
`Invalid bet amount` branch changes the message only. -/

/-- The Blackjack engine and the `disabled` property of `hit-btn`, `stand-btn` and
`deal-btn`. -/
structure BlackjackPage where
  game : BlackjackGame
  hitDisabled : Bool
  standDisabled : Bool
  dealDisabled : Bool

namespace BlackjackPage

/-- Method `BlackjackGame.updateButtons()`. -/
def updateButtons (p : BlackjackPage) : BlackjackPage :=
  { p with hitDisabled := !p.game.gameInProgress, standDisabled := !p.game.gameInProgress,
           dealDisabled := p.game.gameInProgress }

/-- Method `endGame(result)`: the flag is cleared, `updateButtons()` runs, then the
`switch` settles the round. -/
def endGame (p : BlackjackPage) (result : BlackjackResult) : BlackjackPage :=
  let p1 := ({ p with game := { p.game with gameInProgress := false } }).updateButtons
  { p1 with game := p1.game.endGame result }

/-- Method `determineWinner()`. -/
def determineWinner (p : BlackjackPage) : BlackjackPage :=
  p.endGame (BlackjackGame.decideResult (BlackjackGame.calculateHandValue p.game.playerHand)
    (BlackjackGame.calculateHandValue p.game.dealerHand))

/-- Method `stand()`. -/
def stand (fuel : ℕ) (p : BlackjackPage) : Option BlackjackPage :=
  if !p.game.gameInProgress then some p
  else (BlackjackGame.dealerLoop fuel p.game).map fun g => ({ p with game := g }).determineWinner

/-- Method `hit()`. -/
def hit (fuel : ℕ) (p : BlackjackPage) : Option BlackjackPage :=
  if !p.game.gameInProgress then some p
  else
    let p1 := { p with game := p.game.dealToPlayer }
    let playerValue := BlackjackGame.calculateHandValue p1.game.playerHand
    if playerValue > 21 then some (p1.endGame .bust)
    else if playerValue = 21 then stand fuel p1
    else some p1

/-- Method `deal()`: `updateButtons()` runs once the four cards are dealt. -/
def deal (fuel : ℕ) (p : BlackjackPage) (betAmount : ℚ) : Option BlackjackPage :=
  if betAmount ≤ 0 ∨ betAmount > p.game.gameState.balance then
    some { p with game := { p.game with message := some .lose } }
  else
    let r := p.game.gameState.removeMoney betAmount
    if !r.2 then some { p with game := { p.game with gameState := r.1, message := some .lose } }
    else
      let g1 : BlackjackGame :=
        { p.game with gameState := r.1, currentBet := betAmount, gameInProgress := true,
                      playerHand := [], dealerHand := [] }
      let g2 := g1.dealToPlayer.dealToDealer.dealToPlayer.dealToDealer
      let p2 := ({ p with game := g2 }).updateButtons
      if BlackjackGame.calculateHandValue p2.game.playerHand = 21 then stand fuel p2
      else some p2

/-- A click on `deal-btn` with `betAmount` in the bet field: the listener calls `deal()`
unless the button is disabled. -/
def clickDeal (fuel : ℕ) (p : BlackjackPage) (betAmount : ℚ) : Option BlackjackPage :=
  if p.dealDisabled then some p else p.deal fuel betAmount

/-- A click on `hit-btn`. -/
def clickHit (fuel : ℕ) (p : BlackjackPage) : Option BlackjackPage :=
  if p.hitDisabled then some p else p.hit fuel

/-- A click on `stand-btn`. -/
def clickStand (fuel : ℕ) (p : BlackjackPage) : Option BlackjackPage :=
  if p.standDisabled then some p else p.stand fuel

end BlackjackPage

/-- A click on one of the three Blackjack buttons, or activity elsewhere on the page
(another engine, a reward claim) that leaves the shared wallet at `gameState`. -/
inductive BlackjackClick where
  | deal (betAmount : ℚ)
  | hit
  | stand
  | elsewhere (gameState : GameState)

namespace BlackjackPage

/-- Runs one click. -/
def click (fuel : ℕ) (p : BlackjackPage) : BlackjackClick → Option BlackjackPage
  | .deal betAmount => p.clickDeal fuel betAmount
  | .hit => p.clickHit fuel
  | .stand => p.clickStand fuel
  | .elsewhere gameState => some { p with game := { p.game with gameState := gameState } }

/-- Runs a list of clicks, left to right. -/
def clicks (fuel : ℕ) : BlackjackPage → List BlackjackClick → Option BlackjackPage
  | p, [] => some p
  | p, c :: rest => (click fuel p c).bind fun p1 => clicks fuel p1 rest

/-- The gate of `deal()`: while a round is in progress `deal-btn` is disabled. -/
def Gated (p : BlackjackPage) : Prop :=
  p.game.gameInProgress = true → p.dealDisabled = true

end BlackjackPage

/-- The Mines engine and the `disabled` property of `start-mines-btn`, `cashout-mines-btn`
and `reset-mines-btn`. -/
structure MinesPage where
  game : MinesGame
  startDisabled : Bool
  cashoutDisabled : Bool
  resetDisabled : Bool

namespace MinesPage

/-- Method `MinesGame.updateButtons()`. -/
def updateButtons (p : MinesPage) : MinesPage :=
  { p with startDisabled := p.game.gameInProgress,
           cashoutDisabled := !p.game.gameInProgress || decide (p.game.gemsFound = 0),
           resetDisabled := p.game.gameInProgress }

/-- Method `startGame()`: `updateButtons()` runs once the mines are placed, before the
message. -/
def startGame (p : MinesPage) (betAmount : ℚ) (minesCount : ℕ) : MinesPage :=
  if betAmount ≤ 0 ∨ betAmount > p.game.gameState.balance then
    { p with game := { p.game with message := some .lose } }
  else
    let r := p.game.gameState.removeMoney betAmount
    if !r.2 then { p with game := { p.game with gameState := r.1, message := some .lose } }
    else
      let placed := MinesGame.placeMines minesCount p.game.board [] p.game.random
      let g1 : MinesGame :=
        { p.game with gameState := r.1, currentBet := betAmount, gameInProgress := true,
                      gemsFound := 0, currentMultiplier := 1, revealed := [],
                      mines := placed.1, random := placed.2 }
      let p1 := ({ p with game := g1 }).updateButtons
      { p1 with game := { p1.game with message := some .info } }

/-- Method `revealTile(index)`: `updateButtons()` runs in both branches, before the
message. -/
def revealTile (p : MinesPage) (index : ℕ) : MinesPage :=
  if !p.game.gameInProgress ∨ index ∈ p.game.revealed then p
  else
    let g1 : MinesGame := { p.game with revealed := p.game.revealed ++ [index] }
    if some index ∈ g1.mines then
      let p1 := ({ p with game := { g1 with gameInProgress := false } }).updateButtons
      { p1 with game := { p1.game with message := some .lose } }
    else
      let g2 : MinesGame := { g1 with gemsFound := g1.gemsFound + 1 }
      let p1 :=
        ({ p with game := { g2 with currentMultiplier := g2.calculateMultiplier } }).updateButtons
      { p1 with game := { p1.game with message := some .win } }

/-- Method `cashout()`. -/
def cashout (p : MinesPage) : MinesPage :=
  if !p.game.gameInProgress ∨ p.game.gemsFound = 0 then p
  else
    let winnings := p.game.currentBet * p.game.currentMultiplier
    let g1 : MinesGame :=
      { p.game with gameState := p.game.gameState.addMoney winnings, gameInProgress := false }
    let p1 := ({ p with game := g1 }).updateButtons
    { p1 with game := { p1.game with message := some .win } }

/-- Method `resetGame()`. -/
def resetGame (p : MinesPage) : MinesPage :=
  let g1 : MinesGame :=
    MinesGame.createBoard
      { p.game with gameInProgress := false, currentBet := 0, gemsFound := 0,
                    currentMultiplier := 1, revealed := [], mines := [] }
  let p1 := ({ p with game := g1 }).updateButtons
  { p1 with game := { p1.game with message := some .info } }

/-- A click on `start-mines-btn` with the two fields read by `startGame()`: the listener
runs unless the button is disabled. -/
def clickStart (p : MinesPage) (betAmount : ℚ) (minesCount : ℕ) : MinesPage :=
  if p.startDisabled then p else p.startGame betAmount minesCount

/-- A click on the tile `index`: tiles are `div` elements, their listener always runs. -/
def clickTile (p : MinesPage) (index : ℕ) : MinesPage :=
  p.revealTile index

/-- A click on `cashout-mines-btn`. -/
def clickCashout (p : MinesPage) : MinesPage :=
  if p.cashoutDisabled then p else p.cashout

/-- A click on `reset-mines-btn`. -/
def clickReset (p : MinesPage) : MinesPage :=
  if p.resetDisabled then p else p.resetGame

end MinesPage

/-- A click on a Mines button or tile, or activity elsewhere on the page (another engine,
a reward claim) that leaves the shared wallet at `gameState`. -/
inductive MinesClick where
  | start (betAmount : ℚ) (minesCount : ℕ)
  | tile (index : ℕ)
  | cashout
  | reset
  | elsewhere (gameState : GameState)

namespace MinesPage

/-- Runs one click. -/
def click (p : MinesPage) : MinesClick → MinesPage
  | .start betAmount minesCount => p.clickStart betAmount minesCount
  | .tile index => p.clickTile index
  | .cashout => p.clickCashout
  | .reset => p.clickReset
  | .elsewhere gameState => { p with game := { p.game with gameState := gameState } }

/-- Runs a list of clicks, left to right. -/
def clicks (p : MinesPage) (cs : List MinesClick) : MinesPage :=
  cs.foldl click p

/-- The gate of `startGame()`: while a round is in progress `start-mines-btn` is
disabled. -/
def Gated (p : MinesPage) : Prop :=
  p.game.gameInProgress = true → p.startDisabled = true

end MinesPage

/-- The page of `traceStart`: no round in progress, `deal-btn` enabled. -/
def tracePage : BlackjackPage :=
  { game := traceStart, hitDisabled := true, standDisabled := true, dealDisabled := false }

/-- The page of `minesStart`: no round in progress, `start-mines-btn` enabled. -/
def minesPage : MinesPage :=
  { game := minesStart, startDisabled := false, cashoutDisabled := true,
    resetDisabled := false }

/-! ## Theorems -/

/-- The exact ledger on a finite amount `x`: `removeMoney(x)` returns false and leaves the
balance unchanged exactly when `x` exceeds the balance; otherwise it returns true and
the new balance is `b - x`. The amount `NaN` and the rounding of the difference are
treated on JavaScript numbers below. -/
theorem removeMoney_debit (gs : GameState) (x : ℚ) :
    (((gs.removeMoney x).2 = false ∧ (gs.removeMoney x).1 = gs) ↔ x > gs.balance) ∧
    (¬ x > gs.balance →
      (gs.removeMoney x).2 = true ∧ (gs.removeMoney x).1.balance = gs.balance - x) ∧
    (x = gs.balance → (gs.removeMoney x).2 = true ∧ (gs.removeMoney x).1.balance = 0) := by
  unfold GameState.removeMoney
  by_cases h : gs.balance ≥ x
  · have h' : ¬ x > gs.balance := not_lt.mpr h
    simp [h, h']
    intro hx
    simp [hx]
  · have h' : x > gs.balance := not_le.mp h
    have hne : x ≠ gs.balance := ne_of_gt h'
    simp [h, h', hne]

/-- C2: from a non-negative balance, every finite sequence of `addMoney(x)` and
`removeMoney(x)` calls with positive amounts leaves a non-negative balance. -/
theorem ledger_nonneg (gs : GameState) (ops : List LedgerOp)
    (h0 : 0 ≤ gs.balance) (hpos : ∀ op ∈ ops, 0 < op.amount) :
    0 ≤ (gs.applyOps ops).balance := by
  induction ops generalizing gs with
  | nil => simpa [GameState.applyOps] using h0
  | cons op rest ih =>
    have hrest : ∀ o ∈ rest, 0 < o.amount := fun o ho => hpos o (List.mem_cons_of_mem _ ho)
    have hop : 0 < op.amount := hpos op (List.mem_cons_self _ _)
    have hstep : 0 ≤ (gs.applyOp op).balance := by
      cases op with
      | credit x =>
        simp only [LedgerOp.amount] at hop
        simp only [GameState.applyOp, GameState.addMoney]
        linarith
      | debit x =>
        simp only [GameState.applyOp, GameState.removeMoney]
        split
        · rename_i hge
          simp only
          linarith
        · exact h0
    simpa [GameState.applyOps] using ih (gs.applyOp op) hstep hrest

/-- C2 at a concrete trace: credit 50, debit 5050, then a refused debit of 1. -/
theorem ledger_nonneg_witness :
    0 ≤ (GameState.mk 5000 0 0 0).balance ∧
    (∀ op ∈ [LedgerOp.credit 50, LedgerOp.debit 5050, LedgerOp.debit 1], 0 < op.amount) ∧
    0 ≤ ((GameState.mk 5000 0 0 0).applyOps
      [LedgerOp.credit 50, LedgerOp.debit 5050, LedgerOp.debit 1]).balance :=
  ⟨by norm_num, by simp [LedgerOp.amount],
    ledger_nonneg (GameState.mk 5000 0 0 0)
      [LedgerOp.credit 50, LedgerOp.debit 5050, LedgerOp.debit 1]
      (by norm_num) (by simp [LedgerOp.amount])⟩


/-! ### Deck lemmas -/

theorem swap_length (deck : List Card) (i j : ℕ) : (swap deck i j).length = deck.length := by
  unfold swap
  split <;> simp

theorem shuffleLoop_length (i : ℕ) (deck : List Card) (rnd : Rand) :
    (shuffleLoop i deck rnd).1.length = deck.length := by
  induction i generalizing deck rnd with
  | zero => rfl
  | succ n ih =>
    simp only [shuffleLoop]
    rw [ih, swap_length]

theorem createDeck_length (rnd : Rand) : (createDeck rnd).1.length = 52 := by
  unfold createDeck shuffleDeck
  rw [shuffleLoop_length]
  decide

/-- The `pop()` of `dealCard` always finds a card: the deck it pops from is the old one
when that is not empty and a new one of 52 cards otherwise. -/
theorem dealCard_pops (deck : List Card) (rnd : Rand) :
    ∃ card, (if deck.length = 0 then createDeck rnd else (deck, rnd)).1.getLast? = some card ∧
      dealCard deck rnd =
        (card, (if deck.length = 0 then createDeck rnd else (deck, rnd)).1.dropLast,
          (if deck.length = 0 then createDeck rnd else (deck, rnd)).2) := by
  have hne : (if deck.length = 0 then createDeck rnd else (deck, rnd)).1 ≠ [] := by
    intro h
    have hlen := congrArg List.length h
    split_ifs at hlen with h0
    · rw [createDeck_length] at hlen
      simp at hlen
    · exact h0 (by simpa using hlen)
  refine ⟨_, List.getLast?_eq_getLast _ hne, ?_⟩
  unfold dealCard
  simp only [List.getLast?_eq_getLast _ hne]

/-! ### Scoring lemmas -/

theorem one_le_cardMin (card : Card) : 1 ≤ cardMin card := by
  obtain ⟨s, v⟩ := card
  cases v <;> simp [cardMin, Rank.parseInt]

theorem scoreCard_sum (acc : ℕ × ℕ) (card : Card) :
    (BlackjackGame.scoreCard acc card).1 + (BlackjackGame.scoreCard acc card).2 =
      acc.1 + acc.2 + cardMin card := by
  unfold BlackjackGame.scoreCard cardMin
  split
  · simp; omega
  · split
    · simp; omega
    · simp; omega

theorem foldl_scoreCard_ge (hand : List Card) (acc : ℕ × ℕ) :
    acc.1 + acc.2 + hand.length ≤
      (hand.foldl BlackjackGame.scoreCard acc).1 + (hand.foldl BlackjackGame.scoreCard acc).2 := by
  induction hand generalizing acc with
  | nil => simp
  | cons card rest ih =>
    have h1 := ih (BlackjackGame.scoreCard acc card)
    have h2 := scoreCard_sum acc card
    have h3 := one_le_cardMin card
    simp only [List.foldl_cons, List.length_cons]
    omega

theorem addAces_ge (aces value : ℕ) : value + aces ≤ BlackjackGame.addAces aces value := by
  induction aces generalizing value with
  | zero => simp [BlackjackGame.addAces]
  | succ n ih =>
    simp only [BlackjackGame.addAces]
    split
    · have := ih (value + 11); omega
    · have := ih (value + 1); omega

/-- A hand scores at least its number of cards. -/
theorem length_le_calculateHandValue (hand : List Card) :
    hand.length ≤ BlackjackGame.calculateHandValue hand := by
  unfold BlackjackGame.calculateHandValue
  have h1 := foldl_scoreCard_ge hand (0, 0)
  have h2 := addAces_ge (hand.foldl BlackjackGame.scoreCard (0, 0)).2
    (hand.foldl BlackjackGame.scoreCard (0, 0)).1
  simp only at h1 h2 ⊢
  omega


namespace BlackjackGame

/-! ### The dealer loop -/

theorem dealToDealer_length (g : BlackjackGame) :
    g.dealToDealer.dealerHand.length = g.dealerHand.length + 1 := by
  simp [dealToDealer]

/-- With enough fuel the dealer loop ends on a total of at least 17; it touches only
the dealer hand, the deck and the random draws, and nothing when the total is already
at least 17. -/
theorem dealerLoop_spec (fuel : ℕ) (g : BlackjackGame)
    (hfuel : 17 ≤ fuel + g.dealerHand.length) :
    ∃ g1, dealerLoop fuel g = some g1 ∧
      17 ≤ BlackjackGame.calculateHandValue g1.dealerHand ∧
      g1.gameState = g.gameState ∧ g1.currentBet = g.currentBet ∧
      g1.gameInProgress = g.gameInProgress ∧ g1.playerHand = g.playerHand ∧
      g1.message = g.message ∧
      (17 ≤ BlackjackGame.calculateHandValue g.dealerHand → g1 = g) := by
  induction fuel generalizing g with
  | zero =>
    have hlen := length_le_calculateHandValue g.dealerHand
    have hval : ¬ BlackjackGame.calculateHandValue g.dealerHand < 17 := by omega
    exact ⟨g, by simp [dealerLoop, hval], by omega, rfl, rfl, rfl, rfl, rfl, fun _ => rfl⟩
  | succ n ih =>
    by_cases hval : BlackjackGame.calculateHandValue g.dealerHand < 17
    · have hlen := dealToDealer_length g
      obtain ⟨g1, h1, h2, h3, h4, h5, h6, h7, _⟩ := ih g.dealToDealer (by omega)
      refine ⟨g1, by simp [dealerLoop, hval, h1], h2, ?_, ?_, ?_, ?_, ?_, ?_⟩
      · simpa [dealToDealer] using h3
      · simpa [dealToDealer] using h4
      · simpa [dealToDealer] using h5
      · simpa [dealToDealer] using h6
      · simpa [dealToDealer] using h7
      · intro h; omega
    · exact ⟨g, by simp [dealerLoop, hval], by omega, rfl, rfl, rfl, rfl, rfl, fun _ => rfl⟩


/-! ### Round invariant -/

theorem endGame_inv (b a : ℚ) (g : BlackjackGame) (result : BlackjackResult)
    (hbet : g.currentBet = a) (hbal : g.gameState.balance = b - a) :
    RoundInv b a (g.endGame result) := by
  cases result <;> simp [endGame, RoundInv, GameState.addMoney, hbet, hbal]

theorem stand_inv (fuel : ℕ) (hfuel : 17 ≤ fuel) (b a : ℚ) (g : BlackjackGame)
    (h : RoundInv b a g) : ∃ g1, stand fuel g = some g1 ∧ RoundInv b a g1 := by
  by_cases hprog : g.gameInProgress = true
  · obtain ⟨g1, h1, _, h3, h4, _, _, _, _⟩ := dealerLoop_spec fuel g (by omega)
    rcases h with ⟨_, hbet, hbal⟩ | ⟨hover, _⟩
    · refine ⟨g1.determineWinner, by simp [stand, hprog, h1], ?_⟩
      exact endGame_inv b a g1 _ (by rw [h4, hbet]) (by rw [h3, hbal])
    · rw [hover] at hprog
      exact absurd hprog (by decide)
  · exact ⟨g, by simp [stand, hprog], h⟩

theorem hit_inv (fuel : ℕ) (hfuel : 17 ≤ fuel) (b a : ℚ) (g : BlackjackGame)
    (h : RoundInv b a g) : ∃ g1, hit fuel g = some g1 ∧ RoundInv b a g1 := by
  by_cases hprog : g.gameInProgress = true
  · rcases h with ⟨_, hbet, hbal⟩ | ⟨hover, _⟩
    · have hinv : RoundInv b a g.dealToPlayer :=
        Or.inl ⟨by simpa [dealToPlayer] using hprog, by simpa [dealToPlayer] using hbet,
          by simpa [dealToPlayer] using hbal⟩
      by_cases hbust : BlackjackGame.calculateHandValue g.dealToPlayer.playerHand > 21
      · refine ⟨g.dealToPlayer.endGame .bust, by simp [hit, hprog, hbust], ?_⟩
        exact endGame_inv b a _ _ (by simpa [dealToPlayer] using hbet)
          (by simpa [dealToPlayer] using hbal)
      · by_cases h21 : BlackjackGame.calculateHandValue g.dealToPlayer.playerHand = 21
        · obtain ⟨g1, h1, h2⟩ := stand_inv fuel hfuel b a g.dealToPlayer hinv
          exact ⟨g1, by simp [hit, hprog, h21, h1], h2⟩
        · exact ⟨g.dealToPlayer, by simp [hit, hprog, hbust, h21], hinv⟩
    · rw [hover] at hprog
      exact absurd hprog (by decide)
  · exact ⟨g, by simp [hit, hprog], h⟩

theorem deal_inv (fuel : ℕ) (hfuel : 17 ≤ fuel) (a : ℚ) (g : BlackjackGame)
    (ha : 0 < a) (hle : a ≤ g.gameState.balance) :
    ∃ g1, deal fuel g a = some g1 ∧ RoundInv g.gameState.balance a g1 := by
  have hguard : ¬ (a ≤ 0 ∨ a > g.gameState.balance) := by
    rintro (h | h)
    · exact absurd ha (not_lt.mpr h)
    · exact absurd hle (not_le.mpr h)
  have hrem : g.gameState.removeMoney a =
      ({ g.gameState with balance := g.gameState.balance - a }, true) := by
    simp [GameState.removeMoney, hle]
  have hinv : RoundInv g.gameState.balance a
      ({ g with gameState := { g.gameState with balance := g.gameState.balance - a },
                currentBet := a, gameInProgress := true, playerHand := [],
                dealerHand := [] } : BlackjackGame
        ).dealToPlayer.dealToDealer.dealToPlayer.dealToDealer :=
    Or.inl ⟨by simp [dealToPlayer, dealToDealer], by simp [dealToPlayer, dealToDealer],
      by simp [dealToPlayer, dealToDealer]⟩
  by_cases h21 : BlackjackGame.calculateHandValue
      ({ g with gameState := { g.gameState with balance := g.gameState.balance - a },
                currentBet := a, gameInProgress := true, playerHand := [],
                dealerHand := [] } : BlackjackGame
        ).dealToPlayer.dealToDealer.dealToPlayer.dealToDealer.playerHand = 21
  · obtain ⟨g1, h1, h2⟩ := stand_inv fuel hfuel _ a _ hinv
    exact ⟨g1, by simp only [deal, hguard, hrem]; simp [h21, h1], h2⟩
  · exact ⟨_, by simp only [deal, hguard, hrem]; simp [h21], hinv⟩

theorem acts_inv (fuel : ℕ) (hfuel : 17 ≤ fuel) (b a : ℚ) (actions : List BlackjackAction)
    (g : BlackjackGame) (h : RoundInv b a g) :
    ∃ g1, acts fuel g actions = some g1 ∧ RoundInv b a g1 := by
  induction actions generalizing g with
  | nil => exact ⟨g, rfl, h⟩
  | cons action rest ih =>
    have hstep : ∃ g1, act fuel g action = some g1 ∧ RoundInv b a g1 := by
      cases action
      · exact hit_inv fuel hfuel b a g h
      · exact stand_inv fuel hfuel b a g h
    obtain ⟨g1, h1, h2⟩ := hstep
    obtain ⟨g2, h3, h4⟩ := ih g1 h2
    exact ⟨g2, by simp [acts, h1, h3], h4⟩

theorem playRound_inv (fuel : ℕ) (hfuel : 17 ≤ fuel) (a : ℚ) (g : BlackjackGame)
    (actions : List BlackjackAction) (ha : 0 < a) (hle : a ≤ g.gameState.balance) :
    ∃ g1, playRound fuel g a actions = some g1 ∧ RoundInv g.gameState.balance a g1 := by
  obtain ⟨g1, h1, h2⟩ := deal_inv fuel hfuel a g ha hle
  obtain ⟨g2, h3, h4⟩ := acts_inv fuel hfuel _ a actions g1 h2
  exact ⟨g2, by simp [playRound, h1, h3], h4⟩

end BlackjackGame


/-! ### Blackjack claims -/

/-- C4: the scoring claim (the largest total not above 21 over all Ace valuations) fails
at the hand `[A, A, K]`: `calculateHandValue` returns 22, although the hand totals 12
with both Aces counted as 1, which is the largest total of this hand not above 21. -/
theorem blackjack_score_two_aces_king :
    BlackjackGame.calculateHandValue handAAK = 22 ∧ 12 ∈ aceTotals handAAK ∧
    (∀ t ∈ aceTotals handAAK, t ≤ 21 → t ≤ 12) ∧
    ¬ BlackjackGame.calculateHandValue handAAK ≤ 21 := by
  decide

/-- C5: settlement. For every stake (`currentBet`) and totals `p`, `d`, `endGame` on the
result chosen by `determineWinner` credits 0 if `p > 21`, else twice the stake if `d > 21`,
else twice the stake if `p > d`, else 0 if `d > p`, else the stake; it always clears
`gameInProgress` and `currentBet`; and `determineWinner` is this at the two hand totals. -/
theorem determineWinner_settlement (g : BlackjackGame) (p d : ℕ) :
    (g.endGame (BlackjackGame.decideResult p d)).gameState.balance =
      g.gameState.balance +
        (if p > 21 then 0
         else if d > 21 then 2 * g.currentBet
         else if p > d then 2 * g.currentBet
         else if d > p then 0
         else g.currentBet) ∧
    (g.endGame (BlackjackGame.decideResult p d)).gameInProgress = false ∧
    (g.endGame (BlackjackGame.decideResult p d)).currentBet = 0 ∧
    g.determineWinner =
      g.endGame (BlackjackGame.decideResult (BlackjackGame.calculateHandValue g.playerHand)
        (BlackjackGame.calculateHandValue g.dealerHand)) := by
  refine ⟨?_, ?_, ?_, rfl⟩
  · unfold BlackjackGame.decideResult
    split_ifs <;> simp [BlackjackGame.endGame, GameState.addMoney, mul_comm]
  · unfold BlackjackGame.decideResult
    split_ifs <;> simp [BlackjackGame.endGame]
  · unfold BlackjackGame.decideResult
    split_ifs <;> simp [BlackjackGame.endGame]

/-- C6: dealer rule. When `stand()` runs in an active round (with fuel for 17 draws), it
returns, the dealer's total afterwards is at least 17, and if the dealer's total was
already at least 17 the dealer hand, the deck and the random draws are untouched. -/
theorem stand_dealer_rule (fuel : ℕ) (g : BlackjackGame)
    (hactive : g.gameInProgress = true) (hfuel : 17 ≤ fuel) :
    ∃ g1, BlackjackGame.stand fuel g = some g1 ∧
      17 ≤ BlackjackGame.calculateHandValue g1.dealerHand ∧
      (17 ≤ BlackjackGame.calculateHandValue g.dealerHand →
        g1.dealerHand = g.dealerHand ∧ g1.deck = g.deck ∧ g1.random = g.random) := by
  obtain ⟨g2, h1, h2, _, _, _, _, _, h8⟩ := BlackjackGame.dealerLoop_spec fuel g (by omega)
  refine ⟨g2.determineWinner, by simp [BlackjackGame.stand, hactive, h1], ?_, ?_⟩
  · have hhand : g2.determineWinner.dealerHand = g2.dealerHand := by
      unfold BlackjackGame.determineWinner BlackjackGame.decideResult
      split_ifs <;> simp [BlackjackGame.endGame]
    rw [hhand]; exact h2
  · intro h17
    have hg := h8 h17
    subst hg
    unfold BlackjackGame.determineWinner BlackjackGame.decideResult
    split_ifs <;> simp [BlackjackGame.endGame]

/-- C6 at a concrete round: the dealer holds K, 6 and the next card is a 5. -/
theorem stand_dealer_rule_witness :
    dealerSixteen.gameInProgress = true ∧ 17 ≤ 17 ∧
    ∃ g1, BlackjackGame.stand 17 dealerSixteen = some g1 ∧
      17 ≤ BlackjackGame.calculateHandValue g1.dealerHand ∧
      (17 ≤ BlackjackGame.calculateHandValue dealerSixteen.dealerHand →
        g1.dealerHand = dealerSixteen.dealerHand ∧ g1.deck = dealerSixteen.deck ∧
        g1.random = dealerSixteen.random) :=
  ⟨rfl, le_refl 17, stand_dealer_rule 17 dealerSixteen rfl (le_refl 17)⟩

/-- C7 as stated fails: on the forced deck, from balance 5000, the first round with a 100
bet is lost and leaves 4900; the following round with a 100 bet is won at twice the
stake and leaves 5000, not 5100. -/
theorem blackjack_trace_counterexample :
    (BlackjackGame.playRound 17 traceStart 100 [.stand]).map
        (fun g => (g.gameInProgress, g.message, g.gameState.balance)) =
      some (false, some .lose, 4900) ∧
    ((BlackjackGame.playRound 17 traceStart 100 [.stand]).bind
        (fun g => BlackjackGame.playRound 17 g 100 [.stand])).map
        (fun g => (g.gameInProgress, g.message, g.gameState.balance)) =
      some (false, some .win, 5000) ∧
    (5000 : ℚ) ≠ 5100 := by
  decide!

/-- C7, amended: from balance 5000, every round with a 100 bet returns (with fuel for 17
dealer draws); if it is over and lost the balance is 4900, and a following round with a
100 bet that is over and won at twice the stake leaves the balance at 5000. -/
theorem blackjack_trace (fuel : ℕ) (hfuel : 17 ≤ fuel) (g0 : BlackjackGame)
    (hbal : g0.gameState.balance = 5000) (actions1 actions2 : List BlackjackAction) :
    ∃ g1, BlackjackGame.playRound fuel g0 100 actions1 = some g1 ∧
      (g1.gameInProgress = false → g1.message = some .lose →
        g1.gameState.balance = 4900 ∧
        ∃ g2, BlackjackGame.playRound fuel g1 100 actions2 = some g2 ∧
          (g2.gameInProgress = false → g2.message = some .win →
            g2.gameState.balance = 5000)) := by
  obtain ⟨g1, h1, hinv1⟩ := BlackjackGame.playRound_inv fuel hfuel 100 g0 actions1
    (by norm_num) (by rw [hbal]; norm_num)
  refine ⟨g1, h1, ?_⟩
  intro hover hlose
  have hb1 : g1.gameState.balance = 4900 := by
    rcases hinv1 with ⟨hprog, _⟩ | ⟨_, h | h | h⟩
    · rw [hover] at hprog; exact absurd hprog (by decide)
    · rw [h.2, hbal]; norm_num
    · rw [hlose] at h; exact absurd h.1 (by decide)
    · rw [hlose] at h; exact absurd h.1 (by decide)
  refine ⟨hb1, ?_⟩
  obtain ⟨g2, h2, hinv2⟩ := BlackjackGame.playRound_inv fuel hfuel 100 g1 actions2
    (by norm_num) (by rw [hb1]; norm_num)
  refine ⟨g2, h2, ?_⟩
  intro hover2 hwin
  rcases hinv2 with ⟨hprog, _⟩ | ⟨_, h | h | h⟩
  · rw [hover2] at hprog; exact absurd hprog (by decide)
  · rw [hwin] at h; exact absurd h.1 (by decide)
  · rw [h.2, hb1]; norm_num
  · rw [hwin] at h; exact absurd h.1 (by decide)

/-- C7, amended, at the forced deck with the player standing in both rounds. -/
theorem blackjack_trace_witness :
    17 ≤ 17 ∧ traceStart.gameState.balance = 5000 ∧
    ∃ g1, BlackjackGame.playRound 17 traceStart 100 [.stand] = some g1 ∧
      (g1.gameInProgress = false → g1.message = some .lose →
        g1.gameState.balance = 4900 ∧
        ∃ g2, BlackjackGame.playRound 17 g1 100 [.stand] = some g2 ∧
          (g2.gameInProgress = false → g2.message = some .win →
            g2.gameState.balance = 5000)) :=
  ⟨le_refl 17, rfl, blackjack_trace 17 (le_refl 17) traceStart rfl [.stand] [.stand]⟩


namespace RouletteGame

/-! ### Roulette lemmas -/

theorem getBetPayout_nonneg (bet : String) : 0 ≤ getBetPayout bet := by
  unfold getBetPayout
  split_ifs <;> norm_num

theorem totalWinnings_nonneg (g : RouletteGame) (w : ℕ) (a : ℚ) (ha : 0 ≤ a) :
    0 ≤ g.totalWinnings w a := by
  unfold totalWinnings
  apply add_nonneg
  · split_ifs
    · exact mul_nonneg ha (by norm_num)
    · exact le_refl 0
  · apply Finset.sum_nonneg
    intro bet _
    split_ifs
    · exact mul_nonneg ha (getBetPayout_nonneg bet)
    · exact le_refl 0

/-- The balance after `endSpin` is the balance before it plus `totalWinnings`, for a
non-negative bet amount. -/
theorem endSpin_balance (g : RouletteGame) (w : ℕ) (a : ℚ) (n : ℕ) (ha : 0 ≤ a) :
    (g.endSpin w a n).gameState.balance = g.gameState.balance + g.totalWinnings w a := by
  have hnn := totalWinnings_nonneg g w a ha
  have htw : ({ g with isSpinning := false, pending := none } : RouletteGame).totalWinnings w a
      = g.totalWinnings w a := rfl
  unfold endSpin
  simp only [htw]
  split_ifs with hpos
  · simp [clearBets, GameState.addMoney]
  · have hzero : g.totalWinnings w a = 0 := le_antisymm (not_lt.mp hpos) hnn
    simp [clearBets, hzero]

/-- An accepted `spin()` followed by its timer, for a positive bet amount. -/
theorem spinRound_accepted (g : RouletteGame) (a r : ℚ)
    (hidle : g.isSpinning = false) (ha : 0 < a)
    (hsel : g.selectedNumbers.card + g.selectedBets.card ≠ 0)
    (hfunds : ¬ a * ((g.selectedNumbers.card + g.selectedBets.card : ℕ) : ℚ) >
      g.gameState.balance) :
    (g.spinRound a r).gameState.balance =
      g.gameState.balance - a * ((g.selectedNumbers.card + g.selectedBets.card : ℕ) : ℚ) +
        g.totalWinnings (drawNumber r) a := by
  have hle : a * ((g.selectedNumbers.card + g.selectedBets.card : ℕ) : ℚ) ≤
      g.gameState.balance := not_lt.mp hfunds
  have hspin : g.spin a r =
      { g with
        gameState := { g.gameState with balance := g.gameState.balance -
          a * ((g.selectedNumbers.card + g.selectedBets.card : ℕ) : ℚ) },
        isSpinning := true,
        pending := some (drawNumber r, a, g.selectedNumbers.card + g.selectedBets.card) } := by
    unfold spin
    simp only [hidle, hsel, hfunds, GameState.removeMoney, hle]
    simp
  unfold spinRound
  rw [hspin]
  simp only [timerFires]
  rw [endSpin_balance _ _ _ _ (le_of_lt ha)]
  rfl

end RouletteGame


/-! ### Roulette claims -/

/-- C8 as stated fails in its second witness: 17 is not in `redNumbers`, so a bet on
black with drawn number 17 wins; from balance 5000 with bet amount 100 the spin debits
100 (leaving 4900) and `endSpin` credits 100 (leaving 5000), not nothing. -/
theorem roulette_black_17_counterexample :
    checkOutsideBet "black" 17 = true ∧ checkOutsideBet "red" 17 = false ∧
    RouletteGame.drawNumber (17 / 37) = 17 ∧
    ((rouletteStart ∅ {"black"}).spin 100 (17 / 37)).gameState.balance = 4900 ∧
    ((rouletteStart ∅ {"black"}).spinRound 100 (17 / 37)).gameState.balance = 5000 := by
  decide!

/-- C8, amended: for an idle engine, bet amount `a > 0`, selections `N`, `O` not both
empty and the drawn number `w`: if `a * (|N| + |O|)` exceeds the balance the spin is
rejected and the ledger is unchanged; otherwise the balance after `endSpin` is the balance
before minus `a * (|N| + |O|)` plus `35 * a` if `w` is in `N`, plus `a * payout` over the
bets of `O` that match `w`, with payout 1 for the six even-money bets and 2 for the three
dozens; `w` is at most 36 for a draw in `[0, 1)` and every `w` up to 36 is drawn by some
such draw. Number 17 with `w = 17` credits
`35 * a`; black with `w = 17` credits `a`; red with `w = 17` credits nothing. -/
theorem roulette_round_balance (g : RouletteGame) (a r : ℚ)
    (hidle : g.isSpinning = false) (hpend : g.pending = none) (ha : 0 < a)
    (hsel : g.selectedNumbers.card + g.selectedBets.card ≠ 0) :
    (a * ((g.selectedNumbers.card + g.selectedBets.card : ℕ) : ℚ) > g.gameState.balance →
      g.spin a r = { g with message := some .lose } ∧
      (g.spinRound a r).gameState = g.gameState) ∧
    (¬ a * ((g.selectedNumbers.card + g.selectedBets.card : ℕ) : ℚ) > g.gameState.balance →
      (g.spinRound a r).gameState.balance =
        g.gameState.balance - a * ((g.selectedNumbers.card + g.selectedBets.card : ℕ) : ℚ) +
          (if RouletteGame.drawNumber r ∈ g.selectedNumbers then 35 * a else 0) +
          ∑ bet in g.selectedBets.filter
              (fun bet => checkOutsideBet bet (RouletteGame.drawNumber r) = true),
            a * getBetPayout bet) ∧
    (∀ bet ∈ ["red", "black", "even", "odd", "1-18", "19-36"], getBetPayout bet = 1) ∧
    (∀ bet ∈ ["1st12", "2nd12", "3rd12"], getBetPayout bet = 2) ∧
    (0 ≤ r → r < 1 → RouletteGame.drawNumber r ≤ 36) ∧
    (∀ w : ℕ, w ≤ 36 → 0 ≤ (w : ℚ) / 37 ∧ (w : ℚ) / 37 < 1 ∧
      RouletteGame.drawNumber ((w : ℚ) / 37) = w) ∧
    (g.selectedNumbers = {17} → g.selectedBets = ∅ → RouletteGame.drawNumber r = 17 →
      a ≤ g.gameState.balance →
      (g.spinRound a r).gameState.balance = g.gameState.balance - a + 35 * a) ∧
    (g.selectedNumbers = ∅ → g.selectedBets = {"black"} → RouletteGame.drawNumber r = 17 →
      a ≤ g.gameState.balance →
      (g.spinRound a r).gameState.balance = g.gameState.balance - a + a) ∧
    (g.selectedNumbers = ∅ → g.selectedBets = {"red"} → RouletteGame.drawNumber r = 17 →
      a ≤ g.gameState.balance →
      (g.spinRound a r).gameState.balance = g.gameState.balance - a) := by
  refine ⟨?_, ?_, ?_, ?_, ?_, ?_, ?_, ?_, ?_⟩
  · intro hover
    have hspin : g.spin a r = { g with message := some .lose } := by
      unfold RouletteGame.spin
      simp only [hidle, hsel, hover]
      simp
    refine ⟨hspin, ?_⟩
    unfold RouletteGame.spinRound
    rw [hspin]
    simp [RouletteGame.timerFires, hpend]
  · intro hfunds
    rw [RouletteGame.spinRound_accepted g a r hidle ha hsel hfunds]
    unfold RouletteGame.totalWinnings
    rw [Finset.sum_filter, mul_comm a 35]
    ring
  · intro bet hbet
    simp only [List.mem_cons, List.mem_singleton, List.not_mem_nil, or_false] at hbet
    rcases hbet with h | h | h | h | h | h <;> subst h <;> simp [getBetPayout]
  · intro bet hbet
    simp only [List.mem_cons, List.mem_singleton, List.not_mem_nil, or_false] at hbet
    rcases hbet with h | h | h <;> subst h <;> simp [getBetPayout]
  · intro h0 h1
    unfold RouletteGame.drawNumber
    have hlt : ⌊r * 37⌋₊ < 37 := by
      rw [Nat.floor_lt (by positivity)]
      push_cast
      linarith
    omega
  · intro w hw
    refine ⟨by positivity, ?_, ?_⟩
    · rw [div_lt_one (by norm_num)]
      have : (w : ℚ) ≤ 36 := by exact_mod_cast hw
      linarith
    · unfold RouletteGame.drawNumber
      rw [div_mul_cancel₀ _ (by norm_num : (37 : ℚ) ≠ 0)]
      exact Nat.floor_natCast w
  · intro hN hO hw hle
    have hfunds : ¬ a * ((g.selectedNumbers.card + g.selectedBets.card : ℕ) : ℚ) >
        g.gameState.balance := by
      simp [hN, hO, hle]
    rw [RouletteGame.spinRound_accepted g a r hidle ha hsel hfunds]
    simp [RouletteGame.totalWinnings, hN, hO, hw]
    ring
  · intro hN hO hw hle
    have hfunds : ¬ a * ((g.selectedNumbers.card + g.selectedBets.card : ℕ) : ℚ) >
        g.gameState.balance := by
      simp [hN, hO, hle]
    have hblack : checkOutsideBet "black" 17 = true := by decide
    rw [RouletteGame.spinRound_accepted g a r hidle ha hsel hfunds]
    simp [RouletteGame.totalWinnings, hN, hO, hw, hblack, getBetPayout]
  · intro hN hO hw hle
    have hfunds : ¬ a * ((g.selectedNumbers.card + g.selectedBets.card : ℕ) : ℚ) >
        g.gameState.balance := by
      simp [hN, hO, hle]
    have hred : checkOutsideBet "red" 17 = false := by decide
    rw [RouletteGame.spinRound_accepted g a r hidle ha hsel hfunds]
    simp [RouletteGame.totalWinnings, hN, hO, hw, hred]


/-- C8, amended, at balance 5000, bet amount 100, number 17 selected and the draw
`17 / 37`, which gives the winning number 17. -/
theorem roulette_round_balance_witness :
    (rouletteStart {17} ∅).isSpinning = false ∧ (rouletteStart {17} ∅).pending = none ∧
    (0 : ℚ) < 100 ∧
    (rouletteStart {17} ∅).selectedNumbers.card + (rouletteStart {17} ∅).selectedBets.card ≠ 0 ∧
    RouletteGame.drawNumber (17 / 37) = 17 ∧
    ((rouletteStart {17} ∅).spinRound 100 (17 / 37)).gameState.balance =
      (rouletteStart {17} ∅).gameState.balance - 100 + 35 * 100 :=
  ⟨rfl, rfl, by norm_num, by decide, by decide!,
    (roulette_round_balance (rouletteStart {17} ∅) 100 (17 / 37) rfl rfl (by norm_num)
      (by decide)).2.2.2.2.2.2.1 rfl rfl (by decide!) (by norm_num [rouletteStart])⟩

/-- C9: the code at the failing input. With red as the only bet, bet amount 100, balance
5000 and drawn number 1 (red), the spin debits 100 and `endSpin` credits `100 * 1`: the
balance after the round is 5000, the balance before it, not 5100. -/
theorem roulette_even_money_round :
    checkOutsideBet "red" 1 = true ∧ getBetPayout "red" = 1 ∧
    RouletteGame.drawNumber (1 / 37) = 1 ∧
    ((rouletteStart ∅ {"red"}).spin 100 (1 / 37)).gameState.balance = 4900 ∧
    ((rouletteStart ∅ {"red"}).spinRound 100 (1 / 37)).gameState.balance = 5000 ∧
    (rouletteStart ∅ {"red"}).gameState.balance = 5000 := by
  decide!

/-- C10: colour classification. For every `n` in `[0, 36]`, `checkOutsideBet('red', n)`
holds exactly for the eighteen red numbers of the European wheel; for 0 both red and
black are false; for `n` in `[1, 36]` exactly one of red and black holds. -/
theorem checkOutsideBet_colour (n : ℕ) (hn : n ≤ 36) :
    (checkOutsideBet "red" n = true ↔
      n ∈ [1, 3, 5, 7, 9, 12, 14, 16, 18, 19, 21, 23, 25, 27, 30, 32, 34, 36]) ∧
    (n = 0 → checkOutsideBet "red" n = false ∧ checkOutsideBet "black" n = false) ∧
    (1 ≤ n →
      (checkOutsideBet "red" n = true ∧ checkOutsideBet "black" n = false) ∨
      (checkOutsideBet "red" n = false ∧ checkOutsideBet "black" n = true)) := by
  interval_cases n <;> decide

/-- C10 at `n = 17`, a black number. -/
theorem checkOutsideBet_colour_witness :
    17 ≤ 36 ∧ checkOutsideBet "red" 17 = false ∧ checkOutsideBet "black" 17 = true :=
  ⟨by decide,
    ((checkOutsideBet_colour 17 (by decide)).2.2 (by decide)).resolve_left (by decide)⟩


/-! ### Bet validation -/

/-- Method `BlackjackGame.deal()` rejects a bet amount that is not positive: only the message
changes. -/
theorem BlackjackGame.deal_rejects_nonpositive (fuel : ℕ) (g : BlackjackGame) (betAmount : ℚ)
    (hbet : betAmount ≤ 0) :
    BlackjackGame.deal fuel g betAmount = some { g with message := some .lose } := by
  simp [BlackjackGame.deal, hbet]

/-- C3: the code at the failing inputs. From balance 5000, a bet amount of -100 is not
rejected by Slots `spin`, Roulette `spin`, Plinko `dropBall`, Dice `rollDice`, Limbo `play`
or Baccarat `deal`: `removeMoney(-100)` succeeds, the balance becomes 5100 and the round
starts (Baccarat plays it to the end and the lost bet leaves 5100). A bet amount of 0
starts a Slots spin as well. Blackjack `deal` rejects the same bet. -/
theorem nonpositive_bet_accepted :
    ((slotsStart.spin (-100)).gameState.balance = 5100 ∧
      (slotsStart.spin (-100)).isSpinning = true) ∧
    (((rouletteStart ∅ {"red"}).spin (-100) 0).gameState.balance = 5100 ∧
      ((rouletteStart ∅ {"red"}).spin (-100) 0).isSpinning = true) ∧
    ((plinkoStart.dropBall (-100)).gameState.balance = 5100 ∧
      (plinkoStart.dropBall (-100)).isDropping = true) ∧
    ((diceStart.rollDice (-100) 50 0).gameState.balance = 5100 ∧
      (diceStart.rollDice (-100) 50 0).pending = some (-100, 50, 1)) ∧
    ((limboStart.play (-100) 2 0).gameState.balance = 5100 ∧
      (limboStart.play (-100) 2 0).isPlaying = true) ∧
    ((baccaratStart.deal (-100)).gameState.balance = 5100 ∧
      (baccaratStart.deal (-100)).playerHand.length = 2 ∧
      (baccaratStart.deal (-100)).deck.length = 4) ∧
    ((slotsStart.spin 0).isSpinning = true ∧ (slotsStart.spin 0).pending = some 0) ∧
    (BlackjackGame.deal 17 traceStart (-100)).map
        (fun g => (g.gameState.balance, g.gameInProgress, g.deck.length)) =
      some (5000, false, 8) := by
  decide!

/-! ### Mines multiplier -/

/-- The loop of `calculateMultiplier` computes the product of the formula. -/
theorem MinesGame.probabilityLoop_eq (m n : ℕ) :
    MinesGame.probabilityLoop (25 - (m : ℤ)) 25 n = minesProbability m n := by
  induction n with
  | zero => simp [MinesGame.probabilityLoop, minesProbability]
  | succ k ih =>
    simp only [MinesGame.probabilityLoop, minesProbability, Finset.prod_range_succ]
    rw [ih]
    simp only [minesProbability]
    push_cast
    rfl

/-- With no mines every factor of the product is 1. -/
theorem minesProbability_zero_mines (g : ℕ) (hg : g ≤ 25) : minesProbability 0 g = 1 := by
  unfold minesProbability
  apply Finset.prod_eq_one
  intro k hk
  have hk25 : (k : ℚ) < 25 := by
    have : k < 25 := lt_of_lt_of_le (Finset.mem_range.mp hk) hg
    exact_mod_cast this
  have hne : (25 : ℚ) - k ≠ 0 := by linarith
  simp only [Nat.cast_zero, sub_zero]
  exact div_self hne

/-- C11: multiplier formula. For every mine count `m` in `[0, 25]` and gems found `g` in
`[0, 25 - m]`, `calculateMultiplier` returns `max(1, 0.95 / P)` with
`P = Π_{k=0}^{g-1} (25 - m - k) / (25 - k)`, in exact rational arithmetic. -/
theorem mines_multiplier_formula (s : MinesGame) (m g : ℕ)
    (hmines : s.mines.length = m) (hgems : s.gemsFound = g)
    (hm : m ≤ 25) (hg : g ≤ 25 - m) :
    s.calculateMultiplier = max 1 (0.95 / minesProbability m g) := by
  unfold MinesGame.calculateMultiplier
  simp only [hmines, hgems]
  by_cases hrem : (25 : ℤ) - (g : ℤ) = 0
  · have hg25 : g = 25 := by omega
    have hm0 : m = 0 := by omega
    subst hg25 hm0
    rw [minesProbability_zero_mines 25 (le_refl 25)]
    simp only [hrem, if_true]
    norm_num
  · simp only [hrem, if_false]
    rw [MinesGame.probabilityLoop_eq]

/-- C11 at the two stated inputs: `m = 1, g = 1` gives 1 and `m = 5, g = 3` gives
`0.95 / ((20/25)(19/24)(18/23))`. -/
theorem mines_multiplier_formula_witness :
    ((minesState 1 1).mines.length = 1 ∧ (minesState 1 1).gemsFound = 1 ∧ 1 ≤ 25 ∧
      1 ≤ 25 - 1 ∧ max 1 (0.95 / minesProbability 1 1) = 1 ∧
      (minesState 1 1).calculateMultiplier = max 1 (0.95 / minesProbability 1 1)) ∧
    ((minesState 5 3).mines.length = 5 ∧ (minesState 5 3).gemsFound = 3 ∧ 5 ≤ 25 ∧
      3 ≤ 25 - 5 ∧
      max 1 (0.95 / minesProbability 5 3) = 0.95 / ((20 / 25) * (19 / 24) * (18 / 23)) ∧
      (minesState 5 3).calculateMultiplier = max 1 (0.95 / minesProbability 5 3)) :=
  ⟨⟨by decide, rfl, by decide, by decide, by decide!,
      mines_multiplier_formula (minesState 1 1) 1 1 (by decide) rfl (by decide) (by decide)⟩,
    ⟨by decide, rfl, by decide, by decide, by decide!,
      mines_multiplier_formula (minesState 5 3) 5 3 (by decide) rfl (by decide) (by decide)⟩⟩

/-! ### Mines placement -/

theorem Rand.Valid.next {rnd : Rand} (h : rnd.Valid) : rnd.next.Valid :=
  fun n => h (n + 1)

/-- A draw in `[0, 1)` scaled by a positive length and floored is an index below it. -/
theorem floor_mul_lt (r : ℚ) (n : ℕ) (h0 : 0 ≤ r) (h1 : r < 1) (hn : 0 < n) :
    ⌊r * (n : ℚ)⌋₊ < n := by
  have hnq : (0 : ℚ) < n := by exact_mod_cast hn
  rw [Nat.floor_lt (mul_nonneg h0 (le_of_lt hnq))]
  calc r * (n : ℚ) < 1 * (n : ℚ) := mul_lt_mul_of_pos_right h1 hnq
    _ = n := one_mul _

/-- The mine-placing loop over distinct available positions, with draws in `[0, 1)` and
at most as many iterations as positions: it appends that many distinct positions. -/
theorem MinesGame.placeMines_spec (n : ℕ) (avail : List ℕ) (mines : List (Option ℕ))
    (rnd : Rand) (hvalid : rnd.Valid) (hnodup : avail.Nodup) (hn : n ≤ avail.length) :
    ∃ l : List ℕ, (MinesGame.placeMines n avail mines rnd).1 = mines ++ l.map some ∧
      l.length = n ∧ l.Nodup ∧ ∀ i ∈ l, i ∈ avail := by
  induction n generalizing avail mines rnd with
  | zero => exact ⟨[], by simp [MinesGame.placeMines], rfl, List.nodup_nil, by simp⟩
  | succ k ih =>
    have hpos : 0 < avail.length := by omega
    have hidx : ⌊rnd 0 * (avail.length : ℚ)⌋₊ < avail.length :=
      floor_mul_lt (rnd 0) avail.length (hvalid 0).1 (hvalid 0).2 hpos
    have hlen : k ≤ (avail.eraseIdx ⌊rnd 0 * (avail.length : ℚ)⌋₊).length := by
      rw [List.length_eraseIdx_of_lt hidx]
      omega
    obtain ⟨l, h1, h2, h3, h4⟩ :=
      ih (avail.eraseIdx ⌊rnd 0 * (avail.length : ℚ)⌋₊)
        (mines ++ [avail[⌊rnd 0 * (avail.length : ℚ)⌋₊]?]) rnd.next hvalid.next
        (hnodup.eraseIdx _) hlen
    refine ⟨avail[⌊rnd 0 * (avail.length : ℚ)⌋₊] :: l, ?_, by simp [h2], ?_, ?_⟩
    · simp only [MinesGame.placeMines]
      rw [h1, List.getElem?_eq_getElem hidx]
      simp
    · refine List.nodup_cons.mpr ⟨?_, h3⟩
      intro hmem
      have hmem2 := h4 _ hmem
      rw [List.mem_eraseIdx_iff_getElem] at hmem2
      obtain ⟨i, hi, hne, heq⟩ := hmem2
      exact hne ((hnodup.getElem_inj_iff).mp heq)
    · intro i hi
      rcases List.mem_cons.mp hi with h | h
      · rw [h]; exact List.getElem_mem _
      · exact List.mem_of_mem_eraseIdx (h4 i h)

/-- C12: mine placement. For every mine count `m` in `[0, 25]` and every sequence of
random draws in `[0, 1)`, after a `startGame` whose bet is accepted the list `mines` has
exactly `m` entries, all of them positions, pairwise distinct and in `[0, 25)`. -/
theorem mines_placement (s : MinesGame) (betAmount : ℚ) (m : ℕ)
    (hboard : s.board = List.range 25) (hvalid : s.random.Valid)
    (hbet : 0 < betAmount) (hfunds : betAmount ≤ s.gameState.balance) (hm : m ≤ 25) :
    (s.startGame betAmount m).gameInProgress = true ∧
    (s.startGame betAmount m).mines.length = m ∧
    ∃ l : List ℕ, (s.startGame betAmount m).mines = l.map some ∧ l.length = m ∧ l.Nodup ∧
      ∀ i ∈ l, i < 25 := by
  have hguard : ¬ (betAmount ≤ 0 ∨ betAmount > s.gameState.balance) := by
    rintro (h | h)
    · exact absurd hbet (not_lt.mpr h)
    · exact absurd hfunds (not_le.mpr h)
  obtain ⟨l, h1, h2, h3, h4⟩ := MinesGame.placeMines_spec m s.board [] s.random hvalid
    (by rw [hboard]; exact List.nodup_range 25) (by rw [hboard]; simpa using hm)
  have hmines : (s.startGame betAmount m).mines = l.map some := by
    simp only [MinesGame.startGame, hguard, GameState.removeMoney, hfunds]
    simpa using h1
  refine ⟨?_, ?_, l, hmines, h2, h3, ?_⟩
  · simp [MinesGame.startGame, hguard, GameState.removeMoney, hfunds]
  · rw [hmines, List.length_map, h2]
  · intro i hi
    have := h4 i hi
    rw [hboard] at this
    exact List.mem_range.mp this

/-- C12 at a new engine with balance 5000, bet 100, 5 mines and every draw `1 / 2`. -/
theorem mines_placement_witness :
    minesStart.board = List.range 25 ∧ minesStart.random.Valid ∧ (0 : ℚ) < 100 ∧
    (100 : ℚ) ≤ minesStart.gameState.balance ∧ 5 ≤ 25 ∧
    (minesStart.startGame 100 5).mines.length = 5 :=
  ⟨rfl, fun _ => by norm_num [minesStart, MinesGame.new, MinesGame.createBoard],
    by norm_num, by decide, by decide,
    (mines_placement minesStart 100 5 rfl
      (fun _ => by norm_num [minesStart, MinesGame.new, MinesGame.createBoard])
      (by norm_num) (by decide) (by decide)).2.1⟩

/-! ### Mines board invariant -/

namespace MinesGame

theorem boardInv_new (gameState : GameState) (rnd : Rand) : BoardInv (new gameState rnd) := by
  simp [BoardInv, new, createBoard]

theorem boardInv_startGame (s : MinesGame) (betAmount : ℚ) (minesCount : ℕ)
    (h : BoardInv s) : BoardInv (s.startGame betAmount minesCount) := by
  by_cases hguard : betAmount ≤ 0 ∨ betAmount > s.gameState.balance
  · have heq : s.startGame betAmount minesCount = { s with message := some .lose } := by
      simp [startGame, hguard]
    rw [heq]
    exact h
  · have hle : betAmount ≤ s.gameState.balance := by
      simp only [not_or, not_lt, gt_iff_lt] at hguard
      exact hguard.2
    simp [startGame, hguard, GameState.removeMoney, hle, BoardInv]

/-- On a tile that is revealed already, or with no round in progress, `revealTile` returns
the state it was given. -/
theorem revealTile_skip (s : MinesGame) (index : ℕ)
    (h : s.gameInProgress = false ∨ index ∈ s.revealed) : s.revealTile index = s := by
  unfold revealTile
  rcases h with h | h
  · simp [h]
  · simp [h]

theorem revealTile_mine (s : MinesGame) (index : ℕ) (hprog : s.gameInProgress = true)
    (hnew : index ∉ s.revealed) (hmine : some index ∈ s.mines) :
    s.revealTile index =
      { s with revealed := s.revealed ++ [index], gameInProgress := false,
               message := some .lose } := by
  simp [revealTile, hprog, hnew, hmine]

theorem revealTile_gem (s : MinesGame) (index : ℕ) (hprog : s.gameInProgress = true)
    (hnew : index ∉ s.revealed) (hmine : some index ∉ s.mines) :
    s.revealTile index =
      { s with revealed := s.revealed ++ [index], gemsFound := s.gemsFound + 1,
               currentMultiplier :=
                 ({ s with revealed := s.revealed ++ [index],
                           gemsFound := s.gemsFound + 1 } : MinesGame).calculateMultiplier,
               message := some .win } := by
  simp [revealTile, hprog, hnew, hmine]

theorem boardInv_revealTile (s : MinesGame) (index : ℕ) (h : BoardInv s) :
    BoardInv (s.revealTile index) := by
  obtain ⟨hcount, hnodup, hsafe⟩ := h
  by_cases hprog : s.gameInProgress = true
  · by_cases hnew : index ∈ s.revealed
    · rw [revealTile_skip s index (Or.inr hnew)]
      exact ⟨hcount, hnodup, hsafe⟩
    · have hnodup2 : (s.revealed ++ [index]).Nodup :=
        List.Nodup.append hnodup (List.nodup_singleton index) (by simpa using hnew)
      by_cases hmine : some index ∈ s.mines
      · rw [revealTile_mine s index hprog hnew hmine]
        refine ⟨?_, hnodup2, ?_⟩
        · simp [List.filter_append, hmine, hcount]
        · simp
      · rw [revealTile_gem s index hprog hnew hmine]
        refine ⟨?_, hnodup2, ?_⟩
        · simp [List.filter_append, hmine, hcount]
        · intro _ i hi
          rcases List.mem_append.mp hi with hi1 | hi1
          · exact hsafe hprog i hi1
          · rw [List.mem_singleton.mp hi1]; exact hmine
  · rw [revealTile_skip s index (Or.inl (by simpa using hprog))]
    exact ⟨hcount, hnodup, hsafe⟩

theorem boardInv_cashout (s : MinesGame) (h : BoardInv s) : BoardInv s.cashout := by
  obtain ⟨hcount, hnodup, hsafe⟩ := h
  by_cases hskip : (!s.gameInProgress) = true ∨ s.gemsFound = 0
  · have heq : s.cashout = s := by
      unfold cashout
      rw [if_pos hskip]
    rw [heq]
    exact ⟨hcount, hnodup, hsafe⟩
  · have heq : s.cashout =
        { s with gameState := s.gameState.addMoney (s.currentBet * s.currentMultiplier),
                 gameInProgress := false, message := some .win } := by
      unfold cashout
      rw [if_neg hskip]
    rw [heq]
    exact ⟨hcount, hnodup, by simp⟩

theorem boardInv_resetGame (s : MinesGame) : BoardInv s.resetGame := by
  simp [BoardInv, resetGame, createBoard]

theorem boardInv_act (s : MinesGame) (action : MinesAction) (h : BoardInv s) :
    BoardInv (s.act action) := by
  cases action with
  | startGame betAmount minesCount => exact boardInv_startGame s betAmount minesCount h
  | revealTile index => exact boardInv_revealTile s index h
  | cashout => exact boardInv_cashout s h
  | resetGame => exact boardInv_resetGame s

theorem boardInv_run (actions : List MinesAction) (s : MinesGame) (h : BoardInv s) :
    BoardInv (s.run actions) := by
  induction actions generalizing s with
  | nil => exact h
  | cons action rest ih => exact ih (s.act action) (boardInv_act s action h)

end MinesGame

/-- C13: board invariant. In every state reached from a new engine through `startGame`,
`revealTile`, `cashout` and `resetGame`, `gemsFound` is the number of revealed indices that
are not mines, `revealed` has no duplicates, and while the round is in progress no
revealed index is a mine; revealing a revealed tile, or revealing while no round is in
progress, changes nothing. -/
theorem mines_board_invariant (gameState : GameState) (rnd : Rand)
    (actions : List MinesAction) :
    (((MinesGame.new gameState rnd).run actions).gemsFound =
      (((MinesGame.new gameState rnd).run actions).revealed.filter fun i =>
        decide (some i ∉ ((MinesGame.new gameState rnd).run actions).mines)).length) ∧
    ((MinesGame.new gameState rnd).run actions).revealed.Nodup ∧
    (((MinesGame.new gameState rnd).run actions).gameInProgress = true →
      ∀ i ∈ ((MinesGame.new gameState rnd).run actions).revealed,
        some i ∉ ((MinesGame.new gameState rnd).run actions).mines) ∧
    (∀ (s : MinesGame) (index : ℕ),
      s.gameInProgress = false ∨ index ∈ s.revealed → s.revealTile index = s) := by
  obtain ⟨h1, h2, h3⟩ :=
    MinesGame.boardInv_run actions _ (MinesGame.boardInv_new gameState rnd)
  exact ⟨h1, h2, h3, MinesGame.revealTile_skip⟩

/-- C13 on a concrete play: start with 5 mines, reveal tiles 0 and 1, reveal 0 again. -/
theorem mines_board_invariant_witness :
    (minesStart.run [.startGame 100 5, .revealTile 0, .revealTile 1]).gameInProgress = true ∧
    (minesStart.run [.startGame 100 5, .revealTile 0, .revealTile 1]).gemsFound = 2 ∧
    (minesStart.run [.startGame 100 5, .revealTile 0, .revealTile 1]).revealed = [0, 1] ∧
    (minesStart.run [.startGame 100 5, .revealTile 0, .revealTile 1]).revealTile 0 =
      minesStart.run [.startGame 100 5, .revealTile 0, .revealTile 1] :=
  ⟨by decide!, by decide!, by decide!,
    (mines_board_invariant { balance := 5000 } (fun _ => 1 / 2)
      [.startGame 100 5, .revealTile 0, .revealTile 1]).2.2.2 _ 0
      (Or.inr (by decide!))⟩

/-! ### Mines cashout -/

/-- C14: cashout. With no round in progress or no gem found `cashout()` returns the state
unchanged; otherwise it credits exactly `currentBet * currentMultiplier`, ends the round
and leaves the board as it is, so that a repeated `cashout()` changes nothing (credits
nothing). -/
theorem mines_cashout (s : MinesGame) :
    (s.gameInProgress = false ∨ s.gemsFound = 0 → s.cashout = s) ∧
    (s.gameInProgress = true → s.gemsFound ≠ 0 →
      s.cashout.gameState.balance =
        s.gameState.balance + s.currentBet * s.currentMultiplier ∧
      s.cashout.gameInProgress = false ∧
      s.cashout.mines = s.mines ∧ s.cashout.revealed = s.revealed ∧
      s.cashout.gemsFound = s.gemsFound ∧
      s.cashout.cashout = s.cashout ∧
      s.cashout.cashout.gameState.balance = s.cashout.gameState.balance) := by
  constructor
  · intro h
    unfold MinesGame.cashout
    rcases h with h | h
    · simp [h]
    · simp [h]
  · intro hprog hgems
    have hskip : ¬ ((!s.gameInProgress) = true ∨ s.gemsFound = 0) := by
      simp [hprog, hgems]
    have heq : s.cashout =
        { s with gameState := s.gameState.addMoney (s.currentBet * s.currentMultiplier),
                 gameInProgress := false, message := some .win } := by
      unfold MinesGame.cashout
      rw [if_neg hskip]
    have hagain : s.cashout.cashout = s.cashout := by
      rw [heq]
      simp [MinesGame.cashout]
    refine ⟨?_, ?_, ?_, ?_, ?_, hagain, by rw [hagain]⟩
    · rw [heq]; rfl
    · rw [heq]
    · rw [heq]
    · rw [heq]
    · rw [heq]

/-- C14 at a round in progress with 3 gems found, stake 100 and multiplier 1. -/
theorem mines_cashout_witness :
    (minesState 5 3).gameInProgress = true ∧ (minesState 5 3).gemsFound ≠ 0 ∧
    (minesState 5 3).cashout.gameState.balance =
      (minesState 5 3).gameState.balance +
        (minesState 5 3).currentBet * (minesState 5 3).currentMultiplier ∧
    (minesState 5 3).cashout.cashout = (minesState 5 3).cashout ∧
    (minesStart.gameInProgress = false ∨ minesStart.gemsFound = 0) ∧
    minesStart.cashout = minesStart :=
  ⟨rfl, by decide, ((mines_cashout (minesState 5 3)).2 rfl (by decide)).1,
    ((mines_cashout (minesState 5 3)).2 rfl (by decide)).2.2.2.2.2.1,
    Or.inl rfl, (mines_cashout minesStart).1 (Or.inl rfl)⟩

/-! ### Slots payout -/

/-- The balance after `evaluateWin`: the product is credited when it is positive. -/
theorem SlotsGame.evaluateWin_balance (g : SlotsGame) (b : ℚ)
    (c : String × String × String) :
    (g.evaluateWin b c).gameState.balance =
      if (if c.1 = c.2.1 ∧ c.2.1 = c.2.2 then
            b * ((SlotsGame.payouts c.1).getD 0 / 100) else 0) > 0 then
        g.gameState.balance +
          (if c.1 = c.2.1 ∧ c.2.1 = c.2.2 then
            b * ((SlotsGame.payouts c.1).getD 0 / 100) else 0)
      else g.gameState.balance := by
  unfold SlotsGame.evaluateWin
  simp only
  split_ifs <;> simp [GameState.addMoney]

/-- C15 as stated fails for a negative bet amount: with `7, 7, 7` on the payline and bet
amount -100, `evaluateWin` credits nothing (the balance stays 5000) and not
`-100 * 777 / 100`. -/
theorem slots_negative_bet_counterexample :
    slotsStart.gameState.balance = 5000 ∧
    (slotsStart.evaluateWin (-100) ("7", "7", "7")).gameState.balance = 5000 ∧
    (5000 : ℚ) + (-100) * 777 / 100 ≠ 5000 := by
  decide!

/-- C15, amended: for payline symbols drawn from `7`, `bar`, `wild`, `double` and a bet
amount `b >= 0`, `evaluateWin` credits `b * table[s1] / 100` with the table
`7: 777, bar: 100, wild: 200, double: 150` when the three symbols are equal and nothing
for every other combination; for `b < 0` it credits nothing at all. -/
theorem slots_payout (g : SlotsGame) (b : ℚ) (s1 s2 s3 : String)
    (h1 : s1 ∈ ["7", "bar", "wild", "double"]) (h2 : s2 ∈ ["7", "bar", "wild", "double"])
    (h3 : s3 ∈ ["7", "bar", "wild", "double"]) :
    (0 ≤ b → s1 = s2 → s2 = s3 →
      (g.evaluateWin b (s1, s2, s3)).gameState.balance =
        g.gameState.balance +
          b * (if s1 = "7" then 777 else if s1 = "bar" then 100
               else if s1 = "wild" then 200 else 150) / 100) ∧
    (¬ (s1 = s2 ∧ s2 = s3) →
      (g.evaluateWin b (s1, s2, s3)).gameState.balance = g.gameState.balance) ∧
    (b < 0 → (g.evaluateWin b (s1, s2, s3)).gameState.balance = g.gameState.balance) := by
  have hpay : 0 < (SlotsGame.payouts s1).getD 0 / 100 ∧
      (SlotsGame.payouts s1).getD 0 =
        (if s1 = "7" then 777 else if s1 = "bar" then 100
         else if s1 = "wild" then 200 else 150) := by
    simp only [List.mem_cons, List.mem_singleton, List.not_mem_nil, or_false] at h1
    rcases h1 with h | h | h | h <;> subst h <;> simp [SlotsGame.payouts]
  obtain ⟨hpos, htable⟩ := hpay
  refine ⟨?_, ?_, ?_⟩
  · intro hb h12 h23
    rw [SlotsGame.evaluateWin_balance]
    simp only [h12, h23, and_self, if_true]
    rw [← h23, ← h12, ← htable]
    rcases eq_or_lt_of_le hb with hzero | hlt
    · rw [← hzero]; simp
    · rw [if_pos (mul_pos hlt hpos)]
      ring
  · intro hne
    rw [SlotsGame.evaluateWin_balance]
    simp only [hne, if_false]
    simp
  · intro hneg
    rw [SlotsGame.evaluateWin_balance]
    by_cases heq : s1 = s2 ∧ s2 = s3
    · obtain ⟨h12, h23⟩ := heq
      subst h12 h23
      simp only [and_self, if_true]
      rw [if_neg]
      exact not_lt.mpr (le_of_lt (mul_neg_of_neg_of_pos hneg hpos))
    · simp only [heq, if_false]
      simp

/-- C15, amended, at bet amount 100 with `7, 7, 7` on the payline. -/
theorem slots_payout_witness :
    "7" ∈ ["7", "bar", "wild", "double"] ∧ (0 : ℚ) ≤ 100 ∧
    (slotsStart.evaluateWin 100 ("7", "7", "7")).gameState.balance =
      slotsStart.gameState.balance +
        100 * (if "7" = "7" then 777 else if "7" = "bar" then 100
               else if "7" = "wild" then 200 else 150) / 100 :=
  ⟨by decide, by norm_num,
    (slots_payout slotsStart 100 "7" "7" "7" (by decide) (by decide) (by decide)).1
      (by norm_num) rfl rfl⟩

/-! ### Plinko -/

theorem plinkoRow_le (position : ℕ) (random : ℚ) (h : position ≤ 16) :
    plinkoRow position random ≤ 16 := by
  unfold plinkoRow
  split_ifs with h1 h2 <;> omega

theorem plinkoRows_le (rows position : ℕ) (rnd : Rand) (h : position ≤ 16) :
    (plinkoRows rows position rnd).1 ≤ 16 := by
  induction rows generalizing position rnd with
  | zero => exact h
  | succ n ih => exact ih _ _ (plinkoRow_le position (rnd 0) h)

/-- C16: bucket range. For every sequence of random draws, `simulateBallPath` runs the 16
rows from position 8, the final clamp changes nothing, and the result is at most 16 (and
a natural number), so it indexes the 17-entry multiplier table
`[16, 9, 2, 1.4, 1.4, 1.2, 1.1, 1, 0.5, 1, 1.1, 1.2, 1.4, 1.4, 2, 9, 16]`, every entry of
which is strictly positive. -/
theorem plinko_bucket_range (rnd : Rand) :
    (plinkoRows 0 8 rnd).1 = 8 ∧
    (simulateBallPath rnd).1 = (plinkoRows 16 8 rnd).1 ∧
    (simulateBallPath rnd).1 ≤ 16 ∧
    multipliers = [16, 9, 2, 1.4, 1.4, 1.2, 1.1, 1, 0.5, 1, 1.1, 1.2, 1.4, 1.4, 2, 9, 16] ∧
    multipliers.length = 17 ∧
    (∀ x ∈ multipliers, 0 < x) ∧
    ∃ x, multipliers[(simulateBallPath rnd).1]? = some x ∧ 0 < x := by
  have hle : (plinkoRows 16 8 rnd).1 ≤ 16 := plinkoRows_le 16 8 rnd (by decide)
  have hsame : (simulateBallPath rnd).1 = (plinkoRows 16 8 rnd).1 := by
    simp only [simulateBallPath]
    omega
  have hpos : ∀ x ∈ multipliers, 0 < x := by
    intro x hx
    simp only [multipliers, List.mem_cons, List.mem_singleton, List.not_mem_nil,
      or_false] at hx
    rcases hx with h | h | h | h | h | h | h | h | h | h | h | h | h | h | h | h | h <;>
      rw [h] <;> norm_num
  have hlen : multipliers.length = 17 := rfl
  have hidx : (simulateBallPath rnd).1 < multipliers.length := by
    rw [hsame, hlen]
    omega
  refine ⟨rfl, hsame, by rw [hsame]; exact hle, rfl, hlen, hpos,
    multipliers[(simulateBallPath rnd).1], List.getElem?_eq_getElem hidx, ?_⟩
  exact hpos _ (List.getElem_mem _)

/-! ### Dice -/

/-- The win test in words. -/
theorem DiceGame.isWin_iff (betType : String) (roll : ℕ) (target : ℤ) :
    DiceGame.isWin betType roll target = true ↔
      (betType = "over" ∧ (roll : ℤ) > target) ∨ (betType = "under" ∧ (roll : ℤ) < target) := by
  unfold DiceGame.isWin
  split_ifs with h1 h2
  · simp [h1]
  · simp [h2]
  · simp only [Bool.false_eq_true, false_iff, not_or]
    exact ⟨h1, h2⟩

/-- C17: win rule. For every roll and every integer target the callback of `rollDice`
reports a win exactly when (`betType` is `over` and `roll > target`) or (`betType` is
`under` and `roll < target`); `roll = target` is a loss for either bet type; on a loss the
ledger is untouched; and the roll drawn by `rollDice` lies in `[1, 100]`. -/
theorem dice_win_rule (g : DiceGame) (b : ℚ) (target : ℤ) (roll : ℕ) :
    ((g.settle b target roll).message = some .win ↔
      (g.betType = "over" ∧ (roll : ℤ) > target) ∨
      (g.betType = "under" ∧ (roll : ℤ) < target)) ∧
    ((g.settle b target roll).message = some .lose ↔
      ¬ ((g.betType = "over" ∧ (roll : ℤ) > target) ∨
         (g.betType = "under" ∧ (roll : ℤ) < target))) ∧
    ((roll : ℤ) = target → (g.settle b target roll).message = some .lose) ∧
    ((g.settle b target roll).message = some .lose →
      (g.settle b target roll).gameState = g.gameState) ∧
    (∀ random : ℚ, 0 ≤ random → random < 1 →
      1 ≤ ⌊random * 100⌋₊ + 1 ∧ ⌊random * 100⌋₊ + 1 ≤ 100 ∧
      (¬ b > g.gameState.balance →
        (g.rollDice b target random).timerFires =
          (g.rollDice b target random).settle b target (⌊random * 100⌋₊ + 1))) := by
  have hwin := DiceGame.isWin_iff g.betType roll target
  by_cases hw : DiceGame.isWin g.betType roll target = true
  · have hcond := hwin.mp hw
    have hmsg : (g.settle b target roll).message = some .win := by
      simp [DiceGame.settle, hw]
    refine ⟨⟨fun _ => hcond, fun _ => hmsg⟩, ?_, ?_, ?_, ?_⟩
    · rw [hmsg]
      simp [hcond]
    · intro heq
      rcases hcond with ⟨_, h⟩ | ⟨_, h⟩ <;> omega
    · intro hlose
      rw [hmsg] at hlose
      exact absurd hlose (by decide)
    · intro random h0 h1
      have hlt := floor_mul_lt random 100 h0 h1 (by norm_num)
      refine ⟨by omega, ?_, ?_⟩
      · have : ⌊random * ((100 : ℕ) : ℚ)⌋₊ = ⌊random * 100⌋₊ := by norm_num
        omega
      · intro hfunds
        have hle : b ≤ g.gameState.balance := not_lt.mp hfunds
        simp [DiceGame.rollDice, DiceGame.timerFires, GameState.removeMoney, hfunds, hle]
  · have hcond : ¬ ((g.betType = "over" ∧ (roll : ℤ) > target) ∨
        (g.betType = "under" ∧ (roll : ℤ) < target)) := fun h => hw (hwin.mpr h)
    have hsettle : g.settle b target roll = { g with message := some .lose, pending := none } := by
      simp [DiceGame.settle, hw]
    refine ⟨?_, ?_, ?_, ?_, ?_⟩
    · rw [hsettle]
      simp [hcond]
    · rw [hsettle]
      simp [hcond]
    · intro _
      rw [hsettle]
    · intro _
      rw [hsettle]
    · intro random h0 h1
      have hlt := floor_mul_lt random 100 h0 h1 (by norm_num)
      refine ⟨by omega, ?_, ?_⟩
      · have : ⌊random * ((100 : ℕ) : ℚ)⌋₊ = ⌊random * 100⌋₊ := by norm_num
        omega
      · intro hfunds
        have hle : b ≤ g.gameState.balance := not_lt.mp hfunds
        simp [DiceGame.rollDice, DiceGame.timerFires, GameState.removeMoney, hfunds, hle]

/-- C17 at target 50: the roll 50 loses for `over` and for `under`, the roll 51 wins for
`over`. -/
theorem dice_win_rule_witness :
    ((50 : ℕ) : ℤ) = 50 ∧
    ((diceAfterBet "over").settle 100 50 50).message = some .lose ∧
    ((diceAfterBet "under").settle 100 50 50).message = some .lose ∧
    ((diceAfterBet "over").settle 100 50 51).message = some .win :=
  ⟨rfl, (dice_win_rule (diceAfterBet "over") 100 50 50).2.2.1 rfl,
    (dice_win_rule (diceAfterBet "under") 100 50 50).2.2.1 rfl,
    (dice_win_rule (diceAfterBet "over") 100 50 51).1.mpr (Or.inl ⟨rfl, by decide⟩)⟩

/-- C18: the code at the failing input. For `under` and target 50 the rolls that win are
1 .. 49, that is 49 of the 100 rolls, while the chance used by `calculatePayout` (and shown
by `updateChance`) is `50 / 100`; for every target in `[0, 100]` the count is `target - 1`
(0 for target 0) for `under`, whereas for `over` it is `100 - target` as the chance says. -/
theorem dice_under_count :
    DiceGame.winningRolls "under" 50 = 49 ∧
    DiceGame.chance "under" 50 * 100 = 50 ∧
    DiceGame.isWin "under" 50 50 = false ∧
    ((List.range 101).all fun t => DiceGame.winningRolls "under" t == t - 1) = true ∧
    ((List.range 101).all fun t => DiceGame.winningRolls "over" t == 100 - t) = true ∧
    ((List.range 101).all fun t =>
      decide (DiceGame.chance "over" t * 100 = ((100 - t : ℕ) : ℚ))) = true ∧
    ((List.range 101).all fun t => decide (DiceGame.chance "under" t * 100 = (t : ℚ))) =
      true := by
  decide!

/-- C19: payout multiplier. `calculatePayout(target)` is `0.99 / chance` with chance
`(100 - target) / 100` for `over` and `target / 100` for `under`; where the chance is
not zero this is `99 / (100 - target)` for `over` and `99 / target` for `under`; a winning
roll credits `stake * multiplier`. -/
theorem dice_payout (g : DiceGame) (b : ℚ) (target : ℤ) (roll : ℕ) :
    (g.betType = "over" →
      DiceGame.chance g.betType target = (100 - (target : ℚ)) / 100 ∧
      g.calculatePayout target = 0.99 / ((100 - (target : ℚ)) / 100) ∧
      (DiceGame.chance g.betType target ≠ 0 →
        g.calculatePayout target = 99 / (100 - (target : ℚ)))) ∧
    (g.betType = "under" →
      DiceGame.chance g.betType target = (target : ℚ) / 100 ∧
      g.calculatePayout target = 0.99 / ((target : ℚ) / 100) ∧
      (DiceGame.chance g.betType target ≠ 0 →
        g.calculatePayout target = 99 / (target : ℚ))) ∧
    (DiceGame.isWin g.betType roll target = true →
      (g.settle b target roll).gameState.balance =
        g.gameState.balance + b * g.calculatePayout target) := by
  refine ⟨?_, ?_, ?_⟩
  · intro hover
    have hchance : DiceGame.chance g.betType target = (100 - (target : ℚ)) / 100 := by
      simp [DiceGame.chance, hover]
    refine ⟨hchance, by simp [DiceGame.calculatePayout, hchance], ?_⟩
    intro hne
    rw [hchance] at hne
    have hden : (100 - (target : ℚ)) ≠ 0 := fun h => hne (by rw [h]; simp)
    simp only [DiceGame.calculatePayout, hchance]
    field_simp
    norm_num
  · intro hunder
    have hchance : DiceGame.chance g.betType target = (target : ℚ) / 100 := by
      simp [DiceGame.chance, hunder]
    refine ⟨hchance, by simp [DiceGame.calculatePayout, hchance], ?_⟩
    intro hne
    rw [hchance] at hne
    have hden : (target : ℚ) ≠ 0 := fun h => hne (by rw [h]; simp)
    simp only [DiceGame.calculatePayout, hchance]
    field_simp
    norm_num
  · intro hw
    simp [DiceGame.settle, hw, GameState.addMoney]

/-- C19 at target 50 with bet type `over`: chance `1 / 2`, multiplier `1.98`, and a
winning roll of 51 on a stake of 100 credits 198. -/
theorem dice_payout_witness :
    (diceAfterBet "over").betType = "over" ∧
    DiceGame.chance (diceAfterBet "over").betType 50 = 1 / 2 ∧
    DiceGame.chance (diceAfterBet "over").betType 50 ≠ 0 ∧
    (diceAfterBet "over").calculatePayout 50 = 1.98 ∧
    (diceAfterBet "over").calculatePayout 50 = 99 / (100 - ((50 : ℤ) : ℚ)) ∧
    DiceGame.isWin (diceAfterBet "over").betType 51 50 = true ∧
    ((diceAfterBet "over").settle 100 50 51).gameState.balance =
      (diceAfterBet "over").gameState.balance + 100 * (diceAfterBet "over").calculatePayout 50 ∧
    ((diceAfterBet "over").settle 100 50 51).gameState.balance = 4900 + 198 :=
  ⟨rfl, by decide!, by decide!, by decide!,
    ((dice_payout (diceAfterBet "over") 100 50 51).1 rfl).2.2 (by decide!),
    by decide!, (dice_payout (diceAfterBet "over") 100 50 51).2.2 (by decide!), by decide!⟩

/-! ### Limbo crash point -/

/-- For a draw in `[0, 1)` the floor inside `generateCrashPoint` is at most 999. -/
theorem LimboGame.floor_le (r : ℚ) (h0 : 0 ≤ r) (h1 : r < 1) : ⌊r * 1000⌋₊ ≤ 999 := by
  have hlt := floor_mul_lt r 1000 h0 h1 (by norm_num)
  have : ⌊r * ((1000 : ℕ) : ℚ)⌋₊ = ⌊r * 1000⌋₊ := by norm_num
  omega

/-- C20 as stated fails: no draw in `[0, 1)` gives the crash point 1000, and the two
different floors 0 and 1 (draws `0` and `1 / 1000`) both give the crash point 1, while the
crash point 2 comes from the floor 2 alone: of the floors 0 .. 999 two give 1, one gives 2
and none gives 1000. -/
theorem limbo_crash_point_counterexample :
    (¬ ∃ r : ℚ, 0 ≤ r ∧ r < 1 ∧ LimboGame.generateCrashPoint r = 1000) ∧
    LimboGame.generateCrashPoint 0 = 1 ∧ LimboGame.generateCrashPoint (1 / 1000) = 1 ∧
    ((List.range 1000).filter fun k =>
      LimboGame.generateCrashPoint ((k : ℚ) / 1000) = 1).length = 2 ∧
    ((List.range 1000).filter fun k =>
      LimboGame.generateCrashPoint ((k : ℚ) / 1000) = 2).length = 1 ∧
    ((List.range 1000).filter fun k =>
      LimboGame.generateCrashPoint ((k : ℚ) / 1000) = 1000).length = 0 := by
  refine ⟨?_, by decide!, by decide!, by decide!, by decide!, by decide!⟩
  rintro ⟨r, h0, h1, h⟩
  have hle := LimboGame.floor_le r h0 h1
  unfold LimboGame.generateCrashPoint at h
  omega

/-- C20, amended: for every draw `r` in `[0, 1)`, `generateCrashPoint` returns
`max(1, floor(1000 r))`, an integer in `[1, 999]`; every integer from 1 to 999 is returned
for some draw; the value 1 belongs to the two floors 0 and 1, and every value from 2 to
999 to the one floor equal to it. -/
theorem limbo_crash_point (r : ℚ) (h0 : 0 ≤ r) (h1 : r < 1) :
    LimboGame.generateCrashPoint r = max 1 ⌊r * 1000⌋₊ ∧
    1 ≤ LimboGame.generateCrashPoint r ∧ LimboGame.generateCrashPoint r ≤ 999 ∧
    (∀ n : ℕ, 1 ≤ n → n ≤ 999 →
      0 ≤ (n : ℚ) / 1000 ∧ (n : ℚ) / 1000 < 1 ∧
      LimboGame.generateCrashPoint ((n : ℚ) / 1000) = n) ∧
    (LimboGame.generateCrashPoint r = 1 ↔ ⌊r * 1000⌋₊ = 0 ∨ ⌊r * 1000⌋₊ = 1) ∧
    (∀ n : ℕ, 2 ≤ n → (LimboGame.generateCrashPoint r = n ↔ ⌊r * 1000⌋₊ = n)) := by
  have hle := LimboGame.floor_le r h0 h1
  refine ⟨rfl, ?_, ?_, ?_, ?_, ?_⟩
  · unfold LimboGame.generateCrashPoint; omega
  · unfold LimboGame.generateCrashPoint; omega
  · intro n hn1 hn2
    refine ⟨by positivity, ?_, ?_⟩
    · rw [div_lt_one (by norm_num)]
      have : (n : ℚ) ≤ 999 := by exact_mod_cast hn2
      linarith
    · unfold LimboGame.generateCrashPoint
      rw [div_mul_cancel₀ _ (by norm_num : (1000 : ℚ) ≠ 0), Nat.floor_natCast]
      omega
  · unfold LimboGame.generateCrashPoint; omega
  · intro n hn
    unfold LimboGame.generateCrashPoint; omega

/-- C20, amended, at the draw `1 / 2`: the crash point is 500. -/
theorem limbo_crash_point_witness :
    (0 : ℚ) ≤ 1 / 2 ∧ (1 / 2 : ℚ) < 1 ∧ LimboGame.generateCrashPoint (1 / 2) = 500 ∧
    1 ≤ LimboGame.generateCrashPoint (1 / 2) ∧ LimboGame.generateCrashPoint (1 / 2) ≤ 999 :=
  ⟨by norm_num, by norm_num, by decide!,
    (limbo_crash_point (1 / 2) (by norm_num) (by norm_num)).2.1,
    (limbo_crash_point (1 / 2) (by norm_num) (by norm_num)).2.2.1⟩

/-! ### Baccarat -/

/-- The loop body of the Baccarat scoring adds the card value of the specification. -/
theorem BaccaratGame.scoreCard_value (value : ℕ) (card : Card) :
    BaccaratGame.scoreCard value card = value + baccaratCardValue card := by
  obtain ⟨s, v⟩ := card
  cases v <;> simp [BaccaratGame.scoreCard, baccaratCardValue, Rank.parseInt]

theorem BaccaratGame.foldl_scoreCard (hand : List Card) (value : ℕ) :
    hand.foldl BaccaratGame.scoreCard value = value + (hand.map baccaratCardValue).sum := by
  induction hand generalizing value with
  | nil => simp
  | cons card rest ih =>
    simp only [List.foldl_cons, List.map_cons, List.sum_cons]
    rw [ih, BaccaratGame.scoreCard_value]
    omega

/-- C21: Baccarat hand value. For every hand `calculateHandValue` is the sum of the card
values modulo 10, where K, Q, J and 10 count 0, an Ace counts 1 and 2 .. 9 their face
value; the result lies in `[0, 9]`; `[9, 9]` scores 8 and `[5, K]` scores 5. -/
theorem baccarat_hand_value (hand : List Card) :
    BaccaratGame.calculateHandValue hand = (hand.map baccaratCardValue).sum % 10 ∧
    BaccaratGame.calculateHandValue hand ≤ 9 ∧
    BaccaratGame.calculateHandValue [spade .n9, { suit := .hearts, value := .n9 }] = 8 ∧
    BaccaratGame.calculateHandValue [spade .n5, spade .K] = 5 := by
  have h : BaccaratGame.calculateHandValue hand = (hand.map baccaratCardValue).sum % 10 := by
    unfold BaccaratGame.calculateHandValue
    rw [BaccaratGame.foldl_scoreCard]
    simp
  refine ⟨h, ?_, by decide, by decide⟩
  rw [h]
  omega

/-- The balance after the Baccarat `endGame(winner)`. -/
theorem BaccaratGame.endGame_balance (g : BaccaratGame) (winner : String) :
    (g.endGame winner).gameState.balance =
      g.gameState.balance +
        (if g.selectedBet = some winner then
          (if winner = "tie" then g.currentBet * 8 else g.currentBet * 2)
         else 0) := by
  unfold BaccaratGame.endGame
  simp only
  split_ifs <;> simp [GameState.addMoney]

/-- C22: Baccarat settlement. For every pair of hands, stake `s` (`currentBet`) and
selection among `player`, `banker`, `tie`: `determineWinner` passes to `endGame` the side
with the strictly higher hand value, and `tie` when the values are equal; the round
credits `8 * s` if the selection is `tie` and it is a tie, `2 * s` if the selection is
`player` or `banker` and equals the winner, and nothing otherwise. -/
theorem baccarat_settlement (g : BaccaratGame) (selection : String)
    (hsel : selection ∈ ["player", "banker", "tie"])
    (hbet : g.selectedBet = some selection) :
    g.determineWinner =
      g.endGame
        (if BaccaratGame.calculateHandValue g.playerHand >
            BaccaratGame.calculateHandValue g.bankerHand then "player"
         else if BaccaratGame.calculateHandValue g.bankerHand >
            BaccaratGame.calculateHandValue g.playerHand then "banker"
         else "tie") ∧
    g.determineWinner.gameState.balance =
      g.gameState.balance +
        (if BaccaratGame.calculateHandValue g.playerHand =
            BaccaratGame.calculateHandValue g.bankerHand then
          (if selection = "tie" then 8 * g.currentBet else 0)
         else if BaccaratGame.calculateHandValue g.playerHand >
            BaccaratGame.calculateHandValue g.bankerHand then
          (if selection = "player" then 2 * g.currentBet else 0)
         else
          (if selection = "banker" then 2 * g.currentBet else 0)) := by
  refine ⟨rfl, ?_⟩
  unfold BaccaratGame.determineWinner
  simp only
  rw [BaccaratGame.endGame_balance, hbet]
  simp only [List.mem_cons, List.mem_singleton, List.not_mem_nil, or_false] at hsel
  rcases Nat.lt_trichotomy (BaccaratGame.calculateHandValue g.playerHand)
      (BaccaratGame.calculateHandValue g.bankerHand) with hlt | heq | hgt
  · have h1 : ¬ BaccaratGame.calculateHandValue g.playerHand >
        BaccaratGame.calculateHandValue g.bankerHand := by omega
    have h2 : BaccaratGame.calculateHandValue g.playerHand ≠
        BaccaratGame.calculateHandValue g.bankerHand := by omega
    rcases hsel with h | h | h <;> subst h <;> simp [h1, h2, hlt, mul_comm]
  · rcases hsel with h | h | h <;> subst h <;> simp [heq, mul_comm]
  · have h2 : BaccaratGame.calculateHandValue g.playerHand ≠
        BaccaratGame.calculateHandValue g.bankerHand := by omega
    rcases hsel with h | h | h <;> subst h <;> simp [h2, hgt, mul_comm]

/-- C22 on the hands 9, 9 (value 8) against 5, K (value 5) with stake 100: selecting
`player` is credited 200, selecting `banker` nothing. -/
theorem baccarat_settlement_witness :
    "player" ∈ ["player", "banker", "tie"] ∧
    (baccaratNines "player").selectedBet = some "player" ∧
    (baccaratNines "player").determineWinner.gameState.balance =
      (baccaratNines "player").gameState.balance + 200 ∧
    (baccaratNines "banker").determineWinner.gameState.balance =
      (baccaratNines "banker").gameState.balance :=
  ⟨by decide, rfl,
    ((baccarat_settlement (baccaratNines "player") "player" (by decide) rfl).2.trans
      (by decide!)),
    ((baccarat_settlement (baccaratNines "banker") "banker" (by decide) rfl).2.trans
      (by decide!))⟩

/-! ### Deck draw -/

/-- Overwriting one position changes the count of a card by what goes out and comes in. -/
theorem count_set_add (l : List Card) (k : ℕ) (x c : Card) (h : k < l.length) :
    (l.set k x).count c + (if l[k] == c then 1 else 0) =
      l.count c + (if x == c then 1 else 0) := by
  have hle : (if l[k] == c then 1 else 0) ≤ l.count c := by
    split
    · rename_i heq
      have hmem : c ∈ l := by
        have : l[k] = c := by simpa using heq
        rw [← this]
        exact List.getElem_mem _
      exact List.count_pos_iff.mpr hmem
    · exact Nat.zero_le _
  rw [List.count_set _ _ _ _ h]
  omega

/-- Swapping two positions only permutes the deck. -/
theorem swap_perm (deck : List Card) (i j : ℕ) : (swap deck i j).Perm deck := by
  unfold swap
  split
  · rename_i a b ha hb
    obtain ⟨hi, hai⟩ := List.getElem?_eq_some.mp ha
    obtain ⟨hj, hbj⟩ := List.getElem?_eq_some.mp hb
    rw [List.perm_iff_count]
    intro c
    have hj2 : j < (deck.set i b).length := by simpa using hj
    have h1 := count_set_add (deck.set i b) j a c hj2
    have h2 := count_set_add deck i b c hi
    rw [hai] at h2
    by_cases hij : i = j
    · subst hij
      have hab : a = b := by rw [← hai, ← hbj]
      subst hab
      rw [List.getElem_set_self] at h1
      omega
    · rw [List.getElem_set_ne hij, hbj] at h1
      omega
  · exact List.Perm.refl _

theorem shuffleLoop_perm (i : ℕ) (deck : List Card) (rnd : Rand) :
    (shuffleLoop i deck rnd).1.Perm deck := by
  induction i generalizing deck rnd with
  | zero => exact List.Perm.refl _
  | succ n ih =>
    simp only [shuffleLoop]
    exact (ih _ _).trans (swap_perm _ _ _)

/-- The index drawn by `shuffleDeck` at position `i` lies in `[0, i]` for a draw in
`[0, 1)`, so the swap stays inside the array. -/
theorem shuffleIndex_le (r : ℚ) (i : ℕ) (h0 : 0 ≤ r) (h1 : r < 1) :
    ⌊r * ((i : ℚ) + 1)⌋₊ ≤ i := by
  have h := floor_mul_lt r (i + 1) h0 h1 (Nat.succ_pos i)
  have hcast : ((i + 1 : ℕ) : ℚ) = (i : ℚ) + 1 := by push_cast; rfl
  rw [hcast] at h
  omega

theorem createDeck_perm (rnd : Rand) : (createDeck rnd).1.Perm orderedDeck :=
  shuffleLoop_perm _ _ _

theorem orderedDeck_nodup : orderedDeck.Nodup := by decide

/-- On a deck that is not empty `dealCard` pops the last card and draws nothing. -/
theorem dealCard_of_ne_nil (deck : List Card) (rnd : Rand) (h : deck ≠ []) :
    dealCard deck rnd = (deck.getLast h, deck.dropLast, rnd) := by
  have hlen : deck.length ≠ 0 := fun h0 => h (List.length_eq_zero.mp h0)
  unfold dealCard
  simp only [hlen, if_false, List.getLast?_eq_getLast _ h]

/-- Dealing a whole deck returns its cards from the last to the first and empties it. -/
theorem dealCards_all (deck : List Card) (rnd : Rand) :
    dealCards deck.length deck rnd = (deck.reverse, [], rnd) := by
  induction deck using List.reverseRecOn with
  | nil => rfl
  | append_singleton init last ih =>
    have hne : init ++ [last] ≠ [] := by simp
    have hdeal := dealCard_of_ne_nil (init ++ [last]) rnd hne
    simp only [List.getLast_append_singleton, List.dropLast_concat] at hdeal
    simp only [List.length_append, List.length_singleton, dealCards, hdeal, ih,
      List.reverse_append, List.reverse_singleton, List.singleton_append]

/-- C23: deck draw. `createDeck` builds 52 pairwise distinct cards and `shuffleDeck` only
permutes them; for every sequence of random draws, 52 consecutive `dealCard` calls on a
new deck return each of the 52 cards exactly once, without a reshuffle, and leave the deck
empty; the 53rd call rebuilds and reshuffles a full deck (again a permutation of the 52
cards) and returns one of its cards, leaving 51. -/
theorem deck_draw (rnd : Rand) :
    orderedDeck.length = 52 ∧ orderedDeck.Nodup ∧
    (createDeck rnd).1.Perm orderedDeck ∧
    (dealCards 52 (createDeck rnd).1 (createDeck rnd).2).1.Perm orderedDeck ∧
    (dealCards 52 (createDeck rnd).1 (createDeck rnd).2).1.Nodup ∧
    (∀ card ∈ orderedDeck,
      (dealCards 52 (createDeck rnd).1 (createDeck rnd).2).1.count card = 1) ∧
    (dealCards 52 (createDeck rnd).1 (createDeck rnd).2).2.1 = [] ∧
    (dealCards 52 (createDeck rnd).1 (createDeck rnd).2).2.2 = (createDeck rnd).2 ∧
    (dealCard [] (createDeck rnd).2).1 ∈ orderedDeck ∧
    (dealCard [] (createDeck rnd).2).2.1.length = 51 ∧
    ((dealCard [] (createDeck rnd).2).2.1 ++ [(dealCard [] (createDeck rnd).2).1]).Perm
      orderedDeck := by
  have hlen : (createDeck rnd).1.length = 52 := createDeck_length rnd
  have hperm := createDeck_perm rnd
  have hall := dealCards_all (createDeck rnd).1 (createDeck rnd).2
  rw [hlen] at hall
  have hdealt : (dealCards 52 (createDeck rnd).1 (createDeck rnd).2).1.Perm orderedDeck := by
    rw [hall]
    dsimp only
    have hrev : (createDeck rnd).1.reverse.Perm (createDeck rnd).1 :=
      List.reverse_perm (createDeck rnd).1
    exact List.Perm.trans hrev hperm
  have hnodup : (dealCards 52 (createDeck rnd).1 (createDeck rnd).2).1.Nodup :=
    (hdealt.nodup_iff).mpr orderedDeck_nodup
  have hne : (createDeck (createDeck rnd).2).1 ≠ [] := by
    intro h
    have := createDeck_length (createDeck rnd).2
    rw [h] at this
    simp at this
  have h53 : dealCard [] (createDeck rnd).2 =
      ((createDeck (createDeck rnd).2).1.getLast hne,
        (createDeck (createDeck rnd).2).1.dropLast, (createDeck (createDeck rnd).2).2) := by
    unfold dealCard
    simp only [List.length_nil, if_true, List.getLast?_eq_getLast _ hne]
  have hperm2 := createDeck_perm (createDeck rnd).2
  refine ⟨by decide, orderedDeck_nodup, hperm, hdealt, hnodup, ?_, ?_, ?_, ?_, ?_, ?_⟩
  · intro card hcard
    rw [hdealt.count_eq]
    exact List.count_eq_one_of_mem orderedDeck_nodup hcard
  · rw [hall]
  · rw [hall]
  · rw [h53]
    dsimp only
    have hmem : (createDeck (createDeck rnd).2).1.getLast hne ∈
        (createDeck (createDeck rnd).2).1 := List.getLast_mem hne
    exact (List.Perm.mem_iff hperm2).mp hmem
  · rw [h53]
    dsimp only
    rw [List.length_dropLast, createDeck_length]
  · rw [h53]
    dsimp only
    rw [List.dropLast_append_getLast]
    exact hperm2

/-! ### Reward scheduler -/

/-- C24: reward claims. For each tier (interval 600000 / 86400000 / 604800000 ms, payout
100 / 1000 / 10000) and every time `now`: if `now - lastClaimTimestamp >= interval` the
claim credits the payout and sets that tier's timestamp to `now`, leaving the other two
timestamps alone; otherwise it changes nothing; and a second claim at the same instant
after a successful one changes nothing. -/
theorem reward_claim (gs : GameState) (now : ℤ) :
    GameState.rewardInterval = 600000 ∧ GameState.dailyRewardInterval = 86400000 ∧
    GameState.weeklyRewardInterval = 604800000 ∧
    (now - gs.lastRewardTime ≥ 600000 →
      gs.claimReward now =
        { gs with balance := gs.balance + 100, lastRewardTime := now } ∧
      (gs.claimReward now).claimReward now = gs.claimReward now) ∧
    (¬ now - gs.lastRewardTime ≥ 600000 → gs.claimReward now = gs) ∧
    (now - gs.lastDailyRewardTime ≥ 86400000 →
      gs.claimDailyReward now =
        { gs with balance := gs.balance + 1000, lastDailyRewardTime := now } ∧
      (gs.claimDailyReward now).claimDailyReward now = gs.claimDailyReward now) ∧
    (¬ now - gs.lastDailyRewardTime ≥ 86400000 → gs.claimDailyReward now = gs) ∧
    (now - gs.lastWeeklyRewardTime ≥ 604800000 →
      gs.claimWeeklyReward now =
        { gs with balance := gs.balance + 10000, lastWeeklyRewardTime := now } ∧
      (gs.claimWeeklyReward now).claimWeeklyReward now = gs.claimWeeklyReward now) ∧
    (¬ now - gs.lastWeeklyRewardTime ≥ 604800000 → gs.claimWeeklyReward now = gs) := by
  have h1 : GameState.rewardInterval = 600000 := by decide
  have h2 : GameState.dailyRewardInterval = 86400000 := by decide
  have h3 : GameState.weeklyRewardInterval = 604800000 := by decide
  refine ⟨h1, h2, h3, ?_, ?_, ?_, ?_, ?_, ?_⟩
  · intro h
    have heq : gs.claimReward now =
        { gs with balance := gs.balance + 100, lastRewardTime := now } := by
      simp [GameState.claimReward, GameState.addMoney, h1, h]
    refine ⟨heq, ?_⟩
    rw [heq]
    simp [GameState.claimReward, h1]
  · intro h
    simp [GameState.claimReward, h1, h]
  · intro h
    have heq : gs.claimDailyReward now =
        { gs with balance := gs.balance + 1000, lastDailyRewardTime := now } := by
      simp [GameState.claimDailyReward, GameState.addMoney, h2, h]
    refine ⟨heq, ?_⟩
    rw [heq]
    simp [GameState.claimDailyReward, h2]
  · intro h
    simp [GameState.claimDailyReward, h2, h]
  · intro h
    have heq : gs.claimWeeklyReward now =
        { gs with balance := gs.balance + 10000, lastWeeklyRewardTime := now } := by
      simp [GameState.claimWeeklyReward, GameState.addMoney, h3, h]
    refine ⟨heq, ?_⟩
    rw [heq]
    simp [GameState.claimWeeklyReward, h3]
  · intro h
    simp [GameState.claimWeeklyReward, h3, h]

/-- C24 for a new wallet (all timestamps 0) at `now = 700000`: the 10-minute reward is
due and credited, the daily one is not. -/
theorem reward_claim_witness :
    (700000 : ℤ) - (GameState.mk 5000 0 0 0).lastRewardTime ≥ 600000 ∧
    ¬ (700000 : ℤ) - (GameState.mk 5000 0 0 0).lastDailyRewardTime ≥ 86400000 ∧
    (GameState.mk 5000 0 0 0).claimReward 700000 =
      { GameState.mk 5000 0 0 0 with
        balance := (GameState.mk 5000 0 0 0).balance + 100, lastRewardTime := 700000 } ∧
    (GameState.mk 5000 0 0 0).claimDailyReward 700000 = GameState.mk 5000 0 0 0 :=
  ⟨by decide, by decide,
    ((reward_claim (GameState.mk 5000 0 0 0) 700000).2.2.2.1 (by decide)).1,
    (reward_claim (GameState.mk 5000 0 0 0) 700000).2.2.2.2.2.2.1 (by decide)⟩

/-! ### Ledger round trip -/

/-- The round trip in exact arithmetic: with `0 < x <= b`, `removeMoney(x)` succeeds and a
following `addMoney(x)` leaves the wallet as it was. On doubles both steps round, and
the round trip can miss `b` by a unit in the last place (see the ledger on JavaScript
numbers below). -/
theorem ledger_round_trip (gs : GameState) (x : ℚ) (_hpos : 0 < x) (hle : x ≤ gs.balance) :
    (gs.removeMoney x).2 = true ∧
    ((gs.removeMoney x).1.addMoney x).balance = gs.balance ∧
    (gs.removeMoney x).1.addMoney x = gs := by
  have hrem : gs.removeMoney x = ({ gs with balance := gs.balance - x }, true) := by
    simp [GameState.removeMoney, hle]
  rw [hrem]
  simp [GameState.addMoney]

/-! ### Blackjack scoring in closed form -/

/-- One step of the first loop of `calculateHandValue`: an Ace is counted, any other card
adds its value. -/
theorem blackjackScoreCard_eq (acc : ℕ × ℕ) (card : Card) :
    BlackjackGame.scoreCard acc card =
      if card.value = Rank.A then (acc.1, acc.2 + 1) else (acc.1 + cardMin card, acc.2) := by
  obtain ⟨s, v⟩ := card
  cases v <;> simp [BlackjackGame.scoreCard, cardMin]

/-- The first loop of `calculateHandValue` leaves the non-Ace sum and the number of Aces. -/
theorem foldl_scoreCard_eq (hand : List Card) (acc : ℕ × ℕ) :
    hand.foldl BlackjackGame.scoreCard acc =
      (acc.1 + nonAceSum hand, acc.2 + aceCount hand) := by
  induction hand generalizing acc with
  | nil => simp [nonAceSum, aceCount]
  | cons card rest ih =>
    rw [List.foldl_cons, ih, blackjackScoreCard_eq]
    by_cases hace : card.value = Rank.A
    · simp [nonAceSum, aceCount, hace]
      omega
    · simp [nonAceSum, aceCount, hace]
      omega

/-- Above a running total of 10 every Ace counts 1. -/
theorem addAces_of_gt (aces value : ℕ) (h : 10 < value) :
    BlackjackGame.addAces aces value = value + aces ∧ elevenCount aces value = 0 := by
  induction aces generalizing value with
  | zero => simp [BlackjackGame.addAces, elevenCount]
  | succ n ih =>
    have hif : ¬ value + 11 ≤ 21 := by omega
    simp only [BlackjackGame.addAces, elevenCount, hif, if_false]
    obtain ⟨h1, h2⟩ := ih (value + 1) (by omega)
    exact ⟨by rw [h1]; omega, h2⟩

/-- The Ace loop in closed form, with the number of Aces it counts as 11. -/
theorem addAces_closed (aces value : ℕ) :
    BlackjackGame.addAces aces value =
      (if 1 ≤ aces ∧ value ≤ 10 then value + aces + 10 else value + aces) ∧
    BlackjackGame.addAces aces value = value + aces + 10 * elevenCount aces value ∧
    elevenCount aces value ≤ 1 := by
  cases aces with
  | zero => simp [BlackjackGame.addAces, elevenCount]
  | succ n =>
    by_cases hv : value ≤ 10
    · have hif : value + 11 ≤ 21 := by omega
      obtain ⟨h1, h2⟩ := addAces_of_gt n (value + 11) (by omega)
      simp only [BlackjackGame.addAces, elevenCount, hif, if_true, h1, h2]
      refine ⟨?_, by omega, by omega⟩
      rw [if_pos ⟨by omega, hv⟩]
      omega
    · have hif : ¬ value + 11 ≤ 21 := by omega
      obtain ⟨h1, h2⟩ := addAces_of_gt n (value + 1) (by omega)
      simp only [BlackjackGame.addAces, elevenCount, hif, if_false, h1, h2]
      refine ⟨?_, by omega, by omega⟩
      rw [if_neg (fun h => hv h.2)]
      omega

/-- C27: one Ace at a time, in closed form. For every hand with non-Ace sum `S` (face
cards 10) and `a` Aces, `calculateHandValue` is the Ace loop run from `S` over `a` Aces
(each Ace 11 if the running total plus 11 is at most 21, else 1), which is `S + a + 10`
when `a >= 1` and `S <= 10`, and `S + a` otherwise; at most one Ace is counted as 11.
`[A, K]` scores 21, `[A, A, 9]` scores 21, `[K, Q, 5]` scores 25. -/
theorem blackjack_score_closed_form (hand : List Card) :
    BlackjackGame.calculateHandValue hand =
      BlackjackGame.addAces (aceCount hand) (nonAceSum hand) ∧
    BlackjackGame.calculateHandValue hand =
      (if 1 ≤ aceCount hand ∧ nonAceSum hand ≤ 10 then nonAceSum hand + aceCount hand + 10
       else nonAceSum hand + aceCount hand) ∧
    BlackjackGame.calculateHandValue hand =
      nonAceSum hand + aceCount hand + 10 * elevenCount (aceCount hand) (nonAceSum hand) ∧
    elevenCount (aceCount hand) (nonAceSum hand) ≤ 1 ∧
    BlackjackGame.calculateHandValue [spade .A, spade .K] = 21 ∧
    BlackjackGame.calculateHandValue [spade .A, { suit := .hearts, value := .A }, spade .n9] =
      21 ∧
    BlackjackGame.calculateHandValue [spade .K, spade .Q, spade .n5] = 25 := by
  have hloop : BlackjackGame.calculateHandValue hand =
      BlackjackGame.addAces (aceCount hand) (nonAceSum hand) := by
    unfold BlackjackGame.calculateHandValue
    simp only [foldl_scoreCard_eq, Nat.zero_add]
  obtain ⟨h1, h2, h3⟩ := addAces_closed (aceCount hand) (nonAceSum hand)
  exact ⟨hloop, hloop.trans h1, hloop.trans h2, h3, by decide, by decide, by decide⟩

/-! ### Dealer loop termination -/

/-- The dealer loop adds at most `fuel` cards to the dealer hand. -/
theorem BlackjackGame.dealerLoop_length (fuel : ℕ) (g g1 : BlackjackGame)
    (h : BlackjackGame.dealerLoop fuel g = some g1) :
    g1.dealerHand.length ≤ g.dealerHand.length + fuel := by
  induction fuel generalizing g with
  | zero =>
    simp only [BlackjackGame.dealerLoop] at h
    split_ifs at h
    simp only [Option.some.injEq] at h
    rw [← h]
    omega
  | succ n ih =>
    simp only [BlackjackGame.dealerLoop] at h
    split_ifs at h
    · have := ih g.dealToDealer h
      rw [BlackjackGame.dealToDealer_length] at this
      omega
    · simp only [Option.some.injEq] at h
      rw [← h]
      omega

/-- C28: dealer loop termination. For every round in progress whose dealer hand has two
cards, whatever the deck and the random draws, the loop of `stand()` ends within 15 draws
(fuel 15 is enough and the dealer hand ends with at most 17 cards), because a hand scores
at least its number of cards, so 17 or more cards score at least 17; the score itself can
drop when a card is added: `[A, 5]` scores 16 and `[A, 5, 6]` scores 12. -/
theorem dealer_loop_terminates (g : BlackjackGame) (hhand : g.dealerHand.length = 2) :
    (∃ g1, BlackjackGame.dealerLoop 15 g = some g1 ∧
      17 ≤ BlackjackGame.calculateHandValue g1.dealerHand ∧
      g1.dealerHand.length ≤ 2 + 15) ∧
    (g.gameInProgress = true → ∃ g2, BlackjackGame.stand 15 g = some g2) ∧
    (∀ hand : List Card, 17 ≤ hand.length → 17 ≤ BlackjackGame.calculateHandValue hand) ∧
    (∀ (hand : List Card) (card : Card),
      hand.length + 1 ≤ (hand ++ [card]).length ∧
      (hand ++ [card]).length ≤ BlackjackGame.calculateHandValue (hand ++ [card])) ∧
    BlackjackGame.calculateHandValue [spade .A, spade .n5] = 16 ∧
    BlackjackGame.calculateHandValue [spade .A, spade .n5, spade .n6] = 12 := by
  obtain ⟨g1, h1, h2, _⟩ := BlackjackGame.dealerLoop_spec 15 g (by omega)
  have hlen := BlackjackGame.dealerLoop_length 15 g g1 h1
  refine ⟨⟨g1, h1, h2, by omega⟩, ?_, ?_, ?_, by decide, by decide⟩
  · intro hprog
    exact ⟨g1.determineWinner, by simp [BlackjackGame.stand, hprog, h1]⟩
  · intro hand hlen17
    exact le_trans hlen17 (length_le_calculateHandValue hand)
  · intro hand card
    exact ⟨by simp, length_le_calculateHandValue _⟩

/-- C28 at the round whose dealer holds K, 6 with a 5 next in the deck. -/
theorem dealer_loop_terminates_witness :
    dealerSixteen.dealerHand.length = 2 ∧
    ∃ g1, BlackjackGame.dealerLoop 15 dealerSixteen = some g1 ∧
      17 ≤ BlackjackGame.calculateHandValue g1.dealerHand ∧
      g1.dealerHand.length ≤ 2 + 15 :=
  ⟨rfl, (dealer_loop_terminates dealerSixteen rfl).1⟩

/-! ### Dice payout division -/

/-- C29: the division of `calculatePayout` is guarded by the win rule. For every integer
target, either bet type and every roll in `[1, 100]`: whenever the roll wins, the chance
used by `calculatePayout` is strictly positive, so is the multiplier `0.99 / chance`, and
for a positive stake the credited winnings are strictly positive. -/
theorem dice_payout_guarded (g : DiceGame) (b : ℚ) (target : ℤ) (roll : ℕ)
    (hlow : 1 ≤ roll) (hhigh : roll ≤ 100)
    (hwin : DiceGame.isWin g.betType roll target = true) :
    0 < DiceGame.chance g.betType target ∧
    g.calculatePayout target = 0.99 / DiceGame.chance g.betType target ∧
    0 < g.calculatePayout target ∧
    (0 < b →
      0 < b * g.calculatePayout target ∧
      (g.settle b target roll).gameState.balance =
        g.gameState.balance + b * g.calculatePayout target ∧
      g.gameState.balance < (g.settle b target roll).gameState.balance) := by
  have hchance : 0 < DiceGame.chance g.betType target := by
    rcases (DiceGame.isWin_iff g.betType roll target).mp hwin with ⟨hover, hgt⟩ | ⟨hunder, hlt⟩
    · have htarget : target < 100 := by omega
      have hq : (0 : ℚ) < ((100 - target : ℤ) : ℚ) := by exact_mod_cast (by omega : 0 < 100 - target)
      simp only [DiceGame.chance, hover, if_true]
      exact div_pos hq (by norm_num)
    · have hne : g.betType ≠ "over" := by rw [hunder]; decide
      have hq : (0 : ℚ) < (target : ℚ) := by exact_mod_cast (by omega : 0 < target)
      simp only [DiceGame.chance, hne, if_false]
      exact div_pos hq (by norm_num)
  have hpay : 0 < g.calculatePayout target := by
    unfold DiceGame.calculatePayout
    exact div_pos (by norm_num) hchance
  refine ⟨hchance, rfl, hpay, ?_⟩
  intro hb
  have hcredit : (g.settle b target roll).gameState.balance =
      g.gameState.balance + b * g.calculatePayout target := by
    simp [DiceGame.settle, hwin, GameState.addMoney]
  refine ⟨mul_pos hb hpay, hcredit, ?_⟩
  rw [hcredit]
  linarith [mul_pos hb hpay]

/-- C29 at target 50, bet type `over`, roll 51 and stake 100. -/
theorem dice_payout_guarded_witness :
    1 ≤ 51 ∧ 51 ≤ 100 ∧ DiceGame.isWin (diceAfterBet "over").betType 51 50 = true ∧
    (0 : ℚ) < 100 ∧
    0 < DiceGame.chance (diceAfterBet "over").betType 50 ∧
    (diceAfterBet "over").gameState.balance <
      ((diceAfterBet "over").settle 100 50 51).gameState.balance :=
  ⟨by decide, by decide, by decide!, by norm_num,
    (dice_payout_guarded (diceAfterBet "over") 100 50 51 (by decide) (by decide)
      (by decide!)).1,
    ((dice_payout_guarded (diceAfterBet "over") 100 50 51 (by decide) (by decide)
      (by decide!)).2.2.2 (by norm_num)).2.2⟩

/-! ### Mines multiplier: positivity and monotonicity -/

namespace MinesGame

/-- One factor of the probability product, for an index below the number of safe tiles:
positive and at most 1. -/
theorem factor_bounds (m k : ℕ) (hm : m ≤ 25) (hk : k < 25 - m) :
    0 < (((25 - (m : ℤ) - (k : ℤ) : ℤ) : ℚ) / (((25 : ℤ) - (k : ℤ) : ℤ) : ℚ)) ∧
    (((25 - (m : ℤ) - (k : ℤ) : ℤ) : ℚ) / (((25 : ℤ) - (k : ℤ) : ℤ) : ℚ)) ≤ 1 := by
  have hnum : (0 : ℚ) < ((25 - (m : ℤ) - (k : ℤ) : ℤ) : ℚ) := by
    exact_mod_cast (by omega : (0 : ℤ) < 25 - (m : ℤ) - (k : ℤ))
  have hden : (0 : ℚ) < (((25 : ℤ) - (k : ℤ) : ℤ) : ℚ) := by
    exact_mod_cast (by omega : (0 : ℤ) < 25 - (k : ℤ))
  have hle : ((25 - (m : ℤ) - (k : ℤ) : ℤ) : ℚ) ≤ (((25 : ℤ) - (k : ℤ) : ℤ) : ℚ) := by
    exact_mod_cast (by omega : 25 - (m : ℤ) - (k : ℤ) ≤ 25 - (k : ℤ))
  exact ⟨div_pos hnum hden, (div_le_one hden).mpr hle⟩

/-- The probability product is strictly positive as long as the gems found do not exceed
the safe tiles. -/
theorem probabilityLoop_pos (m g : ℕ) (hm : m ≤ 25) (hg : g ≤ 25 - m) :
    0 < probabilityLoop (25 - (m : ℤ)) 25 g := by
  induction g with
  | zero => simp [probabilityLoop]
  | succ k ih =>
    simp only [probabilityLoop]
    exact mul_pos (ih (by omega)) (factor_bounds m k hm (by omega)).1

/-- One more gem does not raise the probability product. -/
theorem probabilityLoop_succ_le (m g : ℕ) (hm : m ≤ 25) (hg : g < 25 - m) :
    probabilityLoop (25 - (m : ℤ)) 25 (g + 1) ≤ probabilityLoop (25 - (m : ℤ)) 25 g := by
  have hpos := probabilityLoop_pos m g hm (by omega)
  have hf := (factor_bounds m g hm hg).2
  simp only [probabilityLoop]
  calc probabilityLoop (25 - (m : ℤ)) 25 g *
        (((25 - (m : ℤ) - (g : ℤ) : ℤ) : ℚ) / (((25 : ℤ) - (g : ℤ) : ℤ) : ℚ))
      ≤ probabilityLoop (25 - (m : ℤ)) 25 g * 1 :=
        mul_le_mul_of_nonneg_left hf (le_of_lt hpos)
    _ = probabilityLoop (25 - (m : ℤ)) 25 g := mul_one _

/-- The multiplier is at least 1 in every state. -/
theorem one_le_calculateMultiplier (s : MinesGame) : 1 ≤ s.calculateMultiplier := by
  unfold calculateMultiplier
  simp only
  split_ifs
  · exact le_refl 1
  · exact le_max_left _ _

theorem stakeInv_act (s : MinesGame) (action : MinesAction) (h : StakeInv s) :
    StakeInv (s.act action) := by
  obtain ⟨hmul, hbet⟩ := h
  cases action with
  | startGame betAmount minesCount =>
    by_cases hguard : betAmount ≤ 0 ∨ betAmount > s.gameState.balance
    · have heq : s.startGame betAmount minesCount = { s with message := some .lose } := by
        simp [startGame, hguard]
      simp only [act, heq]
      exact ⟨hmul, hbet⟩
    · simp only [not_or, not_le, not_lt, gt_iff_lt] at hguard
      have hle : betAmount ≤ s.gameState.balance := hguard.2
      have hg2 : ¬ (betAmount ≤ 0 ∨ betAmount > s.gameState.balance) := by
        rintro (h | h)
        · exact absurd hguard.1 (not_lt.mpr h)
        · exact absurd hle (not_le.mpr h)
      simp only [act, StakeInv, startGame, hg2, GameState.removeMoney, hle]
      simp
      exact le_of_lt hguard.1
  | revealTile index =>
    by_cases hprog : s.gameInProgress = true
    · by_cases hnew : index ∈ s.revealed
      · simp only [act, revealTile_skip s index (Or.inr hnew)]
        exact ⟨hmul, hbet⟩
      · by_cases hmine : some index ∈ s.mines
        · simp only [act, revealTile_mine s index hprog hnew hmine]
          exact ⟨hmul, hbet⟩
        · simp only [act, revealTile_gem s index hprog hnew hmine]
          exact ⟨one_le_calculateMultiplier _, hbet⟩
    · simp only [act, revealTile_skip s index (Or.inl (by simpa using hprog))]
      exact ⟨hmul, hbet⟩
  | cashout =>
    simp only [act, StakeInv, cashout]
    split_ifs
    · exact ⟨hmul, hbet⟩
    · exact ⟨hmul, hbet⟩
  | resetGame =>
    simp [act, StakeInv, resetGame, createBoard]

theorem stakeInv_run (actions : List MinesAction) (s : MinesGame) (h : StakeInv s) :
    StakeInv (s.run actions) := by
  induction actions generalizing s with
  | nil => exact h
  | cons action rest ih => exact ih (s.act action) (stakeInv_act s action h)

end MinesGame

/-- C30: the Mines multiplier is well defined, at least 1 and monotone. For every mine
count `m` in `[0, 25]` and gems found `g` in `[0, 25 - m]` the probability product of
`calculateMultiplier` is strictly positive and the multiplier is at least 1; for
`g < 25 - m` the multiplier at `g + 1` is at least the multiplier at `g`; and in every
state reached from a new engine a cashout that pays credits at least the stake. -/
theorem mines_multiplier_monotone (s : MinesGame) (m g : ℕ)
    (hmines : s.mines.length = m) (hgems : s.gemsFound = g)
    (hm : m ≤ 25) (hg : g ≤ 25 - m) :
    0 < MinesGame.probabilityLoop (25 - (m : ℤ)) 25 g ∧
    1 ≤ s.calculateMultiplier ∧
    (g < 25 - m →
      s.calculateMultiplier ≤ ({ s with gemsFound := g + 1 } : MinesGame).calculateMultiplier) ∧
    (∀ (gameState : GameState) (rnd : Rand) (actions : List MinesAction),
      ((MinesGame.new gameState rnd).run actions).gameInProgress = true →
      ((MinesGame.new gameState rnd).run actions).gemsFound ≠ 0 →
      ((MinesGame.new gameState rnd).run actions).gameState.balance +
          ((MinesGame.new gameState rnd).run actions).currentBet ≤
        ((MinesGame.new gameState rnd).run actions).cashout.gameState.balance) := by
  refine ⟨MinesGame.probabilityLoop_pos m g hm hg, MinesGame.one_le_calculateMultiplier s,
    ?_, ?_⟩
  · intro hlt
    have hpos := MinesGame.probabilityLoop_pos m g hm hg
    have hpos1 := MinesGame.probabilityLoop_pos m (g + 1) hm (by omega)
    have hle := MinesGame.probabilityLoop_succ_le m g hm hlt
    have hrem : ¬ ((25 : ℤ) - ((g : ℕ) : ℤ) = 0) := by omega
    have hcur : s.calculateMultiplier =
        max 1 (0.95 / MinesGame.probabilityLoop (25 - (m : ℤ)) 25 g) := by
      simp only [MinesGame.calculateMultiplier, hmines, hgems, hrem, if_false]
    rw [hcur]
    by_cases hlast : (25 : ℤ) - ((g + 1 : ℕ) : ℤ) = 0
    · have hg24 : g = 24 := by omega
      have hm0 : m = 0 := by omega
      subst hg24 hm0
      have hone : MinesGame.probabilityLoop (25 - ((0 : ℕ) : ℤ)) 25 24 = 1 := by
        rw [MinesGame.probabilityLoop_eq, minesProbability_zero_mines 24 (by decide)]
      have hnext : ({ s with gemsFound := 24 + 1 } : MinesGame).calculateMultiplier = 1 := by
        simp only [MinesGame.calculateMultiplier, hlast, if_true]
      rw [hnext, hone]
      norm_num
    · have hnext : ({ s with gemsFound := g + 1 } : MinesGame).calculateMultiplier =
          max 1 (0.95 / MinesGame.probabilityLoop (25 - (m : ℤ)) 25 (g + 1)) := by
        simp only [MinesGame.calculateMultiplier, hmines, hlast, if_false]
      rw [hnext]
      apply max_le_max (le_refl 1)
      exact div_le_div_of_nonneg_left (by norm_num) hpos1 hle
  · intro gameState rnd actions hprog hgems0
    have hinv : MinesGame.StakeInv ((MinesGame.new gameState rnd).run actions) :=
      MinesGame.stakeInv_run actions _ (by simp [MinesGame.StakeInv, MinesGame.new,
        MinesGame.createBoard])
    obtain ⟨hmul, hbet⟩ := hinv
    have hskip : ¬ ((!((MinesGame.new gameState rnd).run actions).gameInProgress) = true ∨
        ((MinesGame.new gameState rnd).run actions).gemsFound = 0) := by
      simp [hprog, hgems0]
    have hbal : ((MinesGame.new gameState rnd).run actions).cashout.gameState.balance =
        ((MinesGame.new gameState rnd).run actions).gameState.balance +
          ((MinesGame.new gameState rnd).run actions).currentBet *
            ((MinesGame.new gameState rnd).run actions).currentMultiplier := by
      unfold MinesGame.cashout
      rw [if_neg hskip]
      rfl
    rw [hbal]
    have := mul_le_mul_of_nonneg_left hmul hbet
    linarith

/-- C30 at 5 mines and 3 gems found, and on a play that reveals one gem. -/
theorem mines_multiplier_monotone_witness :
    (minesState 5 3).mines.length = 5 ∧ (minesState 5 3).gemsFound = 3 ∧ 5 ≤ 25 ∧
    3 ≤ 25 - 5 ∧ 3 < 25 - 5 ∧
    (minesState 5 3).calculateMultiplier ≤
      ({ minesState 5 3 with gemsFound := 3 + 1 } : MinesGame).calculateMultiplier ∧
    (minesStart.run [.startGame 100 5, .revealTile 0]).gameInProgress = true ∧
    (minesStart.run [.startGame 100 5, .revealTile 0]).gemsFound ≠ 0 ∧
    (minesStart.run [.startGame 100 5, .revealTile 0]).gameState.balance +
        (minesStart.run [.startGame 100 5, .revealTile 0]).currentBet ≤
      (minesStart.run [.startGame 100 5, .revealTile 0]).cashout.gameState.balance :=
  ⟨by decide, rfl, by decide, by decide, by decide,
    (mines_multiplier_monotone (minesState 5 3) 5 3 (by decide) rfl (by decide)
      (by decide)).2.2.1 (by decide),
    by decide!, by decide!,
    (mines_multiplier_monotone (minesState 5 3) 5 3 (by decide) rfl (by decide)
      (by decide)).2.2.2 { balance := 5000 } (fun _ => 1 / 2)
      [.startGame 100 5, .revealTile 0] (by decide!) (by decide!)⟩

/-! ### Overlapping rounds -/

/-- While the wheel is spinning `RouletteGame.spin()` returns at once. -/
theorem RouletteGame.rouletteSpin_ignored (g : RouletteGame) (a r : ℚ) (h : g.isSpinning = true) :
    g.spin a r = g := by
  simp [RouletteGame.spin, h]

/-- While the reels are spinning `SlotsGame.spin()` returns at once. -/
theorem SlotsGame.slotsSpin_ignored (g : SlotsGame) (a : ℚ) (h : g.isSpinning = true) :
    g.spin a = g := by
  simp [SlotsGame.spin, h]

/-- While a ball is dropping `PlinkoGame.dropBall()` returns at once. -/
theorem PlinkoGame.dropBall_ignored (g : PlinkoGame) (a : ℚ) (h : g.isDropping = true) :
    g.dropBall a = g := by
  simp [PlinkoGame.dropBall, h]

/-- While a round is playing `LimboGame.play()` returns at once. -/
theorem LimboGame.play_ignored (g : LimboGame) (a target r : ℚ) (h : g.isPlaying = true) :
    g.play a target r = g := by
  simp [LimboGame.play, h]

/-- C25 as stated fails for the two methods without a flag test, called on a round in
progress. `BlackjackGame.deal()` during a round (stake 100 debited from 5000, player
10, 6 against dealer K, 9) is not ignored: it debits another 100 (balance 4800) and
replaces both hands. `MinesGame.startGame()` during a round with 3 gems found (balance
4900) debits another 100 and clears the revealed tiles, the gems found and the mines. -/
theorem deal_during_round_counterexample :
    (BlackjackGame.deal 17 traceStart 100).map
        (fun g => (g.gameInProgress, g.gameState.balance, g.currentBet)) =
      some (true, 4900, 100) ∧
    (BlackjackGame.deal 17 traceStart 100).map (fun g => (g.playerHand, g.dealerHand)) =
      some ([spade .n10, spade .n6], [spade .K, spade .n9]) ∧
    ((BlackjackGame.deal 17 traceStart 100).bind fun g => BlackjackGame.deal 17 g 100).map
        (fun g => (g.gameInProgress, g.gameState.balance, g.currentBet)) =
      some (true, 4800, 100) ∧
    ((BlackjackGame.deal 17 traceStart 100).bind fun g => BlackjackGame.deal 17 g 100).map
        (fun g => (g.playerHand, g.dealerHand)) =
      some ([{ suit := .hearts, value := .K }, spade .Q],
        [{ suit := .hearts, value := .n9 }, spade .n8]) ∧
    (minesState 5 3).gameInProgress = true ∧
    (minesState 5 3).gameState.balance = 4900 ∧
    (minesState 5 3).revealed = [5, 6, 7] ∧
    ((minesState 5 3).startGame 100 2).gameState.balance = 4800 ∧
    ((minesState 5 3).startGame 100 2).revealed = [] ∧
    ((minesState 5 3).startGame 100 2).gemsFound = 0 ∧
    ((minesState 5 3).startGame 100 2).mines = [some 0, some 1] := by
  decide!

/-! ### The gate of `deal()` and `startGame()` -/

namespace BlackjackPage

theorem updateButtons_game (p : BlackjackPage) : p.updateButtons.game = p.game := rfl

/-- The engine inside the page runs `endGame` as modelled without the buttons. -/
theorem endGame_game (p : BlackjackPage) (result : BlackjackResult) :
    (p.endGame result).game = p.game.endGame result := by
  cases result <;> rfl

/-- The engine inside the page runs `stand()` as modelled without the buttons. -/
theorem stand_game (fuel : ℕ) (p : BlackjackPage) :
    (p.stand fuel).map (fun q => q.game) = p.game.stand fuel := by
  simp only [stand, BlackjackGame.stand]
  split_ifs
  · rfl
  · cases hloop : BlackjackGame.dealerLoop fuel p.game with
    | none => rfl
    | some g => simp [determineWinner, BlackjackGame.determineWinner, endGame_game]

/-- The engine inside the page runs `hit()` as modelled without the buttons. -/
theorem hit_game (fuel : ℕ) (p : BlackjackPage) :
    (p.hit fuel).map (fun q => q.game) = p.game.hit fuel := by
  simp only [hit, BlackjackGame.hit]
  split_ifs
  · rfl
  · simp only [Option.map_some', endGame_game]
  · exact stand_game fuel _
  · rfl

/-- The engine inside the page runs `deal()` as modelled without the buttons. -/
theorem deal_game (fuel : ℕ) (p : BlackjackPage) (betAmount : ℚ) :
    (p.deal fuel betAmount).map (fun q => q.game) = p.game.deal fuel betAmount := by
  simp only [deal, BlackjackGame.deal, updateButtons_game]
  split_ifs
  · rfl
  · rfl
  · exact stand_game fuel _
  · rfl

theorem endGame_gated (p : BlackjackPage) (result : BlackjackResult) :
    Gated (p.endGame result) := by
  intro h
  rw [endGame_game] at h
  cases result <;> simp [BlackjackGame.endGame] at h

theorem stand_gated (fuel : ℕ) (hfuel : 17 ≤ fuel) (p : BlackjackPage) (h : Gated p) :
    ∃ p1, p.stand fuel = some p1 ∧ Gated p1 := by
  by_cases hprog : p.game.gameInProgress = true
  · obtain ⟨g1, h1, _⟩ := BlackjackGame.dealerLoop_spec fuel p.game (by omega)
    exact ⟨({ p with game := g1 }).determineWinner, by simp [stand, hprog, h1],
      endGame_gated _ _⟩
  · exact ⟨p, by simp [stand, hprog], h⟩

theorem hit_gated (fuel : ℕ) (hfuel : 17 ≤ fuel) (p : BlackjackPage) (h : Gated p) :
    ∃ p1, p.hit fuel = some p1 ∧ Gated p1 := by
  by_cases hprog : p.game.gameInProgress = true
  · have hg : Gated { p with game := p.game.dealToPlayer } := fun _ => h hprog
    by_cases hbust :
        BlackjackGame.calculateHandValue p.game.dealToPlayer.playerHand > 21
    · exact ⟨({ p with game := p.game.dealToPlayer }).endGame .bust,
        by simp [hit, hprog, hbust], endGame_gated _ _⟩
    · by_cases h21 : BlackjackGame.calculateHandValue p.game.dealToPlayer.playerHand = 21
      · obtain ⟨p1, h1, h2⟩ := stand_gated fuel hfuel _ hg
        exact ⟨p1, by simp [hit, hprog, h21, h1], h2⟩
      · exact ⟨{ p with game := p.game.dealToPlayer }, by simp [hit, hprog, hbust, h21], hg⟩
  · exact ⟨p, by simp [hit, hprog], h⟩

theorem deal_gated (fuel : ℕ) (hfuel : 17 ≤ fuel) (p : BlackjackPage) (betAmount : ℚ)
    (h : Gated p) : ∃ p1, p.deal fuel betAmount = some p1 ∧ Gated p1 := by
  simp only [deal]
  split_ifs
  · exact ⟨_, rfl, h⟩
  · exact ⟨_, rfl, h⟩
  · exact stand_gated fuel hfuel _ (fun _ => by simp [updateButtons, BlackjackGame.dealToPlayer,
      BlackjackGame.dealToDealer])
  · exact ⟨_, rfl, fun _ => by simp [updateButtons, BlackjackGame.dealToPlayer,
      BlackjackGame.dealToDealer]⟩

theorem click_gated (fuel : ℕ) (hfuel : 17 ≤ fuel) (p : BlackjackPage) (c : BlackjackClick)
    (h : Gated p) : ∃ p1, p.click fuel c = some p1 ∧ Gated p1 := by
  cases c with
  | deal betAmount =>
    by_cases hd : p.dealDisabled = true
    · exact ⟨p, by simp [click, clickDeal, hd], h⟩
    · simpa [click, clickDeal, hd] using deal_gated fuel hfuel p betAmount h
  | hit =>
    by_cases hd : p.hitDisabled = true
    · exact ⟨p, by simp [click, clickHit, hd], h⟩
    · simpa [click, clickHit, hd] using hit_gated fuel hfuel p h
  | stand =>
    by_cases hd : p.standDisabled = true
    · exact ⟨p, by simp [click, clickStand, hd], h⟩
    · simpa [click, clickStand, hd] using stand_gated fuel hfuel p h
  | elsewhere gameState => exact ⟨_, rfl, h⟩

theorem clicks_gated (fuel : ℕ) (hfuel : 17 ≤ fuel) (cs : List BlackjackClick)
    (p : BlackjackPage) (h : Gated p) : ∃ p1, p.clicks fuel cs = some p1 ∧ Gated p1 := by
  induction cs generalizing p with
  | nil => exact ⟨p, rfl, h⟩
  | cons c rest ih =>
    obtain ⟨p1, h1, h2⟩ := click_gated fuel hfuel p c h
    obtain ⟨p2, h3, h4⟩ := ih p1 h2
    exact ⟨p2, by simp [clicks, h1, h3], h4⟩

end BlackjackPage

namespace MinesPage

/-- The engine inside the page runs `startGame()` as modelled without the buttons. -/
theorem startGame_game (p : MinesPage) (betAmount : ℚ) (minesCount : ℕ) :
    (p.startGame betAmount minesCount).game = p.game.startGame betAmount minesCount := by
  simp only [startGame, MinesGame.startGame]
  split_ifs <;> rfl

/-- The engine inside the page runs `revealTile(index)` as modelled without the buttons. -/
theorem revealTile_game (p : MinesPage) (index : ℕ) :
    (p.revealTile index).game = p.game.revealTile index := by
  simp only [revealTile, MinesGame.revealTile]
  split_ifs <;> rfl

/-- The engine inside the page runs `cashout()` as modelled without the buttons. -/
theorem cashout_game (p : MinesPage) : p.cashout.game = p.game.cashout := by
  simp only [cashout, MinesGame.cashout]
  split_ifs <;> rfl

/-- The engine inside the page runs `resetGame()` as modelled without the buttons. -/
theorem resetGame_game (p : MinesPage) : p.resetGame.game = p.game.resetGame := rfl

theorem startGame_gated (p : MinesPage) (betAmount : ℚ) (minesCount : ℕ) (h : Gated p) :
    Gated (p.startGame betAmount minesCount) := by
  simp only [startGame]
  split_ifs
  · exact h
  · exact h
  · intro _
    simp [updateButtons]

theorem revealTile_gated (p : MinesPage) (index : ℕ) (h : Gated p) :
    Gated (p.revealTile index) := by
  simp only [revealTile]
  split_ifs
  · exact h
  · intro hprog
    simp [updateButtons] at hprog
  · intro hprog
    simpa [updateButtons] using hprog

theorem cashout_gated (p : MinesPage) (h : Gated p) : Gated p.cashout := by
  simp only [cashout]
  split_ifs
  · exact h
  · intro hprog
    simp [updateButtons] at hprog

theorem resetGame_gated (p : MinesPage) : Gated p.resetGame := by
  intro hprog
  simp [resetGame, updateButtons, MinesGame.createBoard] at hprog

theorem minesClick_gated (p : MinesPage) (c : MinesClick) (h : Gated p) : Gated (p.click c) := by
  cases c with
  | start betAmount minesCount =>
    by_cases hd : p.startDisabled = true
    · simpa [click, clickStart, hd] using h
    · simpa [click, clickStart, hd] using startGame_gated p betAmount minesCount h
  | tile index => exact revealTile_gated p index h
  | cashout =>
    by_cases hd : p.cashoutDisabled = true
    · simpa [click, clickCashout, hd] using h
    · simpa [click, clickCashout, hd] using cashout_gated p h
  | reset =>
    by_cases hd : p.resetDisabled = true
    · simpa [click, clickReset, hd] using h
    · simpa [click, clickReset, hd] using resetGame_gated p
  | elsewhere gameState => exact h

theorem minesClicks_gated (cs : List MinesClick) (p : MinesPage) (h : Gated p) :
    Gated (p.clicks cs) := by
  induction cs generalizing p with
  | nil => exact h
  | cons c rest ih => exact ih (p.click c) (minesClick_gated p c h)

end MinesPage

/-- C25, amended: no overlapping rounds. `RouletteGame.spin()`, `SlotsGame.spin()`,
`PlinkoGame.dropBall()` and `LimboGame.play()` called while their flag is set return at
once, with nothing debited and the state unchanged. `BlackjackGame.deal()` and
`MinesGame.startGame()` are gated by their button instead: in every state that clicks
(and activity elsewhere on the shared wallet) reach from a page with no round in
progress (the result exists for fuel 17 or more), a round in progress means that
`deal-btn` (`start-mines-btn`) is disabled, and a click on it then changes nothing,
neither the balance nor the hands, mines, revealed tiles or current bet. A click on the
enabled button runs the method as the engine model has it. -/
theorem bet_during_round_gated (fuel : ℕ) (hfuel : 17 ≤ fuel)
    (p0 : BlackjackPage) (h0 : p0.game.gameInProgress = false) (cs : List BlackjackClick)
    (m0 : MinesPage) (hm0 : m0.game.gameInProgress = false) (ms : List MinesClick) :
    (∀ (g : RouletteGame) (a r : ℚ), g.isSpinning = true → g.spin a r = g) ∧
    (∀ (g : SlotsGame) (a : ℚ), g.isSpinning = true → g.spin a = g) ∧
    (∀ (g : PlinkoGame) (a : ℚ), g.isDropping = true → g.dropBall a = g) ∧
    (∀ (g : LimboGame) (a t r : ℚ), g.isPlaying = true → g.play a t r = g) ∧
    (∃ p, p0.clicks fuel cs = some p ∧
      (p.game.gameInProgress = true →
        p.dealDisabled = true ∧ ∀ a, p.clickDeal fuel a = some p) ∧
      (p.dealDisabled = false →
        ∀ a, (p.clickDeal fuel a).map (fun q => q.game) = p.game.deal fuel a)) ∧
    ((m0.clicks ms).game.gameInProgress = true →
      (m0.clicks ms).startDisabled = true ∧
      ∀ a n, (m0.clicks ms).clickStart a n = m0.clicks ms) ∧
    ((m0.clicks ms).startDisabled = false →
      ∀ a n, ((m0.clicks ms).clickStart a n).game = (m0.clicks ms).game.startGame a n) := by
  refine ⟨fun g a r h => by simp [RouletteGame.spin, h],
    fun g a h => by simp [SlotsGame.spin, h],
    fun g a h => by simp [PlinkoGame.dropBall, h],
    fun g a t r h => by simp [LimboGame.play, h], ?_, ?_, ?_⟩
  · have hg0 : BlackjackPage.Gated p0 := by
      intro h
      rw [h0] at h
      exact absurd h (by decide)
    obtain ⟨p, hp, hg⟩ := BlackjackPage.clicks_gated fuel hfuel cs p0 hg0
    refine ⟨p, hp, ?_, ?_⟩
    · intro hprog
      exact ⟨hg hprog, fun a => by simp [BlackjackPage.clickDeal, hg hprog]⟩
    · intro hd a
      simp only [BlackjackPage.clickDeal, hd]
      exact BlackjackPage.deal_game fuel p a
  · have hg0 : MinesPage.Gated m0 := by
      intro h
      rw [hm0] at h
      exact absurd h (by decide)
    have hg := MinesPage.minesClicks_gated ms m0 hg0
    intro hprog
    exact ⟨hg hprog, fun a n => by simp [MinesPage.clickStart, hg hprog]⟩
  · intro hd a n
    simp only [MinesPage.clickStart, hd]
    exact MinesPage.startGame_game _ a n

/-- C25, amended, at two rounds. After a click on Deal with 100 (balance 5000, player 10, 6 against
K, 9) the round is in progress, `deal-btn` is disabled, and a second click on Deal
leaves the page as it is, the balance at 4900. After Start with 100 and five mines and
a gem on tile 0, `start-mines-btn` is disabled and a click on Start changes nothing. -/
theorem bet_during_round_gated_witness :
    17 ≤ 17 ∧ tracePage.game.gameInProgress = false ∧ minesPage.game.gameInProgress = false ∧
    (∃ p, tracePage.clicks 17 [.deal 100] = some p ∧
      p.game.gameInProgress = true ∧ p.game.gameState.balance = 4900 ∧
      p.game.playerHand = [spade .n10, spade .n6] ∧
      p.dealDisabled = true ∧ p.clickDeal 17 100 = some p) ∧
    (minesPage.clicks [.start 100 5, .tile 0]).game.gameInProgress = true ∧
    (minesPage.clicks [.start 100 5, .tile 0]).game.gemsFound = 1 ∧
    (minesPage.clicks [.start 100 5, .tile 0]).game.gameState.balance = 4900 ∧
    (minesPage.clicks [.start 100 5, .tile 0]).startDisabled = true ∧
    (minesPage.clicks [.start 100 5, .tile 0]).clickStart 100 2 =
      minesPage.clicks [.start 100 5, .tile 0] := by
  have hthm := bet_during_round_gated 17 (le_refl 17) tracePage rfl [.deal 100]
    minesPage rfl [.start 100 5, .tile 0]
  obtain ⟨p, hp, hgate, _⟩ := hthm.2.2.2.2.1
  have hval : (tracePage.clicks 17 [.deal 100]).map
      (fun q => (q.game.gameInProgress, q.game.gameState.balance, q.game.playerHand)) =
      some (true, 4900, [spade .n10, spade .n6]) := by decide!
  rw [hp] at hval
  simp only [Option.map_some', Option.some.injEq, Prod.mk.injEq] at hval
  have hmines : (minesPage.clicks [.start 100 5, .tile 0]).game.gameInProgress = true := by
    decide!
  exact ⟨le_refl 17, rfl, rfl,
    ⟨p, hp, hval.1, hval.2.1, hval.2.2, (hgate hval.1).1, (hgate hval.1).2 100⟩,
    hmines, by decide!, by decide!, (hthm.2.2.2.2.2.1 hmines).1,
    (hthm.2.2.2.2.2.1 hmines).2 100 2⟩

/-! ### The ledger on JavaScript numbers -/

/-- The test `b >= x` fails exactly when `x > b` or one of the two is `NaN`. -/
theorem JSNumber.ge_eq_false_iff (b x : JSNumber) :
    b.ge x = false ↔ (x.gt b = true ∨ x = .nan ∨ b = .nan) := by
  cases b <;> cases x <;> simp [JSNumber.ge, JSNumber.gt]

/-- On finite numbers the ledger on doubles accepts and refuses as the exact ledger does,
and the accepted debit leaves the exact difference rounded. -/
theorem removeMoney_finite_agrees (gs : GameState) (x : ℚ) :
    (Binary64.GameState.removeMoney ⟨.finite gs.balance⟩ (.finite x)).2 = (gs.removeMoney x).2 ∧
    ((gs.removeMoney x).2 = true →
      (Binary64.GameState.removeMoney ⟨.finite gs.balance⟩ (.finite x)).1.balance =
        JSNumber.ofExact (gs.removeMoney x).1.balance) := by
  by_cases h : gs.balance ≥ x
  · simp [Binary64.GameState.removeMoney, GameState.removeMoney, JSNumber.ge, JSNumber.sub, h]
  · simp [Binary64.GameState.removeMoney, GameState.removeMoney, JSNumber.ge, h]

/-- C1 as stated fails: with balance 5000 and the amount `NaN`, which is what
`parseFloat` makes of an empty bet field, `removeMoney` returns false and leaves the
balance unchanged although `NaN > 5000` is false; so "refused if and only if `x > b`"
fails there. -/
theorem ledger_debit_nan_counterexample :
    (Binary64.GameState.removeMoney ⟨.finite 5000⟩ .nan).2 = false ∧
    (Binary64.GameState.removeMoney ⟨.finite 5000⟩ .nan).1 = ⟨.finite 5000⟩ ∧
    JSNumber.gt .nan (.finite 5000) = false ∧
    ¬ (((Binary64.GameState.removeMoney ⟨.finite 5000⟩ .nan).2 = false ∧
          (Binary64.GameState.removeMoney ⟨.finite 5000⟩ .nan).1 = ⟨.finite 5000⟩) ↔
        JSNumber.gt .nan (.finite 5000) = true) := by
  decide

/-- C1, amended: for every balance `b` and amount `x`, `removeMoney(x)` returns false
and leaves the balance unchanged exactly when the test `b >= x` fails, that is when
`x > b` or `x` is `NaN` (or `b` is `NaN`); otherwise it returns true and the new balance
is the double `b - x`; a finite `x = b` succeeds and leaves 0. -/
theorem ledger_debit (b x : JSNumber) :
    (((Binary64.GameState.removeMoney ⟨b⟩ x).2 = false ∧
        (Binary64.GameState.removeMoney ⟨b⟩ x).1 = ⟨b⟩) ↔
      (x.gt b = true ∨ x = .nan ∨ b = .nan)) ∧
    (¬ (x.gt b = true ∨ x = .nan ∨ b = .nan) →
      Binary64.GameState.removeMoney ⟨b⟩ x = (⟨b.sub x⟩, true)) ∧
    (∀ q : ℚ, b = .finite q → x = .finite q →
      Binary64.GameState.removeMoney ⟨b⟩ x = (⟨.finite 0⟩, true)) := by
  have hiff := JSNumber.ge_eq_false_iff b x
  refine ⟨?_, ?_, ?_⟩
  · rw [← hiff]
    by_cases h : b.ge x = true
    · simp [Binary64.GameState.removeMoney, h]
    · simp [Binary64.GameState.removeMoney, h]
  · intro hn
    have h : b.ge x = true := by
      by_contra hc
      exact hn (hiff.mp (by simpa using hc))
    simp [Binary64.GameState.removeMoney, h]
  · intro q hb hx
    subst hb hx
    have h0 : JSNumber.ofExact 0 = .finite 0 := by decide!
    simp [Binary64.GameState.removeMoney, JSNumber.ge, JSNumber.sub, h0]

/-- C1, amended, at three inputs: an empty field (`NaN`) is refused, 5000 from 5000 leaves 0, and
5001 from 5000 is refused. -/
theorem ledger_debit_witness :
    Binary64.GameState.removeMoney ⟨.finite 5000⟩ .nan = (⟨.finite 5000⟩, false) ∧
    Binary64.GameState.removeMoney ⟨.finite 5000⟩ (.finite 5000) = (⟨.finite 0⟩, true) ∧
    Binary64.GameState.removeMoney ⟨.finite 5000⟩ (.finite 5001) = (⟨.finite 5000⟩, false) :=
  ⟨Prod.ext ((ledger_debit (.finite 5000) .nan).1.mpr (Or.inr (Or.inl rfl))).2
      ((ledger_debit (.finite 5000) .nan).1.mpr (Or.inr (Or.inl rfl))).1,
    (ledger_debit (.finite 5000) (.finite 5000)).2.2 5000 rfl rfl,
    Prod.ext ((ledger_debit (.finite 5000) (.finite 5001)).1.mpr (Or.inl (by decide))).2
      ((ledger_debit (.finite 5000) (.finite 5001)).1.mpr (Or.inl (by decide))).1⟩

/-- C26: the code at the failing input. The balance 3567.9 is what the debit of 1432.1
leaves of the opening 5000; from it `removeMoney(1234.78)` succeeds and leaves 2333.12,
and the following `addMoney(1234.78)` leaves 3567.8999999999996, one unit in the last
place (`2 ^ (-41)`) below the balance before the round trip. -/
theorem ledger_round_trip_drift :
    roundDouble (14321 / 10) = double1432_1 ∧
    roundDouble (35679 / 10) = double3567_9 ∧
    roundDouble (123478 / 100) = double1234_78 ∧
    Binary64.GameState.removeMoney ⟨.finite 5000⟩ (.finite double1432_1) =
      (⟨.finite double3567_9⟩, true) ∧
    0 < double1234_78 ∧ double1234_78 ≤ double3567_9 ∧
    Binary64.GameState.removeMoney ⟨.finite double3567_9⟩ (.finite double1234_78) =
      (⟨.finite (roundDouble (233312 / 100))⟩, true) ∧
    (Binary64.GameState.removeMoney ⟨.finite double3567_9⟩ (.finite double1234_78)).1.addMoney
        (.finite double1234_78) =
      ⟨.finite (double3567_9 - 1 / 2199023255552)⟩ ∧
    (Binary64.GameState.removeMoney ⟨.finite double3567_9⟩ (.finite double1234_78)).1.addMoney
        (.finite double1234_78) ≠
      ⟨.finite double3567_9⟩ ∧
    (35678999999999995 : ℚ) / 10000000000000 < double3567_9 - 1 / 2199023255552 ∧
    double3567_9 - 1 / 2199023255552 < 35678999999999997 / 10000000000000 := by
  decide!

end PSFC
